import Mathlib

/-!
# R-Type server core: message codec, entity store and collision system

A shallow embedding of the parts of the repository that the wire protocol and the
entity-component store are built from:

* `src/libs/ecs/Message.hpp`             : `RFC`, `Message::serialize`, `Message::deserialize`
* `src/libs/ecs/Components.hpp`          : `PositionComponent`, `HitboxComponent`,
  `PlayerComponent`
* `src/libs/ecs/CollisionSystem.hpp`     : `CollisionSystem`
* `src/libs/ecs/EnemyMovementSystem.hpp` : `EnemyMovementSystem`
* `src/libs/ecs/Registry.hpp`            : `Registry` (entities, component map, systems)
* `src/server/src/game/Client.cpp`       : `Client` (the queues of a connection, its writes,
  its mutex)
* `src/server/src/game/ConnectionManager.cpp` : the accept loop
* `src/server/src/game/Server.hpp`       : `Server` (inputs, spawning, elimination, the loop)
* `src/server/src/utilities/*.hpp`       : `GameUtilities`, `RandomUtilities`
* `src/server/src/core/MainServer.cpp`, `src/server/src/main.cpp` : the exit status
* `src/client/src/GameClient.cpp`        : the read handler of the client, `updateGameState`

Conventions of the embedding.

* A `std::string` is a `List Char`.
* An `int` is an `Int`; where the code increments one (`nextEntityId++`) the result is wrapped
  to 32 bits.
* A `float` coordinate is an exact rational (`ℚ`): comparisons and sums are the exact ones.
* A `std::shared_ptr<Component>` is an `Option Component`, `none` being the null pointer.
* The `std::unordered_map` of components is a list of entries; its iteration order is the
  order of the list, and every theorem holds for every order.
* A random draw is an input: the unit sample the freshly seeded engine yields.
* Code that can run into undefined behaviour (a null pointer dereferenced, a vector indexed
  out of range) returns an `Option`, `none` standing for the undefined behaviour.
-/

namespace RType

/-! ## `Message.hpp` -/

/-- The value of an `enum class RFC` object: its underlying `int`.  A `static_cast<RFC>(k)`
produces the value `k` whether or not `k` is one of the five enumerators. -/
structure RFC where
  code : Int
deriving DecidableEq, Repr

namespace RFC

/-- Enumerator `STATE_UPDATE = 200`. -/
def STATE_UPDATE : RFC := ⟨200⟩
/-- Enumerator `INPUT = 210`. -/
def INPUT : RFC := ⟨210⟩
/-- Enumerator `NEW_ENTITY = 220`. -/
def NEW_ENTITY : RFC := ⟨220⟩
/-- Enumerator `ENTITY_DEAD = 230`. -/
def ENTITY_DEAD : RFC := ⟨230⟩
/-- Enumerator `GAME_OVER = 400`. -/
def GAME_OVER : RFC := ⟨400⟩

/-- The five enumerators declared by `enum class RFC`. -/
def known : List RFC := [STATE_UPDATE, INPUT, NEW_ENTITY, ENTITY_DEAD, GAME_OVER]

end RFC

/-- The struct `Message`: a type and a content string. -/
structure Message where
  type : RFC
  content : List Char
deriving DecidableEq, Repr

/-- Smallest value of a 32-bit `int`. -/
def INT_MIN : Int := -2147483648
/-- Largest value of a 32-bit `int`. -/
def INT_MAX : Int := 2147483647

/-- Decimal text that `operator<<(int)` writes: a minus sign for a negative value, then the
digits of the magnitude. -/
def intToChars (n : Int) : List Char :=
  if n < 0 then '-' :: Nat.toDigits 10 n.natAbs else Nat.toDigits 10 n.natAbs

/-- An input string stream: the characters not yet read, and whether the stream is still
`good()` (neither `failbit` nor `eofbit` has been set). -/
structure IStringStream where
  buf : List Char
  good : Bool
deriving DecidableEq, Repr

/-- The whitespace characters of the classic locale, skipped by a formatted extraction. -/
def isSpace (c : Char) : Bool :=
  c = ' ' || c = '\t' || c = '\n' || c = '\x0b' || c = '\x0c' || c = '\r'

/-- Drops the leading whitespace of a buffer. -/
def skipWs : List Char → List Char
  | [] => []
  | c :: cs => if isSpace c then skipWs cs else c :: cs

/-- The longest prefix of decimal digits of a buffer. -/
def takeDigits : List Char → List Char
  | [] => []
  | c :: cs => if c.isDigit then c :: takeDigits cs else []

/-- What is left of a buffer after its longest prefix of decimal digits. -/
def dropDigits : List Char → List Char
  | [] => []
  | c :: cs => if c.isDigit then dropDigits cs else c :: cs

/-- Value of a string of decimal digits. -/
def digitsValue (ds : List Char) : Nat :=
  ds.foldl (fun n c => 10 * n + (c.toNat - 48)) 0

/-- The optional sign in front of a number: whether it is a minus, and the buffer after it. -/
def takeSign : List Char → Bool × List Char
  | [] => (false, [])
  | c :: cs => if c = '-' then (true, cs) else if c = '+' then (false, cs) else (false, c :: cs)

/-- The formatted extraction `iss >> messageType` for an `int` target holding `target`.

* On a stream that is not good, or holds only whitespace, the sentry fails and the target is
  left as it was.
* Otherwise an optional sign and the following digits are consumed.  Without a digit the
  target becomes `0` and the stream fails; a value outside the `int` range is clamped and the
  stream fails; reading the digits up to the end of the buffer sets `eofbit`. -/
def extractInt (s : IStringStream) (target : Int) : Int × IStringStream :=
  if !s.good then (target, s)
  else
    let b := skipWs s.buf
    if b = [] then (target, ⟨[], false⟩)
    else
      let sg := takeSign b
      let ds := takeDigits sg.2
      let rest := dropDigits sg.2
      if ds = [] then (0, ⟨rest, false⟩)
      else
        let v : Int := if sg.1 then -(digitsValue ds : Int) else (digitsValue ds : Int)
        if v < INT_MIN then (INT_MIN, ⟨rest, false⟩)
        else if INT_MAX < v then (INT_MAX, ⟨rest, false⟩)
        else (v, ⟨rest, !rest.isEmpty⟩)

/-- The unformatted `iss.ignore()`: skips one character of a good stream. -/
def ignore (s : IStringStream) : IStringStream :=
  if !s.good then s
  else
    match s.buf with
    | [] => ⟨[], false⟩
    | _ :: cs => ⟨cs, true⟩

/-- The characters of a buffer before its first newline. -/
def takeLine : List Char → List Char
  | [] => []
  | c :: cs => if c = '\n' then [] else c :: takeLine cs

/-- What follows the first newline of a buffer, if there is one. -/
def dropLine : List Char → Option (List Char)
  | [] => none
  | c :: cs => if c = '\n' then some cs else dropLine cs

/-- The call `std::getline(iss, str)`: on a good stream the string is replaced by the
characters up to the first newline, which is consumed; a stream that is not good leaves the
string as it was. -/
def getline (s : IStringStream) (str : List Char) : List Char × IStringStream :=
  if !s.good then (str, s)
  else
    match dropLine s.buf with
    | none => (takeLine s.buf, ⟨[], false⟩)
    | some cs => (takeLine s.buf, ⟨cs, true⟩)

/-- The characters of a number token: an optional minus sign and the digits. -/
def signChars (neg : Bool) : List Char := if neg then ['-'] else []

/-- The integer a sign and a digit string denote. -/
def signedValue (neg : Bool) (ds : List Char) : Int :=
  if neg then -(digitsValue ds : Int) else (digitsValue ds : Int)

namespace Message

/-- The method `Message::serialize`: `oss << static_cast<int>(type) << " " << content`. -/
def serialize (m : Message) : List Char :=
  intToChars m.type.code ++ ' ' :: m.content

/-- The function `Message::deserialize`.  The local `int messageType` is declared without an
initialiser; `uninit` is the value it happens to hold. -/
def deserialize (uninit : Int) (data : List Char) : Message :=
  let r := extractInt ⟨data, true⟩ uninit
  let s := ignore r.2
  let l := getline s []
  ⟨⟨r.1⟩, l.1⟩

end Message



/-! ## `Entity.hpp`, `Components.hpp` -/

/-- The class `Entity`: a wrapper around an integer identifier. -/
structure Entity where
  id_ : Int
deriving DecidableEq, Repr

/-- The accessor `Entity::id`. -/
def Entity.id (e : Entity) : Int := e.id_

/-- The class `PositionComponent`. -/
structure PositionComponent where
  x : ℚ
  y : ℚ
deriving DecidableEq, Repr

/-- The class `HitboxComponent`. -/
structure HitboxComponent where
  width : ℚ
  height : ℚ
deriving DecidableEq, Repr

/-- The class `PlayerComponent`. -/
structure PlayerComponent where
  clientId : Int
  isActive : Bool
deriving DecidableEq, Repr

/-- An object of a class derived from `Component`. -/
inductive Component where
  | position (c : PositionComponent)
  | hitbox (c : HitboxComponent)
  | player (c : PlayerComponent)
deriving DecidableEq, Repr

/-- The `std::type_index` values of the three component classes. -/
inductive Kind where
  | Position
  | Hitbox
  | Player
deriving DecidableEq, Repr

/-- The dynamic type of a component object, `typeid(T)` for the `T` it was made as. -/
def Component.kind : Component → Kind
  | .position _ => Kind.Position
  | .hitbox _ => Kind.Hitbox
  | .player _ => Kind.Player

/-- A `std::shared_ptr<Component>`; `none` is the null pointer. -/
abbrev Slot := Option Component

/-- The key type `std::pair<std::type_index, int>` of the component map. -/
abbrev Key := Kind × Int

/-- The `std::unordered_map` from keys to component pointers, as the list of its entries in
iteration order. -/
abbrev ComponentMap := List (Key × Slot)

/-- The cast `std::dynamic_pointer_cast<PositionComponent>`. -/
def asPosition : Slot → Option PositionComponent
  | some (.position c) => some c
  | _ => none

/-- The cast `std::dynamic_pointer_cast<HitboxComponent>`. -/
def asHitbox : Slot → Option HitboxComponent
  | some (.hitbox c) => some c
  | _ => none

namespace ComponentMap

/-- The lookup `find`: the pointer stored under a key, if the key is in the map. -/
def find : ComponentMap → Key → Option Slot
  | [], _ => none
  | (k', s) :: m, k => if k' = k then some s else find m k

/-- The member `count`: `1` when the key is in the map, else `0`. -/
def count (m : ComponentMap) (k : Key) : Nat :=
  match m.find k with
  | some _ => 1
  | none => 0

/-- A read through `operator[]`: the pointer stored under the key; a key that is not in the
map is first inserted with a null pointer. -/
def index (m : ComponentMap) (k : Key) : Slot × ComponentMap :=
  match m.find k with
  | some s => (s, m)
  | none => (none, m ++ [(k, none)])

/-- The assignment `m[k] = v`: overwrites the pointer of a key that is in the map, inserts
the entry otherwise. -/
def assign : ComponentMap → Key → Slot → ComponentMap
  | [], k, v => [(k, v)]
  | (k', s) :: m, k, v => if k' = k then (k', v) :: m else (k', s) :: assign m k v

/-- No key occurs twice, as in every `std::unordered_map`. -/
def UniqueKeys (m : ComponentMap) : Prop := (m.map Prod.fst).Nodup

instance (m : ComponentMap) : Decidable (UniqueKeys m) := by
  unfold UniqueKeys; infer_instance

end ComponentMap

/-! ## `CollisionSystem.hpp` -/

/-- One invocation `gameOverCallback_(playerId)`: the id passed to the callback, and the
enemy `checkCollisionsWithEnemy` was called for (which the callback does not receive).  The
callback itself is not run: like the server's `handlePlayerCollision`, it is taken to leave
the component map and the collision system alone. -/
structure CallbackCall where
  playerId : Int
  enemyId : Int
deriving DecidableEq, Repr

/-- The data members of a `CollisionSystem` other than the callback: the ids of the enemies
(a `std::set<int>`, listed in iteration order) and the set of processed collisions, a set of
pairs `{playerId, enemyId}`. -/
structure CollisionSystem where
  enemyEntityIds_ : List Int
  processedCollisions_ : List (Int × Int)
deriving DecidableEq, Repr

/-- What a call of `update` works on: the set of processed collisions, the component map it
is given by reference, and the invocations of the callback so far. -/
structure CollisionState where
  processedCollisions_ : List (Int × Int)
  components : ComponentMap
  calls : List CallbackCall
deriving DecidableEq, Repr

namespace CollisionSystem

/-- The constructor: the given enemy ids, no processed collision. -/
def new (enemyEntityIds : List Int) : CollisionSystem := ⟨enemyEntityIds, []⟩

/-- The method `CollisionSystem::updateEnemyEntityIds`. -/
def updateEnemyEntityIds (sys : CollisionSystem) (enemyEntityIds : List Int) : CollisionSystem :=
  { sys with enemyEntityIds_ := enemyEntityIds }

/-- The method `CollisionSystem::isCollision`. -/
def isCollision (playerPosComp : PositionComponent) (playerHitboxComp : HitboxComponent)
    (enemyPosComp : PositionComponent) (enemyHitboxComp : HitboxComponent) : Bool :=
  decide (playerPosComp.x < enemyPosComp.x + enemyHitboxComp.width) &&
  decide (playerPosComp.x + playerHitboxComp.width > enemyPosComp.x) &&
  decide (playerPosComp.y < enemyPosComp.y + enemyHitboxComp.height) &&
  decide (playerPosComp.y + playerHitboxComp.height > enemyPosComp.y)

/-- The body of the loop `for (auto& pair : components)` of `checkCollisionsWithEnemy`, for
one entry `pair` of the map. -/
def checkEntry (enemyId : Int) (enemyPosComp : PositionComponent)
    (enemyHitboxComp : HitboxComponent) (st : CollisionState) (pair : Key × Slot) :
    CollisionState :=
  if pair.1.1 = Kind.Position ∧ pair.1.2 ≠ enemyId then
    let playerId := pair.1.2
    let hb := st.components.index (Kind.Hitbox, pair.1.2)
    match asPosition pair.2, asHitbox hb.1 with
    | some playerPosComp, some playerHitboxComp =>
      if isCollision playerPosComp playerHitboxComp enemyPosComp enemyHitboxComp then
        if (playerId, enemyId) ∉ st.processedCollisions_ then
          { processedCollisions_ := (playerId, enemyId) :: st.processedCollisions_,
            components := hb.2,
            calls := st.calls ++ [⟨playerId, enemyId⟩] }
        else
          { st with components := hb.2 }
      else
        { st with processedCollisions_ :=
                    st.processedCollisions_.filter (fun c => c ≠ (playerId, enemyId)),
                  components := hb.2 }
    | _, _ => { st with components := hb.2 }
  else st

/-- The method `CollisionSystem::checkCollisionsWithEnemy`.  The loop runs over the entries
the map has when the loop starts; the entries `operator[]` adds meanwhile have `Hitbox` keys,
which the loop body skips.  (A rehash of the map set off by such an insertion while the loop
runs is not modelled; no insertion happens when every entity with a position has a
hitbox, as in the server.) -/
def checkCollisionsWithEnemy (enemyId : Int) (st : CollisionState) : CollisionState :=
  let p := st.components.index (Kind.Position, enemyId)
  let h := p.2.index (Kind.Hitbox, enemyId)
  match asPosition p.1, asHitbox h.1 with
  | some enemyPosComp, some enemyHitboxComp =>
    h.2.foldl (checkEntry enemyId enemyPosComp enemyHitboxComp) { st with components := h.2 }
  | _, _ => { st with components := h.2 }

/-- The loop of `CollisionSystem::update` over a list of enemy ids. -/
def updateLoop (enemyIds : List Int) (st : CollisionState) : CollisionState :=
  enemyIds.foldl (fun st enemyId => checkCollisionsWithEnemy enemyId st) st

/-- The method `CollisionSystem::update` (its parameter `dt` is not used): the system and the
map after the call, and the invocations of the callback it made, in order. -/
def update (sys : CollisionSystem) (_dt : ℚ) (components : ComponentMap) :
    CollisionSystem × ComponentMap × List CallbackCall :=
  let st := updateLoop sys.enemyEntityIds_ ⟨sys.processedCollisions_, components, []⟩
  ({ sys with processedCollisions_ := st.processedCollisions_ }, st.components, st.calls)

/-- A sequence of ticks, each given by its `dt` and the component map `update` is called on
(between two ticks the rest of the program may change the map in any way).  Returns the
system after the last tick and all invocations of the callback, oldest first. -/
def runTicks : CollisionSystem → List (ℚ × ComponentMap) → CollisionSystem × List CallbackCall
  | sys, [] => (sys, [])
  | sys, t :: ts =>
    let r := sys.update t.1 t.2
    let tail := runTicks r.1 ts
    (tail.1, r.2.2 ++ tail.2)

end CollisionSystem

/-! ## `GameUtilities.hpp` -/

namespace GameUtilities

/-- The constant `SERVER_PORT`. -/
def SERVER_PORT : Int := 4242
/-- The constant `SCREEN_WIDTH`. -/
def SCREEN_WIDTH : Int := 1920
/-- The constant `SCREEN_HEIGHT`. -/
def SCREEN_HEIGHT : Int := 1000
/-- The constant `MAX_ENEMIES`. -/
def MAX_ENEMIES : Int := 5
/-- The constant `ENEMY_SPEED`. -/
def ENEMY_SPEED : ℚ := 300
/-- The constant `ENEMY_WIDTH`. -/
def ENEMY_WIDTH : ℚ := 50
/-- The constant `ENEMY_HEIGHT`. -/
def ENEMY_HEIGHT : ℚ := 50
/-- The constant `PLAYER_WIDTH`. -/
def PLAYER_WIDTH : ℚ := 40
/-- The constant `PLAYER_HEIGHT`. -/
def PLAYER_HEIGHT : ℚ := 30
/-- The constant `OFF_SCREEN_X = -ENEMY_WIDTH`. -/
def OFF_SCREEN_X : ℚ := -ENEMY_WIDTH

end GameUtilities

/-! ## `EnemyMovementSystem.hpp` -/

/-- One value produced by a freshly seeded random engine for a real distribution: a number
in `[0, 1)`. -/
abbrev UnitSample := { u : ℚ // 0 ≤ u ∧ u < 1 }

/-- A draw from `std::uniform_real_distribution<>(a, b)`: the unit sample scaled to the
interval, `u * (b - a) + a`. -/
def uniformReal (a b : ℚ) (u : UnitSample) : ℚ := u.val * (b - a) + a

/-- The data members of an `EnemyMovementSystem`. -/
structure EnemyMovementSystem where
  initialX_ : ℚ
  offScreenX_ : ℚ
  speed_ : ℚ
  maxY_ : ℚ
deriving DecidableEq, Repr

namespace EnemyMovementSystem

/-- The method `EnemyMovementSystem::getRandomY`, `u` being what the new engine yields. -/
def getRandomY (sys : EnemyMovementSystem) (u : UnitSample) : ℚ :=
  uniformReal 0 sys.maxY_ u

/-- The body of the loop of `EnemyMovementSystem::update` for one entry `pair` of the map
`components`.  The result is the entry after the step; it is `none` when the step
dereferences a null `posComp`.  `u` is the sample `getRandomY` gets if it is called. -/
def moveEntry (sys : EnemyMovementSystem) (dt : ℚ) (u : UnitSample) (components : ComponentMap)
    (pair : Key × Slot) : Option (Key × Slot) :=
  if pair.1.1 = Kind.Position then
    let entityId := pair.1.2
    if components.count (Kind.Hitbox, entityId) > 0 ∧
        components.count (Kind.Player, entityId) = 0 then
      match asPosition pair.2 with
      | none => none
      | some posComp =>
        let x := posComp.x - sys.speed_ * dt
        if x < sys.offScreenX_ then
          some (pair.1, some (.position ⟨sys.initialX_, sys.getRandomY u⟩))
        else
          some (pair.1, some (.position ⟨x, posComp.y⟩))
    else some pair
  else some pair

/-- The loop of `EnemyMovementSystem::update` over the entries `l`, `components` being the
whole map (the loop changes position objects in place and no key, so `count` gives the same
answers throughout).  `rand id` is the sample drawn if the entity `id` wraps. -/
def moveEntries (sys : EnemyMovementSystem) (dt : ℚ) (rand : Int → UnitSample)
    (components : ComponentMap) : List (Key × Slot) → Option ComponentMap
  | [] => some []
  | pair :: l =>
    match sys.moveEntry dt (rand pair.1.2) components pair with
    | none => none
    | some pair' =>
      match moveEntries sys dt rand components l with
      | none => none
      | some l' => some (pair' :: l')

/-- The method `EnemyMovementSystem::update`: the component map after the call, or `none`
when the call dereferences a null pointer. -/
def update (sys : EnemyMovementSystem) (dt : ℚ) (rand : Int → UnitSample)
    (components : ComponentMap) : Option ComponentMap :=
  sys.moveEntries dt rand components components

end EnemyMovementSystem

/-! ## `System.hpp` -/

/-- An object of a class derived from `System`. -/
inductive System where
  | enemyMovement (s : EnemyMovementSystem)
  | collision (s : CollisionSystem)
deriving DecidableEq, Repr

/-- The virtual method `System::update`: the system and the component map after the call and
the callback invocations made, or `none` when the call dereferences a null pointer. -/
def System.update (sys : System) (dt : ℚ) (rand : Int → UnitSample) (components : ComponentMap) :
    Option (System × ComponentMap × List CallbackCall) :=
  match sys with
  | .enemyMovement s =>
    match s.update dt rand components with
    | none => none
    | some m => some (.enemyMovement s, m, [])
  | .collision s =>
    let r := s.update dt components
    some (.collision r.1, r.2.1, r.2.2)

/-! ## `Registry.hpp` -/

/-- Wraps an integer to the range of a 32-bit `int`. -/
def wrapInt32 (n : Int) : Int := (n + 2147483648) % 4294967296 - 2147483648

/-- The class `Registry`: the live entities, the component map, the registered systems and
the id counter.  (The frame clock `lastFrameTime` is not part of this record: the `dt` of a
frame is an input.) -/
structure Registry where
  entities_ : List Entity
  components_ : ComponentMap
  systems_ : List System
  nextEntityId : Int
deriving DecidableEq, Repr

namespace Registry

/-- The constructor `Registry::Registry`: no entity, no component, no system, counter
at `1`. -/
def new : Registry := ⟨[], [], [], 1⟩

/-- The method `Registry::createEntity`: the new entity takes the value of the counter, the
counter is incremented, the entity is appended to the entity list and returned. -/
def createEntity (r : Registry) : Entity × Registry :=
  let newEntity : Entity := ⟨r.nextEntityId⟩
  (newEntity, { r with nextEntityId := wrapInt32 (r.nextEntityId + 1),
                       entities_ := r.entities_ ++ [newEntity] })

/-- The method `Registry::getEntities`. -/
def getEntities (r : Registry) : List Entity := r.entities_

/-- The method `Registry::addComponent<T>`: `components_[{typeid(T), entity.id()}] = component`,
where `component` is a new object of class `T`. -/
def addComponent (r : Registry) (entity : Entity) (component : Component) : Registry :=
  { r with components_ := r.components_.assign (component.kind, entity.id) (some component) }

/-- The method `Registry::getComponent<T>`: the pointer found under `{typeid(T), entity.id()}`,
or a null pointer when the key is not in the map. -/
def getComponent (r : Registry) (T : Kind) (entity : Entity) : Slot :=
  match r.components_.find (T, entity.id) with
  | some s => s
  | none => none

/-- The method `Registry::addSystem`: `systems_.push_back(system)`. -/
def addSystem (r : Registry) (system : System) : Registry :=
  { r with systems_ := r.systems_ ++ [system] }

/-- The loop `for (auto& system : systems_) system->update(dt, components_)` over a list of
systems: the systems and the component map after the loop and the callback invocations
made, in order. -/
def updateSystemsLoop (dt : ℚ) (rand : Int → UnitSample) :
    List System → ComponentMap → Option (List System × ComponentMap × List CallbackCall)
  | [], components => some ([], components, [])
  | system :: rest, components =>
    match system.update dt rand components with
    | none => none
    | some r =>
      match updateSystemsLoop dt rand rest r.2.1 with
      | none => none
      | some t => some (r.1 :: t.1, t.2.1, r.2.2 ++ t.2.2)

/-- The method `Registry::updateSystems`: the registry after the call and the callback
invocations the systems made, in order. -/
def updateSystems (r : Registry) (dt : ℚ) (rand : Int → UnitSample) :
    Option (Registry × List CallbackCall) :=
  match updateSystemsLoop dt rand r.systems_ r.components_ with
  | none => none
  | some t => some ({ r with systems_ := t.1, components_ := t.2.1 }, t.2.2)

/-- The method `Registry::removeEntity`: erases from the entity list every entity whose id is
`entityId`. -/
def removeEntity (r : Registry) (entityId : Int) : Registry :=
  { r with entities_ := r.entities_.filter (fun entity => entity.id ≠ entityId) }

end Registry

/-- One call of the public interface of a `Registry`. -/
inductive RegistryCall where
  | createEntity
  | addComponent (entity : Entity) (component : Component)
  | removeEntity (entityId : Int)
deriving DecidableEq, Repr

/-- Performs one call; the second component is the entity a `createEntity` returned. -/
def RegistryCall.exec (r : Registry) : RegistryCall → Registry × Option Entity
  | .createEntity => ((r.createEntity).2, some (r.createEntity).1)
  | .addComponent entity component => (r.addComponent entity component, none)
  | .removeEntity entityId => (r.removeEntity entityId, none)

/-- Performs a sequence of calls in order, collecting the ids of the entities returned by the
`createEntity` calls, oldest first. -/
def runCalls : Registry → List RegistryCall → Registry × List Int
  | r, [] => (r, [])
  | r, c :: cs =>
    let step := c.exec r
    let tail := runCalls step.1 cs
    match step.2 with
    | some e => (tail.1, e.id :: tail.2)
    | none => (tail.1, tail.2)

/-- Number of `createEntity` calls in a sequence. -/
def numCreates : List RegistryCall → Nat
  | [] => 0
  | .createEntity :: cs => numCreates cs + 1
  | _ :: cs => numCreates cs

/-- The component most recently given to `addComponent` for a kind and an entity id in a
sequence of calls, if any. -/
def lastAdded (T : Kind) (id : Int) : List RegistryCall → Slot
  | [] => none
  | c :: cs =>
    match lastAdded T id cs with
    | some v => some v
    | none =>
      match c with
      | .addComponent entity component =>
        if component.kind = T ∧ entity.id = id then some component else none
      | _ => none


/-! ## `Client.hpp`, `Client.cpp` -/

/-- The class `Client` (one connection of the server): its id, whether its socket is open,
the queue of serialized messages to write, the queue of messages read, and whether an
`async_write` started by `writeMessages` has not completed yet. -/
structure Client where
  id : Int
  socketOpen : Bool
  outgoingMessages : List (List Char)
  received_messages : List Message
  writePending : Bool
deriving DecidableEq, Repr

namespace Client

/-- The constructor `Client::Client`: empty queues, a socket that is not open yet. -/
def new (clientId : Int) : Client := ⟨clientId, false, [], [], false⟩

/-- The method `Client::getId`. -/
def getId (c : Client) : Int := c.id

/-- The method `Client::writeMessages`: nothing when the queue is empty or the socket is
closed, otherwise an asynchronous write of the front of the queue is started. -/
def writeMessages (c : Client) : Client :=
  if c.outgoingMessages.isEmpty || !c.socketOpen then c
  else { c with writePending := true }

/-- The method `Client::send`: the serialized message is pushed on the back of the queue;
`writeMessages` is called when the queue was empty before. -/
def send (c : Client) (msg : Message) : Client :=
  let serializedMessage := msg.serialize
  let isWriting := !c.outgoingMessages.isEmpty
  let c1 := { c with outgoingMessages := c.outgoingMessages ++ [serializedMessage] }
  if !isWriting then c1.writeMessages else c1

/-- The method `Client::disconnect`: pending operations are cancelled (their handlers run
later with an error) and the socket is closed. -/
def disconnect (c : Client) : Client := { c with socketOpen := false }

/-- The method `Client::hasReceivedMessages`. -/
def hasReceivedMessages (c : Client) : Bool := !c.received_messages.isEmpty

/-- The method `Client::getNextMessage`: pops the front of the queue of received messages; a
value-initialised `Message()` when the queue is empty. -/
def getNextMessage (c : Client) : Message × Client :=
  match c.received_messages with
  | [] => (⟨⟨0⟩, []⟩, c)
  | msg :: rest => (msg, { c with received_messages := rest })

/-- The completion handler of `Client::startRead` without error: the data read is
deserialized and the message is pushed on the back of the queue of received messages. -/
def onRead (c : Client) (uninit : Int) (receivedData : List Char) : Client :=
  { c with received_messages := c.received_messages ++ [Message.deserialize uninit receivedData] }

end Client

/-! ## `ConnectionManager.hpp` -/

/-- The data members of a `ConnectionManager` that the game reads: the connected clients and
the number of players awaited. -/
structure ConnectionManager where
  clients_ : List Client
  maxPlayers_ : Int
deriving DecidableEq, Repr

/-- The method `ConnectionManager::getClients`. -/
def ConnectionManager.getClients (cm : ConnectionManager) : List Client := cm.clients_

/-! ## `RandomUtilities.hpp` -/

/-- The function `RandomUtilities::getRandomY`, `u` being what the new engine yields. -/
def RandomUtilities.getRandomY (maxHeight : ℚ) (u : UnitSample) : ℚ :=
  uniformReal 0 maxHeight u

/-! ## `Server.hpp` -/

/-- The elements of a `std::set<int>` after `insert(x)`, in ascending order. -/
def setInsert (x : Int) : List Int → List Int
  | [] => [x]
  | y :: ys =>
    if x < y then x :: y :: ys
    else if x = y then y :: ys
    else y :: setInsert x ys

/-- Nearest integer to a rational, a tie going to the even neighbour. -/
def roundHalfEven (q : ℚ) : Int :=
  let f := Rat.floor q
  if q - f < 1 / 2 then f
  else if 1 / 2 < q - f then f + 1
  else if f % 2 = 0 then f else f + 1

/-- The text `std::to_string` gives a `float`: the format `%f`, that is the sign, the integer
part, a point and six decimals, the value being rounded to the sixth decimal. -/
def floatToChars (q : ℚ) : List Char :=
  let n := (roundHalfEven (|q| * 1000000)).toNat
  let frac := Nat.toDigits 10 (n % 1000000)
  (if q < 0 then ['-'] else []) ++ Nat.toDigits 10 (n / 1000000) ++ '.' ::
    (List.replicate (6 - frac.length) '0' ++ frac)

/-- The data members of the class `Server`.  The two systems it points to are the objects
registered in `registry.systems_`. -/
structure Server where
  connectionManager_ : ConnectionManager
  isRunning : Bool
  gameStarted : Bool
  registry : Registry
  activeEnemies : List Int
  maxPlayers_ : Int
deriving DecidableEq, Repr

namespace Server

/-- The constructor `Server::Server`: a connection manager without client, the movement system
registered first and the collision system second, the flags at their initial values. -/
def new (maxPlayers : Int) : Server :=
  let enemyMovementSystem : EnemyMovementSystem :=
    ⟨(GameUtilities.SCREEN_WIDTH : ℚ), GameUtilities.OFF_SCREEN_X, GameUtilities.ENEMY_SPEED,
      (GameUtilities.SCREEN_HEIGHT : ℚ) - GameUtilities.ENEMY_HEIGHT⟩
  let registry := Registry.new.addSystem (.enemyMovement enemyMovementSystem)
  let collisionSystem := CollisionSystem.new []
  let registry := registry.addSystem (.collision collisionSystem)
  { connectionManager_ := ⟨[], maxPlayers⟩, isRunning := true, gameStarted := false,
    registry := registry, activeEnemies := [], maxPlayers_ := maxPlayers }

/-- The constant `moveStep` of `processClientInputs`. -/
def moveStep : ℚ := 10

/-- The chain of tests of `processClientInputs` on the position `posComp` of the player, for
one message: the position after it. -/
def applyInput (posComp : PositionComponent) (msg : Message) : PositionComponent :=
  if msg.content = "UP".toList ∧ posComp.y - moveStep > 0 then
    { posComp with y := posComp.y - moveStep }
  else if msg.content = "DOWN".toList ∧
      posComp.y + GameUtilities.PLAYER_HEIGHT + moveStep < (GameUtilities.SCREEN_HEIGHT : ℚ) then
    { posComp with y := posComp.y + moveStep }
  else if msg.content = "LEFT".toList ∧ posComp.x - moveStep > 0 then
    { posComp with x := posComp.x - moveStep }
  else if msg.content = "RIGHT".toList ∧
      posComp.x + GameUtilities.PLAYER_WIDTH + moveStep < (GameUtilities.SCREEN_WIDTH : ℚ) then
    { posComp with x := posComp.x + moveStep }
  else posComp

/-- The body of the `while` loop of `processClientInputs` for one message of the client
`clientId`: without a position component the message is dropped (`continue`), otherwise the
position object is updated in place. -/
def processMessage (registry : Registry) (clientId : Int) (msg : Message) : Registry :=
  let playerEntity : Entity := ⟨clientId⟩
  match asPosition (registry.getComponent Kind.Position playerEntity) with
  | none => registry
  | some posComp =>
    let moved : Slot := some (.position (applyInput posComp msg))
    { registry with
      components_ := registry.components_.assign (Kind.Position, playerEntity.id) moved }

/-- The `while` loop of `processClientInputs` for one client: its received messages are
taken from the queue one by one, oldest first, until the queue is empty. -/
def drainClient (registry : Registry) (client : Client) : Registry × Client :=
  (client.received_messages.foldl (fun r msg => processMessage r client.getId msg) registry,
   { client with received_messages := [] })

/-- The `for` loop of `processClientInputs` over a list of clients. -/
def processClients : Registry → List Client → Registry × List Client
  | registry, [] => (registry, [])
  | registry, client :: rest =>
    let d := drainClient registry client
    let t := processClients d.1 rest
    (t.1, d.2 :: t.2)

/-- The method `Server::processClientInputs`. -/
def processClientInputs (s : Server) : Server :=
  let r := processClients s.registry s.connectionManager_.clients_
  { s with registry := r.1,
           connectionManager_ := { s.connectionManager_ with clients_ := r.2 } }

/-- The method `Server::notifyNewEntityCreation`. -/
def notifyNewEntityCreation (s : Server) (entityType : List Char) (entityId : Int) : Server :=
  let newEntityMsg : Message :=
    ⟨RFC.NEW_ENTITY, entityType ++ " ".toList ++ intToChars entityId ++ [';']⟩
  { s with connectionManager_ :=
      { s.connectionManager_ with
        clients_ := s.connectionManager_.clients_.map (fun client => client.send newEntityMsg) } }

/-- The method `Server::notifyEntityDeath`. -/
def notifyEntityDeath (s : Server) (entityId : Int) : Server :=
  let deathMessage : Message := ⟨RFC.ENTITY_DEAD, intToChars entityId ++ [';']⟩
  { s with connectionManager_ :=
      { s.connectionManager_ with
        clients_ := s.connectionManager_.clients_.map (fun client => client.send deathMessage) } }

/-- The call `collisionSystem->updateEnemyEntityIds(ids)` on the registered collision
system. -/
def updateEnemyEntityIds (registry : Registry) (ids : List Int) : Registry :=
  { registry with systems_ := registry.systems_.map (fun system =>
      match system with
      | .collision c => .collision (c.updateEnemyEntityIds ids)
      | other => other) }

/-- The method `Server::createEnemy`, `u` being the sample of its random draw. -/
def createEnemy (s : Server) (u : UnitSample) : Server :=
  if s.gameStarted ∧ (s.activeEnemies.length : Int) < GameUtilities.MAX_ENEMIES then
    let created := s.registry.createEntity
    let enemyEntity := created.1
    let s1 := ({ s with registry := created.2 }).notifyNewEntityCreation "Enemy".toList
      enemyEntity.id
    let randomY := RandomUtilities.getRandomY
      ((GameUtilities.SCREEN_HEIGHT : ℚ) - GameUtilities.ENEMY_HEIGHT) u
    let registry := s1.registry.addComponent enemyEntity
      (.position ⟨(GameUtilities.SCREEN_WIDTH : ℚ), randomY⟩)
    let registry := registry.addComponent enemyEntity
      (.hitbox ⟨GameUtilities.ENEMY_WIDTH, GameUtilities.ENEMY_HEIGHT⟩)
    let activeEnemies := setInsert enemyEntity.id s1.activeEnemies
    { s1 with registry := updateEnemyEntityIds registry activeEnemies,
              activeEnemies := activeEnemies }
  else s

/-- The body of the loop of `createPlayers` for the index `i`; `none` when `getClients()[i]`
is out of range. -/
def createPlayer (s : Server) (i : Nat) : Option Server :=
  let created := s.registry.createEntity
  let player := created.1
  match s.connectionManager_.clients_[i]? with
  | none => none
  | some client =>
    let playerId := client.getId
    let s1 := ({ s with registry := created.2 }).notifyNewEntityCreation "Player".toList playerId
    let y : Int := GameUtilities.SCREEN_HEIGHT.tdiv s.maxPlayers_ * (i : Int) +
      (GameUtilities.SCREEN_HEIGHT.tdiv s.maxPlayers_).tdiv 2
    let registry := s1.registry.addComponent player (.position ⟨0, (y : ℚ)⟩)
    let registry := registry.addComponent player (.player ⟨playerId, true⟩)
    let registry := registry.addComponent player
      (.hitbox ⟨GameUtilities.PLAYER_WIDTH, GameUtilities.PLAYER_HEIGHT⟩)
    some { s1 with registry := registry }

/-- The loop of `createPlayers` over a list of indices. -/
def createPlayersLoop : List Nat → Server → Option Server
  | [], s => some s
  | i :: rest, s =>
    match createPlayer s i with
    | none => none
    | some s1 => createPlayersLoop rest s1

/-- The method `Server::createPlayers`: the loop for `i = 0, ..., maxPlayers_ - 1`. -/
def createPlayers (s : Server) : Option Server :=
  createPlayersLoop (List.range s.maxPlayers_.toNat) s

/-- The method `Server::startGame` (`scheduleEnemySpawn` only arms a timer). -/
def startGame (s : Server) (u : UnitSample) : Option Server :=
  match s.createPlayers with
  | none => none
  | some s1 => some { (s1.createEnemy u) with gameStarted := true }

/-- The search `std::find_if` of `handlePlayerCollision`: the position and the value of the
first client whose id is `entityId`. -/
def findClient (entityId : Int) : List Client → Option (Nat × Client)
  | [] => none
  | client :: rest =>
    if client.getId = entityId then some (0, client)
    else
      match findClient entityId rest with
      | none => none
      | some r => some (r.1 + 1, r.2)

/-- The method `Server::handlePlayerCollision`.  Returned with the server is the connection
erased from the client list, as it was when it was erased, if there is one. -/
def handlePlayerCollision (s : Server) (entityId : Int) : Server × Option Client :=
  let clients := s.connectionManager_.clients_
  match findClient entityId clients with
  | some clientIt =>
    let gameOverMessage : Message :=
      ⟨RFC.GAME_OVER, "Player ".toList ++ intToChars entityId ++ " dead.".toList ++ [';']⟩
    let client := clientIt.2.send gameOverMessage
    let registry := s.registry.removeEntity entityId
    let client := client.disconnect
    let s1 := { s with registry := registry,
                       connectionManager_ :=
                         { s.connectionManager_ with clients_ := clients.eraseIdx clientIt.1 } }
    let s2 := s1.notifyEntityDeath entityId
    (if s2.connectionManager_.clients_.isEmpty then { s2 with isRunning := false } else s2,
     some client)
  | none =>
    (if clients.isEmpty then { s with isRunning := false } else s, none)

/-- The method `Server::updateGameState`: the systems are updated; the invocations of the
collision callback, `handlePlayerCollision`, are performed in the order they were made (the
callback touches neither the component map nor the systems, so that performing it after the
systems have run gives the same state as performing it when it is invoked). -/
def updateGameState (s : Server) (deltaTime : ℚ) (rand : Int → UnitSample) : Option Server :=
  match s.registry.updateSystems deltaTime rand with
  | none => none
  | some r =>
    some (r.2.foldl (fun s call => (s.handlePlayerCollision call.playerId).1)
      { s with registry := r.1 })

/-- The content of the `STATE_UPDATE` message built by `sendUpdates`, over a list of
entities. -/
def updateContent (registry : Registry) : List Entity → List Char
  | [] => []
  | entity :: rest =>
    let tuple (posComp : PositionComponent) : List Char :=
      intToChars entity.id ++ ' ' :: floatToChars posComp.x ++ ' ' ::
        floatToChars posComp.y ++ [',']
    (match asPosition (registry.getComponent Kind.Position entity) with
     | some posComp =>
       if (registry.getComponent Kind.Player entity).isSome then tuple posComp
       else if (registry.getComponent Kind.Hitbox entity).isSome ∧
           ¬ (registry.getComponent Kind.Player entity).isSome then tuple posComp
       else []
     | none => []) ++ updateContent registry rest

/-- The method `Server::sendUpdates`. -/
def sendUpdates (s : Server) : Server :=
  { s with connectionManager_ :=
      { s.connectionManager_ with
        clients_ := s.connectionManager_.clients_.map (fun client =>
          client.send ⟨RFC.STATE_UPDATE,
            updateContent s.registry s.registry.getEntities ++ [';']⟩) } }

/-- The body of the loop of `Server::run` for one iteration whose `updateDeltaTime` is `dt`. -/
def runIteration (s : Server) (dt : ℚ) (rand : Int → UnitSample) : Option Server :=
  if s.gameStarted then
    match s.processClientInputs.updateGameState dt rand with
    | none => none
    | some s1 => some s1.sendUpdates
  else some s

/-- The method `Server::run`, without events of the I/O thread in between, for at most as many
iterations as inputs are given.  The flag returned tells whether the loop has exited, that
is whether `isRunning` was found false. -/
def run : List (ℚ × (Int → UnitSample)) → Server → Option (Server × Bool)
  | [], s => some (s, !s.isRunning)
  | input :: rest, s =>
    if s.isRunning then
      match s.runIteration input.1 input.2 with
      | none => none
      | some s1 => run rest s1
    else some (s, true)

end Server

/-- One operation on the server: a call of one of its methods, or the completion of a read on
one of its connections. -/
inductive ServerOp where
  | processClientInputs
  | createEnemy (u : UnitSample)
  | createPlayers
  | notifyNewEntityCreation (entityType : List Char) (entityId : Int)
  | notifyEntityDeath (entityId : Int)
  | startGame (u : UnitSample)
  | updateGameState (deltaTime : ℚ) (rand : Int → UnitSample)
  | handlePlayerCollision (entityId : Int)
  | sendUpdates
  | runIteration (dt : ℚ) (rand : Int → UnitSample)
  | onRead (i : Nat) (uninit : Int) (receivedData : List Char)

/-- Performs one operation; `none` when the operation runs into undefined behaviour. -/
def ServerOp.exec (s : Server) : ServerOp → Option Server
  | .processClientInputs => some s.processClientInputs
  | .createEnemy u => some (s.createEnemy u)
  | .createPlayers => s.createPlayers
  | .notifyNewEntityCreation entityType entityId =>
    some (s.notifyNewEntityCreation entityType entityId)
  | .notifyEntityDeath entityId => some (s.notifyEntityDeath entityId)
  | .startGame u => s.startGame u
  | .updateGameState deltaTime rand => s.updateGameState deltaTime rand
  | .handlePlayerCollision entityId => some (s.handlePlayerCollision entityId).1
  | .sendUpdates => some s.sendUpdates
  | .runIteration dt rand => s.runIteration dt rand
  | .onRead i uninit receivedData =>
    some { s with connectionManager_ :=
      { s.connectionManager_ with
        clients_ := s.connectionManager_.clients_.modify
          (fun client => client.onRead uninit receivedData) i } }

/-- Performs a sequence of operations in order. -/
def runOps : Server → List ServerOp → Option Server
  | s, [] => some s
  | s, op :: ops =>
    match op.exec s with
    | none => none
    | some s1 => runOps s1 ops

/-- Whether the entities `p` and `e` overlap in a component map: both have a position and a
hitbox and `isCollision` holds of them. -/
def overlapIn (m : ComponentMap) (p e : Int) : Bool :=
  match m.find (Kind.Position, p), m.find (Kind.Hitbox, p),
        m.find (Kind.Position, e), m.find (Kind.Hitbox, e) with
  | some (some (.position pp)), some (some (.hitbox ph)),
    some (some (.position ep)), some (some (.hitbox eh)) =>
    CollisionSystem.isCollision pp ph ep eh
  | _, _, _, _ => false

/-- Whether an entity has both a position and a hitbox in a component map. -/
def hasPositionAndHitbox (m : ComponentMap) (id : Int) : Bool :=
  match m.find (Kind.Position, id), m.find (Kind.Hitbox, id) with
  | some (some (.position _)), some (some (.hitbox _)) => true
  | _, _ => false

/-- Number of maximal runs of consecutive `true` in a list, `prev` being the value before
the list starts. -/
def runsFrom : Bool → List Bool → Nat
  | _, [] => 0
  | prev, b :: bs => (if b && !prev then 1 else 0) + runsFrom b bs

/-- Number of maximal runs of consecutive `true` in a list. -/
def maximalRuns (bs : List Bool) : Nat := runsFrom false bs

/-- A component map with two enemies, entities 1 and 2, whose hitboxes of 50 x 50 overlap. -/
def twoOverlappingEnemies : ComponentMap :=
  [((Kind.Position, 1), some (.position ⟨1920, 100⟩)),
   ((Kind.Hitbox, 1), some (.hitbox ⟨50, 50⟩)),
   ((Kind.Position, 2), some (.position ⟨1900, 120⟩)),
   ((Kind.Hitbox, 2), some (.hitbox ⟨50, 50⟩))]

/-- A component map with a player, entity 1, at `(x, 500)` and an enemy, entity 2, at
`(100, 500)`. -/
def playerAndEnemy (x : ℚ) : ComponentMap :=
  [((Kind.Position, 1), some (.position ⟨x, 500⟩)),
   ((Kind.Player, 1), some (.player ⟨1, true⟩)),
   ((Kind.Hitbox, 1), some (.hitbox ⟨40, 30⟩)),
   ((Kind.Position, 2), some (.position ⟨100, 500⟩)),
   ((Kind.Hitbox, 2), some (.hitbox ⟨50, 50⟩))]

/-- Four ticks of the player and the enemy of `playerAndEnemy`: the two overlap in the first
two ticks, are apart in the third and overlap again in the fourth. -/
def fourTicks : List (ℚ × ComponentMap) :=
  [(3 / 100, playerAndEnemy 80), (3 / 100, playerAndEnemy 80), (1 / 25, playerAndEnemy 500),
   (3 / 100, playerAndEnemy 90)]

/-- The contact state of the pair `(p, e)` and the number of callback invocations made for it
are the same in `st'` as in `st`. -/
def Unchanged (p e : Int) (st st' : CollisionState) : Prop :=
  ((p, e) ∈ st'.processedCollisions_ ↔ (p, e) ∈ st.processedCollisions_) ∧
  st'.calls.count ⟨p, e⟩ = st.calls.count ⟨p, e⟩

/-- The step from `st` to `st'` has handled the pair `(p, e)` once, `coll` telling whether the
two overlap: the pair is in contact afterwards exactly when they overlap, and one invocation
of the callback was added exactly when they overlap and were not in contact before. -/
def Handled (p e : Int) (coll : Bool) (st st' : CollisionState) : Prop :=
  ((p, e) ∈ st'.processedCollisions_ ↔ coll = true) ∧
  st'.calls.count ⟨p, e⟩
    = st.calls.count ⟨p, e⟩ + (if coll = true ∧ (p, e) ∉ st.processedCollisions_ then 1 else 0)

/-- The step from `st` to `st'` keeps every entry the component map had and keeps its keys
distinct. -/
def Preserves (st st' : CollisionState) : Prop :=
  (∀ k s, st.components.find k = some s → st'.components.find k = some s) ∧
  (st.components.UniqueKeys → st'.components.UniqueKeys)

/-- The map holds the position and hitbox `pp`, `ph` of entity `p` and `ep`, `eh` of
entity `e`. -/
def Present (m : ComponentMap) (p e : Int) (pp : PositionComponent) (ph : HitboxComponent)
    (ep : PositionComponent) (eh : HitboxComponent) : Prop :=
  m.find (Kind.Position, p) = some (some (.position pp)) ∧
  m.find (Kind.Hitbox, p) = some (some (.hitbox ph)) ∧
  m.find (Kind.Position, e) = some (some (.position ep)) ∧
  m.find (Kind.Hitbox, e) = some (some (.hitbox eh))

/-- Every entry of the map under a `Position` key points to a position object. -/
def PositionsHeld (m : ComponentMap) : Prop :=
  ∀ pair ∈ m, pair.1.1 = Kind.Position → ∃ pos, pair.2 = some (Component.position pos)

/-- A sample of the random engine, the middle of the unit interval. -/
def halfSample : UnitSample := ⟨1 / 2, by norm_num⟩

/-- The movement system the server registers. -/
def serverMovementSystem : EnemyMovementSystem := ⟨1920, -50, 300, 950⟩

/-- A component map with one enemy, entity 7, five units right of the off-screen line of the
server. -/
def enemyNearEdge : ComponentMap :=
  [((Kind.Position, 7), some (.position ⟨-45, 300⟩)),
   ((Kind.Hitbox, 7), some (.hitbox ⟨50, 50⟩))]

/-- The bounding box of a player at `pos` (40 wide, 30 high) lies within the screen
(1920 wide, 1000 high). -/
def InBounds (pos : PositionComponent) : Prop :=
  0 ≤ pos.x ∧ pos.x + 40 ≤ 1920 ∧ 0 ≤ pos.y ∧ pos.y + 30 ≤ 1000

/-- The ids of the clients of a server, in the order of the client list. -/
def Server.clientIds (s : Server) : List Int :=
  s.connectionManager_.clients_.map Client.getId

/-- A client whose connection has been accepted: its socket is open. -/
def connectedClient (id : Int) : Client := { Client.new id with socketOpen := true }

/-- A server for two players to which the clients 1 and 2 are connected, before the game
starts. -/
def twoClientServer : Server :=
  { Server.new 2 with connectionManager_ := ⟨[connectedClient 1, connectedClient 2], 2⟩ }

/-- The server `twoClientServer` after `startGame` and the arrival of `210 RIGHT` from the
first client. -/
def playingServer : Server :=
  (runOps twoClientServer
    [.startGame halfSample, .onRead 0 0 "210 RIGHT".toList]).getD twoClientServer

/-- The message `notifyNewEntityCreation` sends. -/
def newEntityMessage (entityType : List Char) (entityId : Int) : Message :=
  ⟨RFC.NEW_ENTITY, entityType ++ " ".toList ++ intToChars entityId ++ [';']⟩

/-- Sends a list of messages to a client, in order. -/
def sendAll (msgs : List Message) (c : Client) : Client := msgs.foldl Client.send c

/-- The height `createPlayers` gives the player of index `i`. -/
def playerY (maxPlayers : Int) (i : Nat) : Int :=
  GameUtilities.SCREEN_HEIGHT.tdiv maxPlayers * (i : Int) +
    (GameUtilities.SCREEN_HEIGHT.tdiv maxPlayers).tdiv 2

/-- The flags, the roster, the number of players and the registered systems are the same in
`s'` as in `s`. -/
def SameFlags (s s' : Server) : Prop :=
  s'.isRunning = s.isRunning ∧ s'.gameStarted = s.gameStarted ∧
  s'.activeEnemies = s.activeEnemies ∧ s'.maxPlayers_ = s.maxPlayers_ ∧
  s'.connectionManager_.maxPlayers_ = s.connectionManager_.maxPlayers_ ∧
  s'.registry.systems_ = s.registry.systems_

/-- The messages announcing the players of the clients with the given ids. -/
def playerMessages (ids : List Int) : List Message :=
  ids.map (newEntityMessage "Player".toList)

/-- The message `handlePlayerCollision` sends to the eliminated client. -/
def gameOverMessage (entityId : Int) : Message :=
  ⟨RFC.GAME_OVER, "Player ".toList ++ intToChars entityId ++ " dead.".toList ++ [';']⟩

/-- The message `notifyEntityDeath` sends. -/
def deathMessage (entityId : Int) : Message :=
  ⟨RFC.ENTITY_DEAD, intToChars entityId ++ [';']⟩

/-- The registered systems are the two the constructor of the server registers, in their
order: the movement system, then a collision system. -/
def ServerSystems (s : Server) : Prop :=
  ∃ cs, s.registry.systems_ = [.enemyMovement serverMovementSystem, .collision cs]

/-- What none of the operations of the server undoes from `s` to `s'`: a running flag that is
false stays false, a roster of at most five enemies stays so, and the registered systems
stay the movement system followed by a collision system. -/
def Steady (s s' : Server) : Prop :=
  (s'.isRunning = true → s.isRunning = true) ∧
  (s.activeEnemies.length ≤ 5 → s'.activeEnemies.length ≤ 5) ∧
  (ServerSystems s → ServerSystems s')

/-- The first client of `playingServer`. -/
def firstPlayingClient : Client :=
  { connectedClient 1 with
    outgoingMessages := ["220 Player 1;".toList, "220 Player 2;".toList],
    received_messages := [⟨RFC.INPUT, "RIGHT".toList⟩],
    writePending := true }

/-- The server after `handlePlayerCollision` has been called for each id of a list, in
order. -/
def eliminateAll (s : Server) (ids : List Int) : Server :=
  ids.foldl (fun s id => (s.handlePlayerCollision id).1) s

/-- The server `twoClientServer` after `startGame`. -/
def startedServer : Server :=
  (twoClientServer.startGame halfSample).getD twoClientServer

/-- The tuple `<entityId> <x> <y>,` of a snapshot, the numbers written as `std::to_string`
writes an `int` and a `float`. -/
def snapshotTuple (entityId : Int) (pos : PositionComponent) : List Char :=
  intToChars entityId ++ ' ' :: floatToChars pos.x ++ ' ' :: floatToChars pos.y ++ [',']

/-- What an entity contributes to a snapshot as the protocol words it: its tuple when it has
a position and a player or a hitbox component, nothing otherwise. -/
def snapshotEntry (registry : Registry) (entity : Entity) : List Char :=
  match asPosition (registry.getComponent Kind.Position entity) with
  | some pos =>
    if (registry.getComponent Kind.Player entity).isSome ∨
        (registry.getComponent Kind.Hitbox entity).isSome then snapshotTuple entity.id pos
    else []
  | none => []

/-- The content of a snapshot as the protocol words it: the tuples of the live entities, in
the order of the entity list, followed by one `;`. -/
def snapshotContent (registry : Registry) : List Char :=
  (registry.entities_.map (snapshotEntry registry)).flatten ++ [';']

/-! ## `ConnectionManager.cpp` -/

/-- The conversion of an `int` to the 64-bit `std::size_t`, which the comparison
`clients_.size() < this->maxPlayers_` applies to its right-hand side. -/
def toSizeT (n : Int) : Nat := (n % 18446744073709551616).toNat

/-- The constructor `ConnectionManager::ConnectionManager`: no client yet. -/
def ConnectionManager.new (maxPlayers : Int) : ConnectionManager := ⟨[], maxPlayers⟩

/-- A `ConnectionManager` with its accept loop: the manager, the client object the pending
`async_accept` is to connect (if an accept is pending), and the number of invocations of
`gameStartCallback` so far. -/
structure Acceptor where
  manager : ConnectionManager
  pending : Option Client
  gameStartCalls : Nat
deriving DecidableEq, Repr

namespace Acceptor

/-- The method `ConnectionManager::acceptConnections`: below the capacity a client object
with the id `clients_.size() + 1` is made and an `async_accept` on its socket is started;
at the capacity nothing is started. -/
def acceptConnections (a : Acceptor) : Acceptor :=
  if a.manager.clients_.length < toSizeT a.manager.maxPlayers_ then
    let newClientId : Int := wrapInt32 ((a.manager.clients_.length : Int) + 1)
    { a with pending := some (Client.new newClientId) }
  else a

/-- The completion handler of the `async_accept`, `ec` telling whether the accept failed
(without a pending accept no handler runs).  Without error the client, now connected, is
pushed on the client list and its read loop is started; then another accept is started when
the list is below the capacity, and `gameStartCallback` is invoked otherwise.  With an error
nothing but a log line is done. -/
def onAccept (a : Acceptor) (ec : Bool) : Acceptor :=
  match a.pending with
  | none => a
  | some client =>
    let a0 := { a with pending := none }
    if !ec then
      let connected := { client with socketOpen := true }
      let a1 := { a0 with manager := { a0.manager with
        clients_ := a0.manager.clients_ ++ [connected] } }
      if a1.manager.clients_.length < toSizeT a1.manager.maxPlayers_ then a1.acceptConnections
      else { a1 with gameStartCalls := a1.gameStartCalls + 1 }
    else a0

/-- The accept loop as the constructor of the server starts it: a new manager on which
`acceptConnections` has been called. -/
def start (maxPlayers : Int) : Acceptor :=
  acceptConnections ⟨ConnectionManager.new maxPlayers, none, 0⟩

/-- A sequence of completions of accepts, each with its error flag, in order. -/
def runAccepts (a : Acceptor) (ecs : List Bool) : Acceptor := ecs.foldl onAccept a

end Acceptor

/-- The clients accepted by the first `j` successful accepts: the connected clients with the
ids `1, ..., j`. -/
def acceptedClients (j : Nat) : List Client :=
  (List.range j).map (fun (i : Nat) => connectedClient ((i : Int) + 1))

/-- The accept loop of a manager for `n` players after `j ≤ n` successful accepts. -/
def afterAccepts (n j : Nat) : Acceptor :=
  ⟨⟨acceptedClients j, (n : Int)⟩,
   if j < n then some (Client.new ((j : Int) + 1)) else none,
   if j < n then 0 else 1⟩

/-! ## `Client.cpp`: the writes on the socket -/

/-- A `Client` together with the writes on its socket: the client, the buffers of the
`async_write` operations that have been started and have not completed (oldest first), and
the data that completed writes have put on the transport, in order. -/
structure Connection where
  client : Client
  inFlight : List (List Char)
  written : List (List Char)
deriving DecidableEq, Repr

namespace Connection

/-- The method `Client::writeMessages`: nothing when the queue is empty or the socket is
closed; otherwise an `async_write` of the front of the queue is started. -/
def writeMessages (k : Connection) : Connection :=
  if k.client.outgoingMessages.isEmpty || !k.client.socketOpen then k
  else
    match k.client.outgoingMessages with
    | [] => k
    | serializedMsg :: _ =>
      { k with client := { k.client with writePending := true },
               inFlight := k.inFlight ++ [serializedMsg] }

/-- The method `Client::send`. -/
def send (k : Connection) (msg : Message) : Connection :=
  let serializedMessage := msg.serialize
  let isWriting := !k.client.outgoingMessages.isEmpty
  let k1 := { k with client :=
    { k.client with outgoingMessages := k.client.outgoingMessages ++ [serializedMessage] } }
  if !isWriting then k1.writeMessages else k1

/-- The completion handler of the `async_write` of `writeMessages` for the oldest write in
flight, `ec` telling whether the write failed.  Without error the data is on the transport,
the front of the queue is popped, and `writeMessages` is called when the queue is not empty;
with an error the socket is closed.  The result is `none` when no write is in flight (no
handler runs then) or when `pop_front` is called on an empty queue. -/
def onWrite (k : Connection) (ec : Bool) : Option Connection :=
  match k.inFlight with
  | [] => none
  | buffer :: rest =>
    if !ec then
      match k.client.outgoingMessages with
      | [] => none
      | _ :: queue =>
        let k1 : Connection :=
          { client := { k.client with outgoingMessages := queue, writePending := !rest.isEmpty },
            inFlight := rest,
            written := k.written ++ [buffer] }
        if !k1.client.outgoingMessages.isEmpty then some k1.writeMessages else some k1
    else
      some { k with client := { k.client with socketOpen := false,
                                               writePending := !rest.isEmpty },
                    inFlight := rest }

end Connection

/-- What happens to the outbound side of a connection: a call of `send`, or the completion
of a write (`ec` telling whether it failed). -/
inductive WriteEvent where
  | send (msg : Message)
  | completed (ec : Bool)
deriving DecidableEq, Repr

/-- Performs one event on a connection. -/
def Connection.step (k : Connection) : WriteEvent → Option Connection
  | .send msg => some (k.send msg)
  | .completed ec => k.onWrite ec

/-- Performs a sequence of events in order. -/
def Connection.run : Connection → List WriteEvent → Option Connection
  | k, [] => some k
  | k, e :: es =>
    match k.step e with
    | none => none
    | some k1 => Connection.run k1 es

/-- The serialized messages of the `send` calls of a sequence of events, in order. -/
def sentBy : List WriteEvent → List (List Char)
  | [] => []
  | .send msg :: es => msg.serialize :: sentBy es
  | .completed _ :: es => sentBy es

/-- The state of an open connection between two events: the writes in flight are the front
of the queue when the queue is not empty, and none otherwise. -/
def Connection.InOrder (k : Connection) : Prop :=
  k.client.socketOpen = true ∧ k.inFlight = k.client.outgoingMessages.take 1

/-- A connection right after its accept: the client is connected, nothing is queued, in
flight or written. -/
def Connection.accepted (id : Int) : Connection := ⟨connectedClient id, [], []⟩

/-! ## `CommonDefs.hpp`, `ErrorHandler.hpp`, `MainServer.cpp`, `main.cpp` -/

/-- The macro `SUCCESS`. -/
def SUCCESS : Int := 0
/-- The macro `FAILURE`. -/
def FAILURE : Int := -1

/-- What the statements of the `try` block of `MainServer::start` do: either the server is
constructed, runs and stops and the I/O thread is joined, or one of them throws a
`std::exception` whose `what()` is the text given (the constructor of the acceptor throws
when it cannot bind the port). -/
inductive TryOutcome where
  | ran
  | threw (what : List Char)
deriving DecidableEq, Repr

/-- The function `ErrorHandler::handle`: the line it writes to `std::cerr`. -/
def ErrorHandler.handle (what : List Char) : List Char :=
  "Exception: ".toList ++ what ++ "\n".toList

/-- The method `MainServer::start`: what it writes to `std::cerr` and the value it returns.
The `return SUCCESS` follows the `try` statement and is reached on both paths. -/
def MainServer.start (_maxPlayers : Int) (body : TryOutcome) : List Char × Int :=
  match body with
  | .ran => ([], SUCCESS)
  | .threw what => (ErrorHandler.handle what, SUCCESS)

/-- The function `ServerUtilities::help`: the usage text goes to `std::cout`, the argument is
returned. -/
def ServerUtilities.help (returnValue : Int) : Int := returnValue

namespace ServerProgram

/-- The function `main` of the server, `maxPlayers` being the value `std::stoi` reads from the
argument: what is written to `std::cerr` and the exit status of the process. -/
def main (ac : Int) (maxPlayers : Int) (body : TryOutcome) : List Char × Int :=
  if ac ≠ 2 then ([], ServerUtilities.help 84)
  else if maxPlayers < 1 ∨ maxPlayers > 4 then
    ("Error: max_players must be between 1 and 4.\n".toList, ServerUtilities.help 84)
  else MainServer.start maxPlayers body

end ServerProgram

/-! ## `GameClient.cpp` -/

/-- The characters of a buffer before the first occurrence of a delimiter. -/
def takeUntil (delim : Char) : List Char → List Char
  | [] => []
  | c :: cs => if c = delim then [] else c :: takeUntil delim cs

/-- What follows the first occurrence of a delimiter in a buffer, if there is one. -/
def dropUntil (delim : Char) : List Char → Option (List Char)
  | [] => none
  | c :: cs => if c = delim then some cs else dropUntil delim cs

/-- The loop `while (std::getline(stream, token, delim))` on a good stream that holds `buf`:
the tokens of its iterations, in order.  On an empty buffer `getline` extracts nothing and
fails, which ends the loop; a token that runs to the end of the buffer sets `eofbit`, so that
the next call fails.  The result is `none` when `fuel` iterations do not reach the end of the
loop. -/
def getlineLoop (delim : Char) : Nat → List Char → Option (List (List Char))
  | 0, _ => none
  | fuel + 1, buf =>
    if buf = [] then some []
    else
      match dropUntil delim buf with
      | none => some [takeUntil delim buf]
      | some rest =>
        match getlineLoop delim fuel rest with
        | none => none
        | some tokens => some (takeUntil delim buf :: tokens)

/-- The tokens of the whole loop: one iteration more than the buffer has characters is
always enough (`getlineTokens_isSome`). -/
def getlineTokens (delim : Char) (buf : List Char) : Option (List (List Char)) :=
  getlineLoop delim (buf.length + 1) buf

/-- The value of the digits after a decimal point. -/
def fractionValue (ds : List Char) : ℚ := (digitsValue ds : ℚ) / (10 : ℚ) ^ ds.length

/-- The formatted extraction `stream >> x` for a `float` target holding `target`, in decimal
notation: an optional sign, digits, an optional point with digits, an optional exponent.
The value is the exact rational written (the rounding to a `float` and its range are not
modelled).  As for an `int`: a stream that is not good or holds only whitespace leaves the
target as it was; without a digit the target becomes `0` and the stream fails; reading up
to the end of the buffer sets `eofbit`. -/
def extractFloat (s : IStringStream) (target : ℚ) : ℚ × IStringStream :=
  if !s.good then (target, s)
  else
    let b := skipWs s.buf
    if b = [] then (target, ⟨[], false⟩)
    else
      let sg := takeSign b
      let intDs := takeDigits sg.2
      let afterInt := dropDigits sg.2
      let fracDs := match afterInt with
        | '.' :: cs => takeDigits cs
        | _ => []
      let afterFrac := match afterInt with
        | '.' :: cs => dropDigits cs
        | _ => afterInt
      if intDs = [] ∧ fracDs = [] then (0, ⟨afterFrac, false⟩)
      else
        let mantissa : ℚ := (digitsValue intDs : ℚ) + fractionValue fracDs
        let signed : ℚ := if sg.1 then -mantissa else mantissa
        match afterFrac with
        | [] => (signed, ⟨[], false⟩)
        | e :: cs =>
          if e = 'e' ∨ e = 'E' then
            let esg := takeSign cs
            let expDs := takeDigits esg.2
            let rest := dropDigits esg.2
            if expDs = [] then (0, ⟨rest, false⟩)
            else
              let scaled : ℚ :=
                if esg.1 then signed / (10 : ℚ) ^ digitsValue expDs
                else signed * (10 : ℚ) ^ digitsValue expDs
              (scaled, ⟨rest, !rest.isEmpty⟩)
          else (signed, ⟨e :: cs, true⟩)

/-- The characters of a buffer before its first whitespace character. -/
def takeWord : List Char → List Char
  | [] => []
  | c :: cs => if isSpace c then [] else c :: takeWord cs

/-- What is left of a buffer from its first whitespace character on. -/
def dropWord : List Char → List Char
  | [] => []
  | c :: cs => if isSpace c then c :: cs else dropWord cs

/-- The formatted extraction `stream >> str` for a `std::string` target: the leading
whitespace is skipped and the characters up to the next whitespace replace the string; a
stream that is not good or holds only whitespace leaves the string as it was. -/
def extractWord (s : IStringStream) (target : List Char) : List Char × IStringStream :=
  if !s.good then (target, s)
  else
    let b := skipWs s.buf
    if b = [] then (target, ⟨[], false⟩)
    else (takeWord b, ⟨dropWord b, !(dropWord b).isEmpty⟩)

/-- The function `std::stoi`: the integer at the start of the string, after leading
whitespace and an optional sign; `none` when it throws, for want of a digit or because the
value does not fit an `int`. -/
def stoi (str : List Char) : Option Int :=
  let sg := takeSign (skipWs str)
  let ds := takeDigits sg.2
  if ds = [] then none
  else
    let v : Int := if sg.1 then -(digitsValue ds : Int) else (digitsValue ds : Int)
    if v < INT_MIN ∨ INT_MAX < v then none else some v

/-- A call of the client on its `GraphicSystem`. -/
inductive GraphicCall where
  | setNewPos (x y : ℚ) (entityId : Int)
  | setGameOver
  | factory (entityId : Int) (entityType : List Char) (relatedEntityPosId : Int)
  | removeEntity (entityId : Int)
deriving DecidableEq, Repr

/-- The values that locals declared without an initialiser happen to hold: `messageType` of
`Message::deserialize`, and `entityId`, `x`, `y` of the client. -/
structure Indeterminate where
  messageType : Int
  entityId : Int
  x : ℚ
  y : ℚ
deriving DecidableEq, Repr

namespace GameClient

/-- The body of the loop of `GameClient::updateGameState` for one token:
`tokenStream >> entityId >> x >> y`, then `gs.setNewPos(x, y, entityId)`. -/
def parseTuple (u : Indeterminate) (token : List Char) : GraphicCall :=
  let r1 := extractInt ⟨token, true⟩ u.entityId
  let r2 := extractFloat r1.2 u.x
  let r3 := extractFloat r2.2 u.y
  .setNewPos r2.1 r3.1 r1.1

/-- The method `GameClient::updateGameState`: the calls of `gs.setNewPos` it makes, one for
each token of the split at `,`, in order. -/
def updateGameState (u : Indeterminate) (stateData : List Char) : Option (List GraphicCall) :=
  match getlineTokens ',' stateData with
  | none => none
  | some tokens => some (tokens.map (parseTuple u))

/-- The method `GameClient::receiveUpdates`: the calls on the graphic system it makes, in
order.  The result is `none` when the call does not return, `std::stoi` throwing. -/
def receiveUpdates (u : Indeterminate) (message : Message) : Option (List GraphicCall) :=
  let c1 : Option (List GraphicCall) :=
    if message.type = RFC.STATE_UPDATE then updateGameState u message.content else some []
  let c2 : List GraphicCall := if message.type = RFC.GAME_OVER then [.setGameOver] else []
  let c3 : List GraphicCall :=
    if message.type = RFC.NEW_ENTITY then
      let r1 := extractWord ⟨message.content, true⟩ []
      let r2 := extractInt r1.2 u.entityId
      [.factory r2.1 r1.1 (-1)]
    else []
  let c4 : Option (List GraphicCall) :=
    if message.type = RFC.ENTITY_DEAD then
      match stoi message.content with
      | none => none
      | some id => some [.factory (-1) "Explosion".toList id, .removeEntity id]
    else some []
  match c1, c4 with
  | some l1, some l4 => some (l1 ++ c2 ++ c3 ++ l4)
  | _, _ => none

/-- The loop of the read handler over the tokens of the split at `;`: an empty token is
skipped, any other is decoded and handed to `receiveUpdates`. -/
def handleTokens (u : Indeterminate) : List (List Char) → Option (List GraphicCall)
  | [] => some []
  | token :: rest =>
    if token ≠ [] then
      match receiveUpdates u (Message.deserialize u.messageType token) with
      | none => none
      | some calls =>
        match handleTokens u rest with
        | none => none
        | some more => some (calls ++ more)
    else handleTokens u rest

/-- The completion handler of `GameClient::startRead` without error, for the data read: the
calls on the graphic system it makes, in order.  (The message it decodes from the whole
buffer afterwards is not used.) -/
def onRead (u : Indeterminate) (receivedData : List Char) : Option (List GraphicCall) :=
  match getlineTokens ';' receivedData with
  | none => none
  | some tokens => handleTokens u tokens

end GameClient

/-- The text of a decimal number: an optional minus sign, the digits before the point, the
point, the digits after it (`std::to_string` writes six of them for a `float`). -/
structure DecimalText where
  neg : Bool
  intDigits : List Char
  fracDigits : List Char
deriving DecidableEq, Repr

namespace DecimalText

/-- The characters of the text. -/
def chars (d : DecimalText) : List Char :=
  signChars d.neg ++ d.intDigits ++ '.' :: d.fracDigits

/-- The number the text denotes. -/
def value (d : DecimalText) : ℚ :=
  if d.neg then -((digitsValue d.intDigits : ℚ) + fractionValue d.fracDigits)
  else (digitsValue d.intDigits : ℚ) + fractionValue d.fracDigits

/-- The text has a digit before the point and holds digits only. -/
def WellFormed (d : DecimalText) : Prop :=
  d.intDigits ≠ [] ∧ (∀ c ∈ d.intDigits, c.isDigit = true) ∧
  (∀ c ∈ d.fracDigits, c.isDigit = true)

instance (d : DecimalText) : Decidable d.WellFormed := by
  unfold WellFormed; infer_instance

end DecimalText

/-- The text of one tuple `<id> <x> <y>,` of a snapshot. -/
structure TupleText where
  idNeg : Bool
  idDigits : List Char
  x : DecimalText
  y : DecimalText
deriving DecidableEq, Repr

namespace TupleText

/-- The characters of the tuple in front of its comma. -/
def body (t : TupleText) : List Char :=
  signChars t.idNeg ++ t.idDigits ++ ' ' :: (t.x.chars ++ ' ' :: t.y.chars)

/-- The characters of the tuple, the comma included. -/
def chars (t : TupleText) : List Char := t.body ++ [',']

/-- The position update the tuple stands for. -/
def call (t : TupleText) : GraphicCall :=
  .setNewPos t.x.value t.y.value (signedValue t.idNeg t.idDigits)

/-- The id is an integer token within the range of an `int`, and the two numbers are
well formed. -/
def WellFormed (t : TupleText) : Prop :=
  t.idDigits ≠ [] ∧ (∀ c ∈ t.idDigits, c.isDigit = true) ∧
  INT_MIN ≤ signedValue t.idNeg t.idDigits ∧ signedValue t.idNeg t.idDigits ≤ INT_MAX ∧
  t.x.WellFormed ∧ t.y.WellFormed

instance (t : TupleText) : Decidable t.WellFormed := by
  unfold WellFormed; infer_instance

end TupleText

/-- The two tuples `1 10.000000 20.000000,` and `2 5.000000 5.000000,`. -/
def twoTuples : List TupleText :=
  [⟨false, "1".toList, ⟨false, "10".toList, "000000".toList⟩,
      ⟨false, "20".toList, "000000".toList⟩⟩,
   ⟨false, "2".toList, ⟨false, "5".toList, "000000".toList⟩,
      ⟨false, "5".toList, "000000".toList⟩⟩]

/-- The content of a snapshot made of the given tuples, without its closing `;`. -/
def tuplesText (ts : List TupleText) : List Char := (ts.map TupleText.chars).flatten

/-! ## `Client.cpp`: the mutex and the queues -/

/-- The two queues of a `Client`. -/
inductive Queue where
  | outgoingMessages
  | received_messages
deriving DecidableEq, Repr

/-- One step of a method of `Client`, as far as its mutex `socket_mutex` and its queues are
concerned: the construction of a `std::lock_guard` on the mutex and its destruction at the
end of the scope, a call on a queue that reads it (`empty`, `size`, `front`) or changes it
(`push_back`, `pop_front`), and the call that starts an asynchronous operation and
returns at once. -/
inductive Step where
  | lock
  | unlock
  | read (queue : Queue)
  | mutate (queue : Queue)
  | startAsync
deriving DecidableEq, Repr

namespace Client

/-- The steps of `Client::writeMessages`, `empty` telling whether the queue is empty and
`socketOpen` whether the socket is open: the lock guard lives for the whole body. -/
def writeMessagesSteps (empty socketOpen : Bool) : List Step :=
  [.lock, .read .outgoingMessages] ++
    (if empty || !socketOpen then [] else [.read .outgoingMessages, .startAsync]) ++
    [.unlock]

/-- The steps of `Client::send`, `wasEmpty` telling whether the queue is empty when it is
called: `empty()`, `push_back`, and the call of `writeMessages` when the queue was empty. -/
def sendSteps (wasEmpty socketOpen : Bool) : List Step :=
  [.read .outgoingMessages, .mutate .outgoingMessages] ++
    (if wasEmpty then writeMessagesSteps false socketOpen else [])

/-- The steps of the completion handler of the write, `ec` telling whether the write failed
and `emptyAfter` whether the queue is empty after `pop_front`. -/
def onWriteSteps (ec emptyAfter socketOpen : Bool) : List Step :=
  if !ec then
    [.mutate .outgoingMessages, .read .outgoingMessages] ++
      (if !emptyAfter then writeMessagesSteps false socketOpen else [])
  else []

/-- The steps of `Client::startRead`. -/
def startReadSteps (socketOpen : Bool) : List Step :=
  [.lock] ++ (if !socketOpen then [] else [.startAsync]) ++ [.unlock]

/-- The steps of the completion handler of the read, `ec` telling whether the read failed:
`push_back` on the queue of received messages, then `startRead`. -/
def onReadSteps (ec socketOpen : Bool) : List Step :=
  if !ec then [.mutate .received_messages] ++ startReadSteps socketOpen else []

/-- The steps of `Client::hasReceivedMessages`, `empty` telling whether the queue is empty. -/
def hasReceivedMessagesSteps (empty : Bool) : List Step :=
  [.read .received_messages] ++ (if empty then [] else [.read .received_messages])

/-- The steps of `Client::getNextMessage`. -/
def getNextMessageSteps (empty : Bool) : List Step :=
  [.read .received_messages] ++
    (if !empty then [.read .received_messages, .mutate .received_messages] else [])

end Client

/-- Whether every call that changes a queue in a run of steps is made while the mutex is
held, `held` telling whether it is held when the run starts. -/
def mutationsGuarded : Bool → List Step → Bool
  | _, [] => true
  | _, .lock :: rest => mutationsGuarded true rest
  | _, .unlock :: rest => mutationsGuarded false rest
  | held, .mutate _ :: rest => held && mutationsGuarded held rest
  | held, .read _ :: rest => mutationsGuarded held rest
  | held, .startAsync :: rest => mutationsGuarded held rest

/-- Whether the mutex is held when a run of steps ends. -/
def heldAfter : Bool → List Step → Bool
  | held, [] => held
  | _, .lock :: rest => heldAfter true rest
  | _, .unlock :: rest => heldAfter false rest
  | held, _ :: rest => heldAfter held rest

/-- An access to a queue: the queue, whether the access changes it, and whether the thread
holds the mutex at that point. -/
structure Access where
  queue : Queue
  mutates : Bool
  held : Bool
deriving DecidableEq, Repr

/-- The accesses to the queues in a run of steps. -/
def accesses : Bool → List Step → List Access
  | _, [] => []
  | _, .lock :: rest => accesses true rest
  | _, .unlock :: rest => accesses false rest
  | held, .mutate queue :: rest => ⟨queue, true, held⟩ :: accesses held rest
  | held, .read queue :: rest => ⟨queue, false, held⟩ :: accesses held rest
  | held, .startAsync :: rest => accesses held rest

/-- Two accesses of two threads conflict when they are to the same queue, one of them changes
it, and the mutex does not keep them apart (the two threads cannot both hold it). -/
def Access.conflicts (a b : Access) : Bool :=
  decide (a.queue = b.queue) && (a.mutates || b.mutates) && !(a.held && b.held)

/-- Whether two runs of steps, made by two threads at the same time, hold two conflicting
accesses. -/
def races (t1 t2 : List Step) : Bool :=
  (accesses false t1).any (fun a => (accesses false t2).any (fun b => a.conflicts b))

/-- Whether an operation is one of those performed while the game runs: every operation but
`createPlayers` and `startGame`, which are performed once, when the last client connects. -/
def ServerOp.inGame : ServerOp → Bool
  | .createPlayers => false
  | .startGame _ => false
  | _ => true

/-- What the operations of the running game other than `createEnemy` keep from `s` to `s'`:
the id counter, the roster of enemies and the `Player` entries of the component map; and
they add no client. -/
def KeepsPlayers (s s' : Server) : Prop :=
  s'.registry.nextEntityId = s.registry.nextEntityId ∧
  s'.activeEnemies = s.activeEnemies ∧
  (∀ (id : Int) (v : Slot), s.registry.components_.find (Kind.Player, id) = some v →
    s'.registry.components_.find (Kind.Player, id) = some v) ∧
  (∀ id ∈ s'.clientIds, id ∈ s.clientIds)

/-- The players come first: the entities `1, ..., n` carry the player components of the
clients `1, ..., n`, the ids of the clients lie in that range, and the enemies of the roster
have ids above `n` and below the id counter, which has not run far. -/
def PlayersFirst (n : Nat) (s : Server) : Prop :=
  (∀ c : Int, 1 ≤ c → c ≤ (n : Int) →
    s.registry.components_.find (Kind.Player, c) = some (some (.player ⟨c, true⟩))) ∧
  (∀ id ∈ s.clientIds, 1 ≤ id ∧ id ≤ (n : Int)) ∧
  (∀ id ∈ s.activeEnemies, (n : Int) < id ∧ id < s.registry.nextEntityId) ∧
  (n : Int) < s.registry.nextEntityId ∧
  s.registry.nextEntityId ≤ (n : Int) + 1 + (s.activeEnemies.length : Int) ∧
  s.activeEnemies.length ≤ 5

/-- A sample of the random engine for which `createEnemy` draws the height 250, the height
of the first of two players. -/
def playerRowSample : UnitSample := ⟨5 / 19, by norm_num⟩

/-- The server `twoClientServer` after `startGame`, the creation of an enemy at `(1920, 250)`
and one tick of `25/4` seconds, which brings the enemy to `(45, 250)`, five units right of
the box of the player of client 1 at `(0, 250)`. -/
def facingServer : Server :=
  (runOps twoClientServer
    [.startGame halfSample, .createEnemy playerRowSample,
     .updateGameState (25 / 4) (fun _ => halfSample)]).getD twoClientServer

/-! # Theorems -/

/-! ## Lemmas on the codec -/

theorem isDigit_not_space {c : Char} (h : c.isDigit = true) : isSpace c = false := by
  have h1 : c ≠ ' ' := by rintro rfl; revert h; decide
  have h2 : c ≠ '\t' := by rintro rfl; revert h; decide
  have h3 : c ≠ '\n' := by rintro rfl; revert h; decide
  have h4 : c ≠ '\x0b' := by rintro rfl; revert h; decide
  have h5 : c ≠ '\x0c' := by rintro rfl; revert h; decide
  have h6 : c ≠ '\r' := by rintro rfl; revert h; decide
  simp [isSpace, h1, h2, h3, h4, h5, h6]

theorem isDigit_not_sign {c : Char} (h : c.isDigit = true) : c ≠ '-' ∧ c ≠ '+' := by
  constructor <;> (rintro rfl; revert h; decide)

theorem takeDigits_append (ds : List Char) (sep : Char) (rest : List Char)
    (hds : ∀ c ∈ ds, c.isDigit = true) (hsep : sep.isDigit = false) :
    takeDigits (ds ++ sep :: rest) = ds := by
  induction ds with
  | nil => simp [takeDigits, hsep]
  | cons d ds ih =>
    have hd : d.isDigit = true := hds d (List.mem_cons_self _ _)
    have ih2 := ih (fun c hc => hds c (List.mem_cons_of_mem _ hc))
    simp [takeDigits, hd, ih2]

theorem dropDigits_append (ds : List Char) (sep : Char) (rest : List Char)
    (hds : ∀ c ∈ ds, c.isDigit = true) (hsep : sep.isDigit = false) :
    dropDigits (ds ++ sep :: rest) = sep :: rest := by
  induction ds with
  | nil => simp [dropDigits, hsep]
  | cons d ds ih =>
    have hd : d.isDigit = true := hds d (List.mem_cons_self _ _)
    have ih2 := ih (fun c hc => hds c (List.mem_cons_of_mem _ hc))
    simp [dropDigits, hd, ih2]

theorem skipWs_token (neg : Bool) (ds tl : List Char) (hne : ds ≠ [])
    (hds : ∀ c ∈ ds, c.isDigit = true) :
    skipWs (signChars neg ++ ds ++ tl) = signChars neg ++ ds ++ tl := by
  cases neg with
  | true => simp [signChars, skipWs, isSpace]
  | false =>
    cases ds with
    | nil => exact absurd rfl hne
    | cons d ds =>
      have hd := isDigit_not_space (hds d (List.mem_cons_self _ _))
      simp [signChars, skipWs, hd]

theorem takeSign_token (neg : Bool) (ds tl : List Char) (hne : ds ≠ [])
    (hds : ∀ c ∈ ds, c.isDigit = true) :
    takeSign (signChars neg ++ ds ++ tl) = (neg, ds ++ tl) := by
  cases neg with
  | true => simp [signChars, takeSign]
  | false =>
    cases ds with
    | nil => exact absurd rfl hne
    | cons d ds =>
      have hd := isDigit_not_sign (hds d (List.mem_cons_self _ _))
      simp [signChars, takeSign, hd.1, hd.2]

theorem getline_good (b str : List Char) : (getline ⟨b, true⟩ str).1 = takeLine b := by
  unfold getline
  cases dropLine b <;> simp

theorem takeLine_of_no_newline (b : List Char) (h : '\n' ∉ b) : takeLine b = b := by
  induction b with
  | nil => rfl
  | cons c cs ih =>
    have hc : c ≠ '\n' := fun e => h (e ▸ List.mem_cons_self _ _)
    have hcs : '\n' ∉ cs := fun e => h (List.mem_cons_of_mem _ e)
    simp [takeLine, hc, ih hcs]

/-- Decoding a buffer that starts with a number token in the `int` range, followed by one
character that is not a digit: the type is the number, the content is what follows that
character up to the first newline. -/
theorem deserialize_token (uninit : Int) (neg : Bool) (ds : List Char) (sep : Char)
    (rest : List Char) (hne : ds ≠ []) (hds : ∀ c ∈ ds, c.isDigit = true)
    (hsep : sep.isDigit = false)
    (hlo : INT_MIN ≤ signedValue neg ds) (hhi : signedValue neg ds ≤ INT_MAX) :
    Message.deserialize uninit (signChars neg ++ ds ++ sep :: rest)
      = ⟨⟨signedValue neg ds⟩, takeLine rest⟩ := by
  have h1 := skipWs_token neg ds (sep :: rest) hne hds
  have h2 := takeSign_token neg ds (sep :: rest) hne hds
  have h3 := takeDigits_append ds sep rest hds hsep
  have h4 := dropDigits_append ds sep rest hds hsep
  have hne2 : signChars neg ++ ds ++ sep :: rest ≠ [] := by simp
  have hlo2 : ¬ signedValue neg ds < INT_MIN := not_lt.mpr hlo
  have hhi2 : ¬ INT_MAX < signedValue neg ds := not_lt.mpr hhi
  unfold signedValue at hlo2 hhi2
  simp only [Message.deserialize, extractInt, h1, h2, h3, h4, hne, hne2, hlo2, hhi2, ignore,
    signedValue, Bool.not_true, Bool.false_eq_true, if_false, List.isEmpty_cons]
  simp [getline_good]

/-- The decimal text of the five enumerator codes. -/
theorem intToChars_known :
    intToChars 200 = ['2', '0', '0'] ∧ intToChars 210 = ['2', '1', '0'] ∧
    intToChars 220 = ['2', '2', '0'] ∧ intToChars 230 = ['2', '3', '0'] ∧
    intToChars 400 = ['4', '0', '0'] := by
  decide

/-- Encoding a message whose code is written with the digits `ds`. -/
theorem serialize_of_digits (k : Int) (ds c : List Char) (h : intToChars k = ds) :
    Message.serialize ⟨⟨k⟩, c⟩ = signChars false ++ ds ++ ' ' :: c := by
  simp [Message.serialize, signChars, h]

/-- Round trip of a message whose non-negative code `k` is written with the digits `ds`. -/
theorem roundtrip_of_digits (uninit k : Int) (ds c : List Char) (hprint : intToChars k = ds)
    (hne : ds ≠ []) (hds : ∀ d ∈ ds, d.isDigit = true) (hval : signedValue false ds = k)
    (hlo : INT_MIN ≤ k) (hhi : k ≤ INT_MAX) (hnl : '\n' ∉ c) :
    Message.deserialize uninit (Message.serialize ⟨⟨k⟩, c⟩) = ⟨⟨k⟩, c⟩ := by
  rw [serialize_of_digits k ds c hprint,
    deserialize_token uninit false ds ' ' c hne hds (by decide) (hval ▸ hlo) (hval ▸ hhi),
    takeLine_of_no_newline c hnl, hval]

/-! ## The codec claims -/

/-- C1 (as stated, refuted): the content `a<newline>b` of an `INPUT` message holds no space, so
nothing in it can be confused with the separator between type and content, yet decoding the
encoded message does not give the message back. -/
theorem C1_roundtrip_fails_on_newline :
    ' ' ∉ "a\nb".toList ∧
    Message.deserialize 0 (Message.serialize ⟨RFC.INPUT, "a\nb".toList⟩)
      ≠ ⟨RFC.INPUT, "a\nb".toList⟩ := by
  decide

/-- C1 (amended): for every message whose type is one of the five enumerators of `RFC` and
whose content holds no newline character, `deserialize (serialize m) = m`. -/
theorem C1_roundtrip_without_newline (uninit : Int) (m : Message)
    (hk : m.type ∈ RFC.known) (hnl : '\n' ∉ m.content) :
    Message.deserialize uninit (Message.serialize m) = m := by
  obtain ⟨t, c⟩ := m
  simp only [RFC.known, List.mem_cons, List.mem_singleton, List.not_mem_nil, or_false] at hk
  rcases hk with h | h | h | h | h <;> subst h
  · exact roundtrip_of_digits uninit 200 _ c intToChars_known.1
      (by decide) (by decide) (by decide) (by decide) (by decide) hnl
  · exact roundtrip_of_digits uninit 210 _ c intToChars_known.2.1
      (by decide) (by decide) (by decide) (by decide) (by decide) hnl
  · exact roundtrip_of_digits uninit 220 _ c intToChars_known.2.2.1
      (by decide) (by decide) (by decide) (by decide) (by decide) hnl
  · exact roundtrip_of_digits uninit 230 _ c intToChars_known.2.2.2.1
      (by decide) (by decide) (by decide) (by decide) (by decide) hnl
  · exact roundtrip_of_digits uninit 400 _ c intToChars_known.2.2.2.2
      (by decide) (by decide) (by decide) (by decide) (by decide) hnl

/-- C1 (amended), at a concrete message: a `STATE_UPDATE` snapshot with spaces, commas and a
semicolon in its content survives the round trip. -/
theorem C1_roundtrip_without_newline_witness :
    Message.deserialize 0 (Message.serialize ⟨RFC.STATE_UPDATE, "1 10.5 20,;".toList⟩)
      = ⟨RFC.STATE_UPDATE, "1 10.5 20,;".toList⟩ :=
  C1_roundtrip_without_newline 0 ⟨RFC.STATE_UPDATE, "1 10.5 20,;".toList⟩
    (by decide) (by decide)

/-- C2: `serialize` writes the decimal integer code of the type, one space, and the content
unchanged; the codes of the five enumerators are 200, 210, 220, 230 and 400. -/
theorem C2_serialize_format :
    (∀ m : Message, Message.serialize m = intToChars m.type.code ++ ' ' :: m.content) ∧
    (∀ c, Message.serialize ⟨RFC.STATE_UPDATE, c⟩ = '2' :: '0' :: '0' :: ' ' :: c) ∧
    (∀ c, Message.serialize ⟨RFC.INPUT, c⟩ = '2' :: '1' :: '0' :: ' ' :: c) ∧
    (∀ c, Message.serialize ⟨RFC.NEW_ENTITY, c⟩ = '2' :: '2' :: '0' :: ' ' :: c) ∧
    (∀ c, Message.serialize ⟨RFC.ENTITY_DEAD, c⟩ = '2' :: '3' :: '0' :: ' ' :: c) ∧
    (∀ c, Message.serialize ⟨RFC.GAME_OVER, c⟩ = '4' :: '0' :: '0' :: ' ' :: c) := by
  refine ⟨fun _ => rfl, fun c => ?_, fun c => ?_, fun c => ?_, fun c => ?_, fun c => ?_⟩
  · exact serialize_of_digits _ _ c intToChars_known.1
  · exact serialize_of_digits _ _ c intToChars_known.2.1
  · exact serialize_of_digits _ _ c intToChars_known.2.2.1
  · exact serialize_of_digits _ _ c intToChars_known.2.2.2.1
  · exact serialize_of_digits _ _ c intToChars_known.2.2.2.2

/-- C3 (as stated, refuted): in the buffer `210 a<newline>b` the content is cut at the newline,
and in the buffer `99999999999 x`, whose integer does not fit an `int`, the content is
empty. -/
theorem C3_content_not_verbatim :
    (Message.deserialize 0 "210 a\nb".toList).content ≠ "a\nb".toList ∧
    (Message.deserialize 0 "99999999999 x".toList).content ≠ "x".toList := by
  decide

/-- C3 (amended): for a buffer made of an integer token (an optional minus sign and at least
one digit) whose value fits a 32-bit `int`, one character that is not a digit, and any `rest`,
`deserialize` returns as content the part of `rest` before its first newline, which is the
whole of `rest` when `rest` holds no newline. -/
theorem C3_content_up_to_newline (uninit : Int) (neg : Bool) (ds : List Char) (sep : Char)
    (rest : List Char) (hne : ds ≠ []) (hds : ∀ c ∈ ds, c.isDigit = true)
    (hsep : sep.isDigit = false)
    (hlo : INT_MIN ≤ signedValue neg ds) (hhi : signedValue neg ds ≤ INT_MAX) :
    (Message.deserialize uninit (signChars neg ++ ds ++ sep :: rest)).content = takeLine rest ∧
    ('\n' ∉ rest →
      (Message.deserialize uninit (signChars neg ++ ds ++ sep :: rest)).content = rest) := by
  have h := deserialize_token uninit neg ds sep rest hne hds hsep hlo hhi
  refine ⟨by rw [h], fun hnl => ?_⟩
  rw [h]
  exact takeLine_of_no_newline rest hnl

/-- C3 (amended), at the buffer `220 Player 1;`. -/
theorem C3_content_up_to_newline_witness :
    (Message.deserialize 0
      (signChars false ++ "220".toList ++ ' ' :: "Player 1;".toList)).content
      = "Player 1;".toList :=
  (C3_content_up_to_newline 0 false "220".toList ' ' "Player 1;".toList
    (by decide) (by decide) (by decide) (by decide) (by decide)).2 (by decide)

/-! ## The overlap test -/

/-- C5: the overlap test is symmetric, `isCollision A B = isCollision B A`. -/
theorem C5_isCollision_symmetric (pa : PositionComponent) (ha : HitboxComponent)
    (pb : PositionComponent) (hb : HitboxComponent) :
    CollisionSystem.isCollision pa ha pb hb = CollisionSystem.isCollision pb hb pa ha := by
  unfold CollisionSystem.isCollision
  simp only [gt_iff_lt]
  cases decide (pa.x < pb.x + hb.width) <;> cases decide (pb.x < pa.x + ha.width) <;>
    cases decide (pa.y < pb.y + hb.height) <;> cases decide (pb.y < pa.y + ha.height) <;> rfl

/-- C6 (as stated, refuted): a rectangle of width and height `0` does not overlap itself. -/
theorem C6_not_reflexive_on_empty_rectangle :
    CollisionSystem.isCollision ⟨0, 0⟩ ⟨0, 0⟩ ⟨0, 0⟩ ⟨0, 0⟩ = false := by
  decide!

/-- C6 (amended): a rectangle overlaps itself exactly when its width and its height are both
positive. -/
theorem C6_reflexive_iff_positive_size (p : PositionComponent) (h : HitboxComponent) :
    CollisionSystem.isCollision p h p h = true ↔ (0 < h.width ∧ 0 < h.height) := by
  unfold CollisionSystem.isCollision
  simp only [gt_iff_lt, Bool.and_eq_true, decide_eq_true_eq, lt_add_iff_pos_right]
  tauto

/-! ## The entity store -/

theorem wrapInt32_of_range (n : Int) (hlo : INT_MIN ≤ n) (hhi : n ≤ INT_MAX) :
    wrapInt32 n = n := by
  unfold INT_MIN at hlo
  unfold INT_MAX at hhi
  unfold wrapInt32
  omega

/-- The ids returned by the `createEntity` calls of a sequence are consecutive, starting at
the value of the counter, as long as the counter stays in the `int` range. -/
theorem runCalls_ids (calls : List RegistryCall) :
    ∀ r : Registry, INT_MIN ≤ r.nextEntityId →
      r.nextEntityId + (numCreates calls : Int) ≤ INT_MAX →
      (runCalls r calls).2
        = (List.range (numCreates calls)).map (fun (i : Nat) => r.nextEntityId + (i : Int)) := by
  induction calls with
  | nil => intro r _ _; simp [runCalls, numCreates]
  | cons c cs ih =>
    intro r hlo hhi
    cases c with
    | createEntity =>
      have hn : numCreates (RegistryCall.createEntity :: cs) = numCreates cs + 1 := rfl
      rw [hn] at hhi ⊢
      push_cast at hhi
      have hw : wrapInt32 (r.nextEntityId + 1) = r.nextEntityId + 1 :=
        wrapInt32_of_range _ (by omega) (by omega)
      have hnext : (r.createEntity).2.nextEntityId = r.nextEntityId + 1 := hw
      have := ih (r.createEntity).2 (by rw [hnext]; omega) (by rw [hnext]; omega)
      simp only [runCalls, RegistryCall.exec]
      rw [this, hnext, List.range_succ_eq_map]
      simp only [List.map_cons, List.map_map, Nat.cast_zero, add_zero, Entity.id,
        Registry.createEntity]
      congr 1
      apply List.map_congr_left
      intro i _
      simp only [Function.comp, Nat.succ_eq_add_one, Nat.cast_add, Nat.cast_one]
      omega
    | addComponent entity component =>
      have := ih (r.addComponent entity component) hlo hhi
      simpa [runCalls, RegistryCall.exec, numCreates] using this
    | removeEntity entityId =>
      have := ih (r.removeEntity entityId) hlo hhi
      simpa [runCalls, RegistryCall.exec, numCreates] using this

theorem find_assign_same (m : ComponentMap) (k : Key) (v : Slot) :
    (m.assign k v).find k = some v := by
  induction m with
  | nil => simp [ComponentMap.assign, ComponentMap.find]
  | cons a m ih =>
    obtain ⟨k', s⟩ := a
    by_cases h : k' = k
    · simp [ComponentMap.assign, ComponentMap.find, h]
    · simp [ComponentMap.assign, ComponentMap.find, h, ih]

theorem find_assign_other (m : ComponentMap) (k k' : Key) (v : Slot) (hk : k' ≠ k) :
    (m.assign k v).find k' = m.find k' := by
  induction m with
  | nil => simp [ComponentMap.assign, ComponentMap.find, Ne.symm hk]
  | cons a m ih =>
    obtain ⟨k0, s⟩ := a
    by_cases h : k0 = k
    · subst h
      simp [ComponentMap.assign, ComponentMap.find, Ne.symm hk]
    · by_cases h2 : k0 = k'
      · subst h2
        simp [ComponentMap.assign, ComponentMap.find, hk]
      · simp [ComponentMap.assign, ComponentMap.find, h, h2, ih]

theorem getComponent_add_same (r : Registry) (entity : Entity) (component : Component) :
    (r.addComponent entity component).getComponent component.kind entity = some component := by
  simp [Registry.getComponent, Registry.addComponent, find_assign_same]

theorem getComponent_add_other (r : Registry) (entity : Entity) (component : Component)
    (T : Kind) (entity' : Entity) (h : (T, entity'.id) ≠ (component.kind, entity.id)) :
    (r.addComponent entity component).getComponent T entity' = r.getComponent T entity' := by
  simp [Registry.getComponent, Registry.addComponent, find_assign_other _ _ _ _ h]

/-- After a sequence of calls a lookup returns the component most recently added under the
key, and what the registry held before the sequence when none was added. -/
theorem getComponent_runCalls (calls : List RegistryCall) (T : Kind) (entity : Entity) :
    ∀ r : Registry, (runCalls r calls).1.getComponent T entity
      = match lastAdded T entity.id calls with
        | some v => some v
        | none => r.getComponent T entity := by
  induction calls with
  | nil => intro r; simp [runCalls, lastAdded]
  | cons c cs ih =>
    intro r
    have hstep : (runCalls r (c :: cs)).1 = (runCalls (c.exec r).1 cs).1 := by
      simp only [runCalls]
      cases (c.exec r).2 <;> rfl
    rw [hstep, ih]
    cases hl : lastAdded T entity.id cs with
    | some v => simp [lastAdded, hl]
    | none =>
      cases c with
      | createEntity => simp [lastAdded, hl, RegistryCall.exec, Registry.createEntity,
          Registry.getComponent]
      | removeEntity entityId => simp [lastAdded, hl, RegistryCall.exec, Registry.removeEntity,
          Registry.getComponent]
      | addComponent e comp =>
        by_cases hk : comp.kind = T ∧ e.id = entity.id
        · have hid : e = entity := by
            cases e; cases entity; simp only [Entity.id] at hk; simp [hk.2]
          obtain ⟨hT, _⟩ := hk
          subst hT hid
          simp [lastAdded, hl, RegistryCall.exec, getComponent_add_same]
        · have hne : (T, entity.id) ≠ (comp.kind, e.id) := by
            intro heq
            simp only [Prod.mk.injEq] at heq
            exact hk ⟨heq.1.symm, heq.2.symm⟩
          simp [lastAdded, hl, RegistryCall.exec, hk, getComponent_add_other _ _ _ _ _ hne]

theorem lastAdded_none (T : Kind) (id : Int) (calls : List RegistryCall)
    (h : ∀ entity component, RegistryCall.addComponent entity component ∈ calls →
      ¬ (component.kind = T ∧ entity.id = id)) :
    lastAdded T id calls = none := by
  induction calls with
  | nil => rfl
  | cons c cs ih =>
    have ih2 := ih (fun entity component hm => h entity component (List.mem_cons_of_mem _ hm))
    cases c with
    | createEntity => simp [lastAdded, ih2]
    | removeEntity entityId => simp [lastAdded, ih2]
    | addComponent entity component =>
      have hc := h entity component (List.mem_cons_self _ _)
      simp [lastAdded, ih2, hc]

/-- C8: on a fresh `Registry`, whatever `addComponent` and `removeEntity` calls are
interleaved, the `createEntity` calls return the ids `1, 2, 3, ...` in this order (the `k`-th
call returns `k`), so every returned id is strictly greater than all ids returned before and
no id is returned twice.  The number of `createEntity` calls is taken below `2^31 - 1`, the
point where the `int` counter would overflow. -/
theorem C8_ids_allocated_from_one_increasing (calls : List RegistryCall)
    (hbound : numCreates calls < 2147483647) :
    (runCalls Registry.new calls).2
        = (List.range (numCreates calls)).map (fun (i : Nat) => (i : Int) + 1) ∧
    ((runCalls Registry.new calls).2).Pairwise (· < ·) := by
  have h := runCalls_ids calls Registry.new (by decide)
    (by simp only [Registry.new, INT_MAX]; omega)
  have h1 : (runCalls Registry.new calls).2
      = (List.range (numCreates calls)).map (fun (i : Nat) => (i : Int) + 1) := by
    rw [h]
    apply List.map_congr_left
    intro i _
    simp only [Registry.new]
    omega
  refine ⟨h1, ?_⟩
  rw [h1, List.pairwise_map]
  exact List.Pairwise.imp (fun {a b} hab => by omega) (List.pairwise_lt_range _)

/-- C8, at a concrete interleaving: create, create, remove 1, create returns 1, 2, 3. -/
theorem C8_ids_allocated_from_one_increasing_witness :
    (runCalls Registry.new
        [.createEntity, .createEntity, .removeEntity 1, .createEntity]).2 = [1, 2, 3] :=
  (C8_ids_allocated_from_one_increasing
    [.createEntity, .createEntity, .removeEntity 1, .createEntity] (by decide)).1

/-- C9: the component store is a map keyed by kind and entity id.  After any sequence of
registry calls on a fresh registry `getComponent<T>(e)` is the component most recently added
for that kind and id; it is absent when no `addComponent` of the sequence was for that kind
and id; a lookup right after `addComponent` returns the component added; and `addComponent`
leaves the lookup of every other key as it was. -/
theorem C9_component_store_is_a_map :
    (∀ (calls : List RegistryCall) (T : Kind) (entity : Entity),
      (runCalls Registry.new calls).1.getComponent T entity = lastAdded T entity.id calls) ∧
    (∀ (calls : List RegistryCall) (T : Kind) (entity : Entity),
      (∀ entity' component, RegistryCall.addComponent entity' component ∈ calls →
        ¬ (component.kind = T ∧ entity'.id = entity.id)) →
      (runCalls Registry.new calls).1.getComponent T entity = none) ∧
    (∀ (r : Registry) (entity : Entity) (component : Component),
      (r.addComponent entity component).getComponent component.kind entity = some component) ∧
    (∀ (r : Registry) (entity : Entity) (component : Component) (T : Kind) (entity' : Entity),
      (T, entity'.id) ≠ (component.kind, entity.id) →
      (r.addComponent entity component).getComponent T entity' = r.getComponent T entity') := by
  have h1 : ∀ (calls : List RegistryCall) (T : Kind) (entity : Entity),
      (runCalls Registry.new calls).1.getComponent T entity
        = lastAdded T entity.id calls := by
    intro calls T entity
    rw [getComponent_runCalls calls T entity Registry.new]
    cases lastAdded T entity.id calls <;> simp [Registry.getComponent, Registry.new,
      ComponentMap.find]
  refine ⟨h1, fun calls T entity h => ?_, getComponent_add_same, getComponent_add_other⟩
  rw [h1, lastAdded_none T entity.id calls h]

/-- C9, at a concrete registry: adding a hitbox to entity 1 leaves its position as it was. -/
theorem C9_component_store_is_a_map_witness :
    ((Registry.new.addComponent ⟨1⟩ (.position ⟨0, 500⟩)).addComponent ⟨1⟩
        (.hitbox ⟨40, 30⟩)).getComponent Kind.Position ⟨1⟩
      = (Registry.new.addComponent ⟨1⟩ (.position ⟨0, 500⟩)).getComponent Kind.Position ⟨1⟩ :=
  C9_component_store_is_a_map.2.2.2 (Registry.new.addComponent ⟨1⟩ (.position ⟨0, 500⟩)) ⟨1⟩
    (.hitbox ⟨40, 30⟩) Kind.Position ⟨1⟩ (by decide)

/-- C10 (as stated, refuted): entity 1 is created and given a position; after
`removeEntity(1)` the lookup of its position still returns the component. -/
theorem C10_components_survive_removeEntity :
    (((Registry.new.createEntity).2.addComponent ⟨1⟩ (.position ⟨0, 500⟩)).removeEntity
        1).getComponent Kind.Position ⟨1⟩ = some (.position ⟨0, 500⟩) := by
  decide

/-- C10 (amended): `removeEntity(id)` takes the id out of the live-entity list and nothing
else: afterwards no live entity has that id, the other live entities are kept in order, and
every lookup `getComponent<K>(e)`, for the removed id too, returns what it returned before. -/
theorem C10_removeEntity_only_edits_entity_list (r : Registry) (entityId : Int) :
    (∀ entity ∈ (r.removeEntity entityId).entities_, entity.id ≠ entityId) ∧
    (r.removeEntity entityId).entities_ = r.entities_.filter (fun e => e.id ≠ entityId) ∧
    (r.removeEntity entityId).components_ = r.components_ ∧
    (∀ (K : Kind) (entity : Entity),
      (r.removeEntity entityId).getComponent K entity = r.getComponent K entity) := by
  refine ⟨fun entity h => ?_, rfl, rfl, fun _ _ => rfl⟩
  simp only [Registry.removeEntity, List.mem_filter, decide_eq_true_eq] at h
  exact h.2

/-! ## The collision system -/

theorem find_append_of_some (m l : ComponentMap) (k : Key) (s : Slot)
    (h : m.find k = some s) : ComponentMap.find (m ++ l) k = some s := by
  induction m with
  | nil => simp [ComponentMap.find] at h
  | cons a m ih =>
    obtain ⟨k', s'⟩ := a
    by_cases hk : k' = k
    · simpa [ComponentMap.find, hk] using h
    · simp only [ComponentMap.find, hk, if_false] at h
      simp [ComponentMap.find, hk, ih h]

theorem find_some_mem (m : ComponentMap) (k : Key) (s : Slot) (h : m.find k = some s) :
    (k, s) ∈ m := by
  induction m with
  | nil => simp [ComponentMap.find] at h
  | cons a m ih =>
    obtain ⟨k', s'⟩ := a
    by_cases hk : k' = k
    · simp only [ComponentMap.find, hk, if_true, Option.some.injEq] at h
      simp [hk, h]
    · simp only [ComponentMap.find, hk, if_false] at h
      exact List.mem_cons_of_mem _ (ih h)

theorem find_none_not_key (m : ComponentMap) (k : Key) (h : m.find k = none) :
    k ∉ m.map Prod.fst := by
  induction m with
  | nil => simp
  | cons a m ih =>
    obtain ⟨k', s'⟩ := a
    by_cases hk : k' = k
    · simp [ComponentMap.find, hk] at h
    · simp only [ComponentMap.find, hk, if_false] at h
      simp only [List.map_cons, List.mem_cons, not_or]
      exact ⟨fun e => hk e.symm, ih h⟩

theorem index_of_find (m : ComponentMap) (k : Key) (s : Slot) (h : m.find k = some s) :
    m.index k = (s, m) := by
  simp [ComponentMap.index, h]

theorem index_keeps_entries (m : ComponentMap) (k k' : Key) (s : Slot)
    (h : m.find k' = some s) : (m.index k).2.find k' = some s := by
  unfold ComponentMap.index
  cases hk : m.find k with
  | some v => simpa using h
  | none => simpa using find_append_of_some m _ k' s h

theorem index_keeps_unique (m : ComponentMap) (k : Key) (h : m.UniqueKeys) :
    (m.index k).2.UniqueKeys := by
  unfold ComponentMap.index
  cases hk : m.find k with
  | some v => simpa using h
  | none =>
    have hnot := find_none_not_key m k hk
    unfold ComponentMap.UniqueKeys at h ⊢
    simp only [List.map_append, List.map_cons, List.map_nil]
    rw [List.nodup_append]
    refine ⟨h, List.nodup_singleton _, ?_⟩
    intro a ha hb
    simp only [List.mem_singleton] at hb
    subst hb
    exact hnot ha

theorem preserves_refl (st : CollisionState) : Preserves st st :=
  ⟨fun _ _ h => h, fun h => h⟩

theorem preserves_trans {a b c : CollisionState} (h1 : Preserves a b) (h2 : Preserves b c) :
    Preserves a c :=
  ⟨fun k s h => h2.1 k s (h1.1 k s h), fun h => h2.2 (h1.2 h)⟩

theorem unchanged_refl (p e : Int) (st : CollisionState) : Unchanged p e st st :=
  ⟨Iff.rfl, rfl⟩

theorem unchanged_trans {p e : Int} {a b c : CollisionState} (h1 : Unchanged p e a b)
    (h2 : Unchanged p e b c) : Unchanged p e a c :=
  ⟨h2.1.trans h1.1, h2.2.trans h1.2⟩

theorem handled_then_unchanged {p e : Int} {coll : Bool} {a b c : CollisionState}
    (h1 : Handled p e coll a b) (h2 : Unchanged p e b c) : Handled p e coll a c :=
  ⟨h2.1.trans h1.1, h2.2.trans h1.2⟩

theorem handled_after_unchanged {p e : Int} {coll : Bool} {a b c : CollisionState}
    (h1 : Unchanged p e a b) (h2 : Handled p e coll b c) : Handled p e coll a c := by
  refine ⟨h2.1, ?_⟩
  rw [h2.2, h1.2]
  simp only [h1.1]

/-- The map a loop step leaves is the map it found or that map after one `operator[]`. -/
theorem checkEntry_components (enemyId : Int) (ep : PositionComponent) (eh : HitboxComponent)
    (st : CollisionState) (pair : Key × Slot) :
    (CollisionSystem.checkEntry enemyId ep eh st pair).components = st.components ∨
    (CollisionSystem.checkEntry enemyId ep eh st pair).components
      = (st.components.index (Kind.Hitbox, pair.1.2)).2 := by
  unfold CollisionSystem.checkEntry
  split_ifs with h
  · right
    dsimp only
    split
    · split_ifs <;> rfl
    · rfl
  · left; rfl

theorem checkEntry_preserves (enemyId : Int) (ep : PositionComponent) (eh : HitboxComponent)
    (st : CollisionState) (pair : Key × Slot) :
    Preserves st (CollisionSystem.checkEntry enemyId ep eh st pair) := by
  rcases checkEntry_components enemyId ep eh st pair with h | h
  · rw [Preserves, h]; exact preserves_refl st
  · rw [Preserves, h]
    exact ⟨fun k s hk => index_keeps_entries _ _ _ _ hk, fun hu => index_keeps_unique _ _ hu⟩

/-- A loop step for another pair than `(p, e)` changes nothing for `(p, e)`. -/
theorem checkEntry_other (p e enemyId : Int) (ep : PositionComponent) (eh : HitboxComponent)
    (st : CollisionState) (pair : Key × Slot)
    (hne : ¬ (pair.1.1 = Kind.Position ∧ pair.1.2 = p ∧ enemyId = e)) :
    Unchanged p e st (CollisionSystem.checkEntry enemyId ep eh st pair) := by
  unfold CollisionSystem.checkEntry
  split_ifs with h
  · have hq : (p, e) ≠ (pair.1.2, enemyId) := by
      intro heq
      simp only [Prod.mk.injEq] at heq
      exact hne ⟨h.1, heq.1.symm, heq.2.symm⟩
    have hq2 : (⟨p, e⟩ : CallbackCall) ≠ ⟨pair.1.2, enemyId⟩ := by
      intro heq
      simp only [CallbackCall.mk.injEq] at heq
      exact hne ⟨h.1, heq.1.symm, heq.2.symm⟩
    dsimp only
    split
    · split_ifs
      all_goals
        refine ⟨?_, ?_⟩ <;>
          simp [List.count_append, List.count_singleton, List.mem_filter, hq, hq2.symm]
    · exact unchanged_refl p e st
  · exact unchanged_refl p e st

/-- The loop step for the entry of `p`, while checking `e`. -/
theorem checkEntry_pair (p e : Int) (hpe : p ≠ e) (pp : PositionComponent)
    (ph : HitboxComponent) (ep : PositionComponent) (eh : HitboxComponent)
    (st : CollisionState)
    (hh : st.components.find (Kind.Hitbox, p) = some (some (.hitbox ph))) :
    Handled p e (CollisionSystem.isCollision pp ph ep eh) st
      (CollisionSystem.checkEntry e ep eh st ((Kind.Position, p), some (.position pp))) := by
  unfold CollisionSystem.checkEntry
  simp only [true_and, ne_eq, hpe, not_false_eq_true, if_true,
    index_of_find _ _ _ hh, asPosition, asHitbox]
  by_cases hc : CollisionSystem.isCollision pp ph ep eh = true
  · by_cases hm : (p, e) ∈ st.processedCollisions_
    · simp [Handled, hc, hm]
    · simp [Handled, hc, hm, List.count_append, List.count_singleton]
  · simp [Handled, hc, List.mem_filter]

theorem foldl_checkEntry_preserves (enemyId : Int) (ep : PositionComponent)
    (eh : HitboxComponent) (l : List (Key × Slot)) :
    ∀ st, Preserves st (l.foldl (CollisionSystem.checkEntry enemyId ep eh) st) := by
  induction l with
  | nil => intro st; exact preserves_refl st
  | cons a l ih =>
    intro st
    exact preserves_trans (checkEntry_preserves enemyId ep eh st a) (ih _)

theorem foldl_checkEntry_other (p e enemyId : Int) (ep : PositionComponent)
    (eh : HitboxComponent) (l : List (Key × Slot))
    (h : ∀ pair ∈ l, ¬ (pair.1.1 = Kind.Position ∧ pair.1.2 = p ∧ enemyId = e)) :
    ∀ st, Unchanged p e st (l.foldl (CollisionSystem.checkEntry enemyId ep eh) st) := by
  induction l with
  | nil => intro st; exact unchanged_refl p e st
  | cons a l ih =>
    intro st
    exact unchanged_trans (checkEntry_other p e enemyId ep eh st a (h a (List.mem_cons_self _ _)))
      (ih (fun pair hp => h pair (List.mem_cons_of_mem _ hp)) _)

/-- The loop over a map with distinct keys handles the pair `(p, e)` exactly once. -/
theorem foldl_checkEntry_pair (p e : Int) (hpe : p ≠ e) (pp : PositionComponent)
    (ph : HitboxComponent) (ep : PositionComponent) (eh : HitboxComponent)
    (l : List (Key × Slot)) (hu : (l.map Prod.fst).Nodup)
    (hmem : ((Kind.Position, p), some (Component.position pp)) ∈ l) :
    ∀ st, st.components.find (Kind.Hitbox, p) = some (some (.hitbox ph)) →
      Handled p e (CollisionSystem.isCollision pp ph ep eh) st
        (l.foldl (CollisionSystem.checkEntry e ep eh) st) := by
  induction l with
  | nil => simp at hmem
  | cons a l ih =>
    intro st hh
    simp only [List.map_cons, List.nodup_cons] at hu
    obtain ⟨hnotin, hul⟩ := hu
    simp only [List.foldl_cons]
    by_cases ha : a.1 = (Kind.Position, p)
    · have hrest : ∀ pair ∈ l, ¬ (pair.1.1 = Kind.Position ∧ pair.1.2 = p ∧ e = e) := by
        intro pair hp hc
        apply hnotin
        have : pair.1 = a.1 := by rw [ha]; exact Prod.ext hc.1 hc.2.1
        rw [← this]
        exact List.mem_map_of_mem _ hp
      have haeq : a = ((Kind.Position, p), some (Component.position pp)) := by
        rcases List.mem_cons.mp hmem with h | h
        · exact h.symm
        · exfalso
          apply hnotin
          rw [ha]
          exact List.mem_map_of_mem Prod.fst h
      subst haeq
      exact handled_then_unchanged (checkEntry_pair p e hpe pp ph ep eh st hh)
        (foldl_checkEntry_other p e e ep eh l hrest _)
    · have hmem2 : ((Kind.Position, p), some (Component.position pp)) ∈ l := by
        rcases List.mem_cons.mp hmem with h | h
        · exact absurd (by rw [← h]) ha
        · exact h
      have hother : ¬ (a.1.1 = Kind.Position ∧ a.1.2 = p ∧ e = e) :=
        fun hc => ha (Prod.ext hc.1 hc.2.1)
      exact handled_after_unchanged (checkEntry_other p e e ep eh st a hother)
        (ih hul hmem2 _ ((checkEntry_preserves e ep eh st a).1 _ _ hh))

theorem checkCollisions_preserves (enemyId : Int) (st : CollisionState) :
    Preserves st (CollisionSystem.checkCollisionsWithEnemy enemyId st) := by
  have h0 : Preserves st { st with components :=
      ((st.components.index (Kind.Position, enemyId)).2.index (Kind.Hitbox, enemyId)).2 } :=
    ⟨fun k s hk => index_keeps_entries _ _ _ _ (index_keeps_entries _ _ _ _ hk),
     fun hu => index_keeps_unique _ _ (index_keeps_unique _ _ hu)⟩
  unfold CollisionSystem.checkCollisionsWithEnemy
  dsimp only
  split
  · exact preserves_trans h0 (foldl_checkEntry_preserves _ _ _ _ _)
  · exact h0

theorem checkCollisions_other (p e enemyId : Int) (hne : enemyId ≠ e) (st : CollisionState) :
    Unchanged p e st (CollisionSystem.checkCollisionsWithEnemy enemyId st) := by
  have h0 : Unchanged p e st { st with components :=
      ((st.components.index (Kind.Position, enemyId)).2.index (Kind.Hitbox, enemyId)).2 } :=
    ⟨Iff.rfl, rfl⟩
  unfold CollisionSystem.checkCollisionsWithEnemy
  dsimp only
  split
  · exact unchanged_trans h0
      (foldl_checkEntry_other p e enemyId _ _ _ (fun _ _ hc => hne hc.2.2) _)
  · exact h0

theorem checkCollisions_pair (p e : Int) (hpe : p ≠ e) (pp : PositionComponent)
    (ph : HitboxComponent) (ep : PositionComponent) (eh : HitboxComponent)
    (st : CollisionState) (hu : st.components.UniqueKeys)
    (hpres : Present st.components p e pp ph ep eh) :
    Handled p e (CollisionSystem.isCollision pp ph ep eh) st
      (CollisionSystem.checkCollisionsWithEnemy e st) := by
  obtain ⟨h1, h2, h3, h4⟩ := hpres
  unfold CollisionSystem.checkCollisionsWithEnemy
  simp only [index_of_find _ _ _ h3, index_of_find _ _ _ h4, asPosition, asHitbox]
  exact foldl_checkEntry_pair p e hpe pp ph ep eh st.components hu
    (find_some_mem _ _ _ h1) st h2

theorem present_of_preserves {p e : Int} {pp : PositionComponent} {ph : HitboxComponent}
    {ep : PositionComponent} {eh : HitboxComponent} {a b : CollisionState}
    (h : Preserves a b) (hp : Present a.components p e pp ph ep eh) :
    Present b.components p e pp ph ep eh :=
  ⟨h.1 _ _ hp.1, h.1 _ _ hp.2.1, h.1 _ _ hp.2.2.1, h.1 _ _ hp.2.2.2⟩

theorem updateLoop_preserves (enemies : List Int) :
    ∀ st, Preserves st (CollisionSystem.updateLoop enemies st) := by
  induction enemies with
  | nil => intro st; exact preserves_refl st
  | cons a l ih =>
    intro st
    exact preserves_trans (checkCollisions_preserves a st) (ih _)

theorem updateLoop_other (p e : Int) (enemies : List Int) (h : e ∉ enemies) :
    ∀ st, Unchanged p e st (CollisionSystem.updateLoop enemies st) := by
  induction enemies with
  | nil => intro st; exact unchanged_refl p e st
  | cons a l ih =>
    intro st
    simp only [List.mem_cons, not_or] at h
    exact unchanged_trans (checkCollisions_other p e a (fun hc => h.1 hc.symm) st) (ih h.2 _)

/-- One `update` handles the pair `(p, e)` exactly once when `e` is one of the enemies. -/
theorem updateLoop_pair (p e : Int) (hpe : p ≠ e) (pp : PositionComponent)
    (ph : HitboxComponent) (ep : PositionComponent) (eh : HitboxComponent)
    (enemies : List Int) (hnd : enemies.Nodup) (he : e ∈ enemies) :
    ∀ st, st.components.UniqueKeys → Present st.components p e pp ph ep eh →
      Handled p e (CollisionSystem.isCollision pp ph ep eh) st
        (CollisionSystem.updateLoop enemies st) := by
  induction enemies with
  | nil => simp at he
  | cons a l ih =>
    intro st hu hpres
    simp only [List.nodup_cons] at hnd
    by_cases hae : a = e
    · subst hae
      exact handled_then_unchanged (checkCollisions_pair p a hpe pp ph ep eh st hu hpres)
        (updateLoop_other p a l hnd.1 _)
    · have hel : e ∈ l := by
        rcases List.mem_cons.mp he with h | h
        · exact absurd h.symm hae
        · exact h
      have hp := checkCollisions_preserves a st
      exact handled_after_unchanged (checkCollisions_other p e a hae st)
        (ih hnd.2 hel _ (hp.2 hu) (present_of_preserves hp hpres))

/-- What one `update` does for the pair `(p, e)`. -/
theorem update_pair (p e : Int) (hpe : p ≠ e) (pp : PositionComponent)
    (ph : HitboxComponent) (ep : PositionComponent) (eh : HitboxComponent)
    (sys : CollisionSystem) (dt : ℚ) (m : ComponentMap) (hnd : sys.enemyEntityIds_.Nodup)
    (he : e ∈ sys.enemyEntityIds_) (hu : m.UniqueKeys) (hpres : Present m p e pp ph ep eh) :
    ((p, e) ∈ (sys.update dt m).1.processedCollisions_
        ↔ CollisionSystem.isCollision pp ph ep eh = true) ∧
    (sys.update dt m).2.2.count ⟨p, e⟩
      = (if CollisionSystem.isCollision pp ph ep eh = true ∧ (p, e) ∉ sys.processedCollisions_
          then 1 else 0) ∧
    (sys.update dt m).1.enemyEntityIds_ = sys.enemyEntityIds_ := by
  have h := updateLoop_pair p e hpe pp ph ep eh sys.enemyEntityIds_ hnd he
    ⟨sys.processedCollisions_, m, []⟩ hu hpres
  refine ⟨h.1, ?_, rfl⟩
  have h2 := h.2
  simp only [List.count_nil, zero_add] at h2
  exact h2

theorem present_of_has (m : ComponentMap) (p e : Int)
    (hp : hasPositionAndHitbox m p = true) (he : hasPositionAndHitbox m e = true) :
    ∃ pp ph ep eh, Present m p e pp ph ep eh ∧
      overlapIn m p e = CollisionSystem.isCollision pp ph ep eh := by
  unfold hasPositionAndHitbox at hp he
  split at hp
  · rename_i pp ph h1 h2
    split at he
    · rename_i ep eh h3 h4
      refine ⟨pp, ph, ep, eh, ⟨h1, h2, h3, h4⟩, ?_⟩
      simp [overlapIn, h1, h2, h3, h4]
    · simp at he
  · simp at hp

/-- Over a sequence of ticks the number of callback invocations for the pair `(p, e)` is the
number of maximal runs of overlap, a run that continues a contact held before the first tick
not counted. -/
theorem runTicks_count (p e : Int) (hpe : p ≠ e) (ticks : List (ℚ × ComponentMap)) :
    ∀ sys : CollisionSystem, sys.enemyEntityIds_.Nodup → e ∈ sys.enemyEntityIds_ →
      (∀ t ∈ ticks, t.2.UniqueKeys ∧ hasPositionAndHitbox t.2 p = true ∧
        hasPositionAndHitbox t.2 e = true) →
      (sys.runTicks ticks).2.count ⟨p, e⟩
        = runsFrom (decide ((p, e) ∈ sys.processedCollisions_))
            (ticks.map (fun t => overlapIn t.2 p e)) := by
  induction ticks with
  | nil => intro sys _ _ _; simp [CollisionSystem.runTicks, runsFrom]
  | cons t ms ih =>
    intro sys hnd he hall
    obtain ⟨dt, m⟩ := t
    obtain ⟨hu, hp, hen⟩ := hall (dt, m) (List.mem_cons_self _ _)
    obtain ⟨pp, ph, ep, eh, hpres, hov⟩ := present_of_has m p e hp hen
    obtain ⟨hmem, hcount, hids⟩ := update_pair p e hpe pp ph ep eh sys dt m hnd he hu hpres
    have hrec := ih (sys.update dt m).1 (by rw [hids]; exact hnd) (by rw [hids]; exact he)
      (fun m' hm' => hall m' (List.mem_cons_of_mem _ hm'))
    have hprev : decide ((p, e) ∈ (sys.update dt m).1.processedCollisions_)
        = overlapIn m p e := by
      rw [hov]
      cases hc : CollisionSystem.isCollision pp ph ep eh <;> simp [hmem, hc]
    simp only [CollisionSystem.runTicks, List.count_append, List.map_cons, runsFrom]
    rw [hrec, hcount, hprev]
    congr 1
    by_cases hm : (p, e) ∈ sys.processedCollisions_ <;>
      cases hc : CollisionSystem.isCollision pp ph ep eh <;> simp [hm, hov, hc]

theorem checkEntry_calls (enemyId : Int) (ep : PositionComponent) (eh : HitboxComponent)
    (st : CollisionState) (pair : Key × Slot) :
    ∀ c ∈ (CollisionSystem.checkEntry enemyId ep eh st pair).calls,
      c ∈ st.calls ∨ c.enemyId = enemyId := by
  intro c hc
  unfold CollisionSystem.checkEntry at hc
  split_ifs at hc with h
  · dsimp only at hc
    split at hc
    · split_ifs at hc
      · exact Or.inl hc
      · simp only [List.mem_append, List.mem_singleton] at hc
        rcases hc with h1 | h1
        · exact Or.inl h1
        · exact Or.inr (by rw [h1])
      · exact Or.inl hc
    · exact Or.inl hc
  · exact Or.inl hc

theorem foldl_checkEntry_calls (enemyId : Int) (ep : PositionComponent) (eh : HitboxComponent)
    (l : List (Key × Slot)) :
    ∀ st, ∀ c ∈ (l.foldl (CollisionSystem.checkEntry enemyId ep eh) st).calls,
      c ∈ st.calls ∨ c.enemyId = enemyId := by
  induction l with
  | nil => intro st c hc; exact Or.inl hc
  | cons a l ih =>
    intro st c hc
    rcases ih _ c hc with h | h
    · exact checkEntry_calls enemyId ep eh st a c h
    · exact Or.inr h

theorem checkCollisions_calls (enemyId : Int) (st : CollisionState) :
    ∀ c ∈ (CollisionSystem.checkCollisionsWithEnemy enemyId st).calls,
      c ∈ st.calls ∨ c.enemyId = enemyId := by
  intro c hc
  unfold CollisionSystem.checkCollisionsWithEnemy at hc
  dsimp only at hc
  split at hc
  · have h := foldl_checkEntry_calls enemyId _ _ _ _ c hc
    exact h
  · exact Or.inl hc

theorem updateLoop_calls (enemies : List Int) :
    ∀ st, ∀ c ∈ (CollisionSystem.updateLoop enemies st).calls,
      c ∈ st.calls ∨ c.enemyId ∈ enemies := by
  induction enemies with
  | nil => intro st c hc; exact Or.inl hc
  | cons a l ih =>
    intro st c hc
    rcases ih _ c hc with h | h
    · rcases checkCollisions_calls a st c h with h2 | h2
      · exact Or.inl h2
      · exact Or.inr (by rw [h2]; exact List.mem_cons_self _ _)
    · exact Or.inr (List.mem_cons_of_mem _ h)

/-- Every invocation of the callback is made while checking one of the enemies. -/
theorem runTicks_calls (ticks : List (ℚ × ComponentMap)) :
    ∀ sys : CollisionSystem, ∀ c ∈ (sys.runTicks ticks).2,
      c.enemyId ∈ sys.enemyEntityIds_ := by
  induction ticks with
  | nil => intro sys c hc; simp [CollisionSystem.runTicks] at hc
  | cons m ms ih =>
    intro sys c hc
    simp only [CollisionSystem.runTicks, List.mem_append] at hc
    rcases hc with h | h
    · rcases updateLoop_calls sys.enemyEntityIds_ _ c h with h2 | h2
      · simp at h2
      · exact h2
    · exact ih (sys.update m.1 m.2).1 c h

theorem count_playerId_of_single_enemy (p e : Int) (calls : List CallbackCall)
    (h : ∀ c ∈ calls, c.enemyId = e) :
    (calls.map (fun c => c.playerId)).count p = calls.count ⟨p, e⟩ := by
  induction calls with
  | nil => rfl
  | cons c cs ih =>
    have hc := h c (List.mem_cons_self _ _)
    have ih2 := ih (fun c' hc' => h c' (List.mem_cons_of_mem _ hc'))
    obtain ⟨q, e'⟩ := c
    simp only at hc
    subst hc
    simp only [List.map_cons, List.count_cons, ih2, beq_iff_eq, CallbackCall.mk.injEq,
      and_true]

theorem runsFrom_replicate_true (n : Nat) : runsFrom true (List.replicate n true) = 0 := by
  induction n with
  | zero => rfl
  | succ n ih => simp [List.replicate_succ, runsFrom, ih]

theorem runsFrom_cons_false (prev : Bool) (bs : List Bool) :
    runsFrom prev (false :: bs) = runsFrom false bs := by
  simp [runsFrom]

theorem runsFrom_replicate_false (n : Nat) (prev : Bool) (bs : List Bool) :
    runsFrom prev (List.replicate (n + 1) false ++ bs) = runsFrom false bs := by
  induction n generalizing prev with
  | zero => simp [runsFrom]
  | succ n ih =>
    show runsFrom prev (false :: (List.replicate (n + 1) false ++ bs)) = runsFrom false bs
    rw [runsFrom_cons_false]
    exact ih false

theorem runsFrom_replicate_true_append (n : Nat) (bs : List Bool) :
    runsFrom true (List.replicate n true ++ bs) = runsFrom true bs := by
  induction n with
  | zero => rfl
  | succ n ih => simp [List.replicate_succ, runsFrom, ih]

theorem maximalRuns_stationary (n : Nat) : maximalRuns (List.replicate (n + 1) true) = 1 := by
  simp [maximalRuns, List.replicate_succ, runsFrom, runsFrom_replicate_true]

theorem maximalRuns_separate_reoverlap (a b c : Nat) :
    maximalRuns (List.replicate (a + 1) true ++
      (List.replicate (b + 1) false ++ List.replicate (c + 1) true)) = 2 := by
  have h1 : List.replicate (a + 1) true ++
      (List.replicate (b + 1) false ++ List.replicate (c + 1) true)
      = true :: (List.replicate a true ++
          (List.replicate (b + 1) false ++ List.replicate (c + 1) true)) := by
    simp [List.replicate_succ]
  have h2 := maximalRuns_stationary c
  unfold maximalRuns at h2 ⊢
  rw [h1]
  simp only [runsFrom, Bool.not_false, Bool.and_self, if_true]
  rw [runsFrom_replicate_true_append, runsFrom_replicate_false, h2]

/-! ## The collision claims -/

/-- C4: collision debouncing.  Start from an empty contact set, with `e` one of the enemy ids
and `p` another entity, both having a position and a hitbox in the component map of every
tick (the maps are arbitrary otherwise and may change from tick to tick).  Then over any
finite sequence of `update` ticks the callback is invoked for the pair `(p, e)` once per
maximal run of consecutive ticks in which `p` and `e` overlap.  When `e` is the only enemy,
this is the number of invocations of the callback with argument `p`.  In particular a pair
overlapping in each of `n + 1` ticks fires once, and a pair that overlaps, separates for at
least one tick and overlaps again fires twice, once for each run. -/
theorem C4_collision_debouncing (p e : Int) (hpe : p ≠ e) (enemies : List Int)
    (hnd : enemies.Nodup) (he : e ∈ enemies) (ticks : List (ℚ × ComponentMap))
    (hticks : ∀ t ∈ ticks, t.2.UniqueKeys ∧ hasPositionAndHitbox t.2 p = true ∧
      hasPositionAndHitbox t.2 e = true) :
    ((CollisionSystem.new enemies).runTicks ticks).2.count ⟨p, e⟩
        = maximalRuns (ticks.map (fun t => overlapIn t.2 p e)) ∧
    (enemies = [e] →
      (((CollisionSystem.new enemies).runTicks ticks).2.map (fun c => c.playerId)).count p
        = maximalRuns (ticks.map (fun t => overlapIn t.2 p e))) ∧
    (∀ n, ticks.map (fun t => overlapIn t.2 p e) = List.replicate (n + 1) true →
      ((CollisionSystem.new enemies).runTicks ticks).2.count ⟨p, e⟩ = 1) ∧
    (∀ a b c, ticks.map (fun t => overlapIn t.2 p e)
        = List.replicate (a + 1) true ++
            (List.replicate (b + 1) false ++ List.replicate (c + 1) true) →
      ((CollisionSystem.new enemies).runTicks ticks).2.count ⟨p, e⟩ = 2) := by
  have hmain : ((CollisionSystem.new enemies).runTicks ticks).2.count ⟨p, e⟩
      = maximalRuns (ticks.map (fun t => overlapIn t.2 p e)) := by
    have h := runTicks_count p e hpe ticks (CollisionSystem.new enemies) hnd he hticks
    simpa [CollisionSystem.new, maximalRuns] using h
  refine ⟨hmain, fun hone => ?_, fun n hn => ?_, fun a b c habc => ?_⟩
  · rw [← hmain]
    apply count_playerId_of_single_enemy
    intro c hc
    have h := runTicks_calls ticks (CollisionSystem.new enemies) c hc
    simpa [CollisionSystem.new, hone] using h
  · rw [hmain, hn, maximalRuns_stationary]
  · rw [hmain, habc, maximalRuns_separate_reoverlap]

/-- C4, at a concrete run: the player (entity 1) overlaps the only enemy (entity 2) for two
ticks, moves away for one tick and comes back; the callback is invoked twice with id 1. -/
theorem C4_collision_debouncing_witness :
    (((CollisionSystem.new [2]).runTicks fourTicks).2.map (fun c => c.playerId)).count 1
      = maximalRuns (fourTicks.map (fun t => overlapIn t.2 1 2)) ∧
    maximalRuns (fourTicks.map (fun t => overlapIn t.2 1 2)) = 2 :=
  ⟨(C4_collision_debouncing 1 2 (by decide) [2] (by decide) (by decide) fourTicks
      (by decide!)).2.1 rfl,
   by decide!⟩

/-- C7 (the code at the failing input): with the two overlapping enemies 1 and 2 as the
enemy-id set, one `update` invokes the callback with the ids 2 and 1, which are both members
of the enemy-id set. -/
theorem C7_callback_receives_enemy_ids :
    ((CollisionSystem.new [1, 2]).update (3 / 100) twoOverlappingEnemies).2.2.map
        (fun c => c.playerId)
      = [2, 1] ∧
    (2 : Int) ∈ (CollisionSystem.new [1, 2]).enemyEntityIds_ ∧
    (1 : Int) ∈ (CollisionSystem.new [1, 2]).enemyEntityIds_ := by
  decide!

/-! ## The movement system -/

theorem moveEntry_key (sys : EnemyMovementSystem) (dt : ℚ) (u : UnitSample)
    (components : ComponentMap) (pair pair' : Key × Slot)
    (h : sys.moveEntry dt u components pair = some pair') : pair'.1 = pair.1 := by
  unfold EnemyMovementSystem.moveEntry at h
  by_cases h1 : pair.1.1 = Kind.Position
  · by_cases h2 : components.count (Kind.Hitbox, pair.1.2) > 0 ∧
        components.count (Kind.Player, pair.1.2) = 0
    · rw [if_pos h1] at h
      dsimp only at h
      rw [if_pos h2] at h
      cases hp : asPosition pair.2 with
      | none => simp [hp] at h
      | some pos =>
        simp only [hp] at h
        split_ifs at h <;> (simp only [Option.some.injEq] at h; rw [← h])
    · rw [if_pos h1] at h
      dsimp only at h
      rw [if_neg h2] at h
      simp only [Option.some.injEq] at h
      rw [h]
  · rw [if_neg h1] at h
    simp only [Option.some.injEq] at h
    rw [h]

/-- An entry that is not a position, or whose entity has no hitbox entry or has a player
entry, is left as it is. -/
theorem moveEntry_skip (sys : EnemyMovementSystem) (dt : ℚ) (u : UnitSample)
    (components : ComponentMap) (pair : Key × Slot)
    (h : pair.1.1 ≠ Kind.Position ∨ components.count (Kind.Hitbox, pair.1.2) = 0 ∨
      0 < components.count (Kind.Player, pair.1.2)) :
    sys.moveEntry dt u components pair = some pair := by
  unfold EnemyMovementSystem.moveEntry
  by_cases h1 : pair.1.1 = Kind.Position
  · have h2 : ¬ (components.count (Kind.Hitbox, pair.1.2) > 0 ∧
        components.count (Kind.Player, pair.1.2) = 0) := by
      rintro ⟨ha, hb⟩
      rcases h with h | h | h
      · exact h h1
      · omega
      · omega
    rw [if_pos h1]
    dsimp only
    rw [if_neg h2]
  · rw [if_neg h1]

/-- The step of the entry of an enemy that holds a position. -/
theorem moveEntry_enemy (sys : EnemyMovementSystem) (dt : ℚ) (u : UnitSample)
    (components : ComponentMap) (id : Int) (pos : PositionComponent)
    (hh : 0 < components.count (Kind.Hitbox, id))
    (hp : components.count (Kind.Player, id) = 0) :
    sys.moveEntry dt u components ((Kind.Position, id), some (.position pos))
      = some ((Kind.Position, id),
          some (.position (if pos.x - sys.speed_ * dt < sys.offScreenX_
            then ⟨sys.initialX_, sys.getRandomY u⟩ else ⟨pos.x - sys.speed_ * dt, pos.y⟩))) := by
  unfold EnemyMovementSystem.moveEntry
  simp only [true_and, hh, hp, and_self, if_true, asPosition, gt_iff_lt]
  split_ifs <;> rfl

/-- What a lookup finds after the loop, in terms of what it found before. -/
theorem moveEntries_find (sys : EnemyMovementSystem) (dt : ℚ) (rand : Int → UnitSample)
    (components : ComponentMap) (l : List (Key × Slot)) :
    ∀ l', sys.moveEntries dt rand components l = some l' → ∀ k : Key,
      (ComponentMap.find l k = none → ComponentMap.find l' k = none) ∧
      (∀ slot, ComponentMap.find l k = some slot →
        ∃ pair', sys.moveEntry dt (rand k.2) components (k, slot) = some pair' ∧
          ComponentMap.find l' k = some pair'.2) := by
  induction l with
  | nil =>
    intro l' h k
    simp only [EnemyMovementSystem.moveEntries, Option.some.injEq] at h
    subst h
    simp [ComponentMap.find]
  | cons a l ih =>
    intro l' h k
    simp only [EnemyMovementSystem.moveEntries] at h
    cases ha : sys.moveEntry dt (rand a.1.2) components a with
    | none => simp [ha] at h
    | some a' =>
      cases hl : sys.moveEntries dt rand components l with
      | none => simp [ha, hl] at h
      | some l2 =>
        simp only [ha, hl, Option.some.injEq] at h
        subst h
        have hkey := moveEntry_key sys dt _ components a a' ha
        obtain ⟨ak, av⟩ := a
        obtain ⟨ak', av'⟩ := a'
        simp only at hkey
        subst hkey
        by_cases hk : ak' = k
        · subst hk
          simp only [ComponentMap.find, if_true]
          refine ⟨fun h0 => by simp at h0, fun slot hs => ?_⟩
          simp only [Option.some.injEq] at hs
          subst hs
          exact ⟨_, ha, rfl⟩
        · simp only [ComponentMap.find, hk, if_false]
          exact ih l2 hl k

theorem moveEntries_isSome (sys : EnemyMovementSystem) (dt : ℚ) (rand : Int → UnitSample)
    (components : ComponentMap) (l : List (Key × Slot))
    (h : ∀ pair ∈ l, pair.1.1 = Kind.Position → ∃ pos, pair.2 = some (Component.position pos)) :
    ∃ l', sys.moveEntries dt rand components l = some l' := by
  induction l with
  | nil => exact ⟨[], rfl⟩
  | cons a l ih =>
    obtain ⟨l2, hl2⟩ := ih (fun pair hp => h pair (List.mem_cons_of_mem _ hp))
    have ha : ∃ a', sys.moveEntry dt (rand a.1.2) components a = some a' := by
      by_cases h1 : a.1.1 = Kind.Position
      · obtain ⟨pos, hpos⟩ := h a (List.mem_cons_self _ _) h1
        by_cases h2 : 0 < components.count (Kind.Hitbox, a.1.2) ∧
            components.count (Kind.Player, a.1.2) = 0
        · obtain ⟨⟨ak, aid⟩, av⟩ := a
          simp only at h1 hpos h2
          subst h1 hpos
          exact ⟨_, moveEntry_enemy sys dt _ components aid pos h2.1 h2.2⟩
        · refine ⟨a, moveEntry_skip sys dt _ components a ?_⟩
          by_cases h3 : components.count (Kind.Hitbox, a.1.2) = 0
          · exact Or.inr (Or.inl h3)
          · refine Or.inr (Or.inr ?_)
            by_contra h4
            exact h2 ⟨by omega, by omega⟩
      · exact ⟨a, moveEntry_skip sys dt _ components a (Or.inl h1)⟩
    obtain ⟨a', ha'⟩ := ha
    exact ⟨a' :: l2, by simp [EnemyMovementSystem.moveEntries, ha', hl2]⟩

/-- The position found for an entity after `update`, in terms of the entry before. -/
theorem update_find_position (sys : EnemyMovementSystem) (dt : ℚ) (rand : Int → UnitSample)
    (m m' : ComponentMap) (h : sys.update dt rand m = some m') (id : Int) (slot : Slot)
    (hf : m.find (Kind.Position, id) = some slot) :
    ∃ pair', sys.moveEntry dt (rand id) m ((Kind.Position, id), slot) = some pair' ∧
      m'.find (Kind.Position, id) = some pair'.2 :=
  ((moveEntries_find sys dt rand m m m' h (Kind.Position, id)).2 slot hf)

/-- The movement system leaves the position of an entity as it is when the entity has no
hitbox entry or has a player entry. -/
theorem update_find_skipped (sys : EnemyMovementSystem) (dt : ℚ) (rand : Int → UnitSample)
    (m m' : ComponentMap) (h : sys.update dt rand m = some m') (id : Int)
    (hs : 0 < m.count (Kind.Player, id) ∨ m.count (Kind.Hitbox, id) = 0) :
    m'.find (Kind.Position, id) = m.find (Kind.Position, id) := by
  have hfind := moveEntries_find sys dt rand m m m' h (Kind.Position, id)
  cases hf : m.find (Kind.Position, id) with
  | none => exact hfind.1 hf
  | some slot =>
    obtain ⟨pair', hp, hfound⟩ := hfind.2 slot hf
    rw [moveEntry_skip sys dt _ m _ (by
      rcases hs with hs | hs
      · exact Or.inr (Or.inr hs)
      · exact Or.inr (Or.inl hs))] at hp
    simp only [Option.some.injEq] at hp
    rw [hfound, ← hp]

theorem uniformReal_bounds (b : ℚ) (u : UnitSample) (hb : 0 ≤ b) :
    0 ≤ uniformReal 0 b u ∧ uniformReal 0 b u ≤ b := by
  obtain ⟨v, hv0, hv1⟩ := u
  simp only [uniformReal, sub_zero, add_zero]
  constructor
  · exact mul_nonneg hv0 hb
  · calc v * b ≤ 1 * b := mul_le_mul_of_nonneg_right (le_of_lt hv1) hb
      _ = b := one_mul b

theorem positionsHeld_playerAndEnemy (x : ℚ) : PositionsHeld (playerAndEnemy x) := by
  intro pair hp hk
  simp only [playerAndEnemy, List.mem_cons, List.mem_singleton, List.not_mem_nil,
    or_false] at hp
  rcases hp with h | h | h | h | h <;> subst h <;> simp at hk ⊢

/-- The systems the constructor of the server registers, in order. -/
theorem new_systems (maxPlayers : Int) :
    (Server.new maxPlayers).registry.systems_
      = [.enemyMovement serverMovementSystem, .collision (CollisionSystem.new [])] := by
  simp only [Server.new, Registry.addSystem, Registry.new, List.nil_append, List.cons_append,
    serverMovementSystem, GameUtilities.SCREEN_WIDTH, GameUtilities.OFF_SCREEN_X,
    GameUtilities.ENEMY_SPEED, GameUtilities.SCREEN_HEIGHT, GameUtilities.ENEMY_HEIGHT,
    GameUtilities.ENEMY_WIDTH]
  norm_num

/-! ## The movement claims -/

/-- C11: the movement step.  Whenever `update` runs to its end (it does when every `Position`
entry of the map points to a position object), an entity that has a position, a `Hitbox`
entry and no `Player` entry in the map, and whose stepped value `x - speed * dt` is not below
`offScreenX`, gets `x - speed * dt` as its `x` and keeps its `y`; and the position of an
entity that has a `Player` entry, or that has no `Hitbox` entry, is left as it was.  (Having
an entry is what the code tests with `count`.) -/
theorem C11_enemy_movement_step (sys : EnemyMovementSystem) (dt : ℚ) (rand : Int → UnitSample)
    (m : ComponentMap) :
    (PositionsHeld m → ∃ m', sys.update dt rand m = some m') ∧
    (∀ m', sys.update dt rand m = some m' →
      (∀ id pos, m.find (Kind.Position, id) = some (some (.position pos)) →
        0 < m.count (Kind.Hitbox, id) → m.count (Kind.Player, id) = 0 →
        ¬ (pos.x - sys.speed_ * dt < sys.offScreenX_) →
        m'.find (Kind.Position, id)
          = some (some (.position ⟨pos.x - sys.speed_ * dt, pos.y⟩))) ∧
      (∀ id, (0 < m.count (Kind.Player, id) ∨ m.count (Kind.Hitbox, id) = 0) →
        m'.find (Kind.Position, id) = m.find (Kind.Position, id))) := by
  refine ⟨fun hheld => moveEntries_isSome sys dt rand m m hheld, fun m' hupd => ⟨?_, ?_⟩⟩
  · intro id pos hpos hh hp hstep
    obtain ⟨pair', hmove, hfound⟩ := update_find_position sys dt rand m m' hupd id _ hpos
    rw [moveEntry_enemy sys dt _ m id pos hh hp, if_neg hstep] at hmove
    simp only [Option.some.injEq] at hmove
    rw [hfound, ← hmove]
  · intro id hs
    exact update_find_skipped sys dt rand m m' hupd id hs

/-- C11, at a concrete map: with the server's speed of 300 and `dt = 3/100` the enemy at
`x = 100` moves to `x = 91` and the player stays where it is. -/
theorem C11_enemy_movement_step_witness :
    ∃ m', serverMovementSystem.update (3 / 100) (fun _ => halfSample) (playerAndEnemy 80)
        = some m' ∧
      m'.find (Kind.Position, 2) = some (some (.position ⟨100 - 300 * (3 / 100), 500⟩)) ∧
      m'.find (Kind.Position, 1) = (playerAndEnemy 80).find (Kind.Position, 1) := by
  obtain ⟨m', hm'⟩ := (C11_enemy_movement_step serverMovementSystem (3 / 100)
    (fun _ => halfSample) (playerAndEnemy 80)).1 (positionsHeld_playerAndEnemy 80)
  have h := (C11_enemy_movement_step serverMovementSystem (3 / 100)
    (fun _ => halfSample) (playerAndEnemy 80)).2 m' hm'
  exact ⟨m', hm', h.1 2 ⟨100, 500⟩ (by decide) (by decide) (by decide) (by decide!),
    h.2 1 (Or.inl (by decide))⟩

/-- C12: the wrap.  For an enemy (a position, a `Hitbox` entry and no `Player` entry) whose
stepped value `x - speed * dt` is strictly below `offScreenX`, in particular one at
`x = offScreenX - eps` with `eps > 0` and `speed * dt ≥ 0`, one `update` sets `x` to
`initialX` and `y` to the random draw, which lies in `[0, maxY]` when `maxY ≥ 0`; an enemy
whose stepped value equals `offScreenX` is not wrapped.  The server configures `initialX`
as 1920, `offScreenX` as -50 and `maxY` as 950. -/
theorem C12_enemy_wrap (sys : EnemyMovementSystem) (dt : ℚ) (rand : Int → UnitSample)
    (m m' : ComponentMap) (hupd : sys.update dt rand m = some m') (id : Int)
    (pos : PositionComponent)
    (hpos : m.find (Kind.Position, id) = some (some (.position pos)))
    (hh : 0 < m.count (Kind.Hitbox, id)) (hp : m.count (Kind.Player, id) = 0) :
    (pos.x - sys.speed_ * dt < sys.offScreenX_ →
      m'.find (Kind.Position, id)
        = some (some (.position ⟨sys.initialX_, sys.getRandomY (rand id)⟩))) ∧
    (∀ eps : ℚ, 0 < eps → 0 ≤ sys.speed_ * dt → pos.x = sys.offScreenX_ - eps →
      m'.find (Kind.Position, id)
        = some (some (.position ⟨sys.initialX_, sys.getRandomY (rand id)⟩))) ∧
    (0 ≤ sys.maxY_ →
      0 ≤ sys.getRandomY (rand id) ∧ sys.getRandomY (rand id) ≤ sys.maxY_) ∧
    (pos.x - sys.speed_ * dt = sys.offScreenX_ →
      m'.find (Kind.Position, id) = some (some (.position ⟨sys.offScreenX_, pos.y⟩))) ∧
    (∀ maxPlayers : Int, (Server.new maxPlayers).registry.systems_.head?
      = some (System.enemyMovement ⟨1920, -50, 300, 950⟩)) := by
  obtain ⟨pair', hmove, hfound⟩ := update_find_position sys dt rand m m' hupd id _ hpos
  rw [moveEntry_enemy sys dt _ m id pos hh hp] at hmove
  have hwrap : pos.x - sys.speed_ * dt < sys.offScreenX_ →
      m'.find (Kind.Position, id)
        = some (some (.position ⟨sys.initialX_, sys.getRandomY (rand id)⟩)) := by
    intro hlt
    rw [if_pos hlt] at hmove
    simp only [Option.some.injEq] at hmove
    rw [hfound, ← hmove]
  refine ⟨hwrap, fun eps heps hsd hx => hwrap (by rw [hx]; linarith),
    fun hmax => uniformReal_bounds sys.maxY_ (rand id) hmax, fun heq => ?_, fun n => ?_⟩
  · rw [if_neg (by rw [heq]; exact lt_irrefl _)] at hmove
    simp only [Option.some.injEq] at hmove
    rw [hfound, ← hmove, heq]
  · rw [new_systems]
    rfl

/-- C12, at a concrete map: the enemy at `x = -45` steps to `-54`, below the line `-50`, and
is put back at `x = 1920` with `y = 950 / 2`. -/
theorem C12_enemy_wrap_witness :
    ∃ m', serverMovementSystem.update (3 / 100) (fun _ => halfSample) enemyNearEdge = some m' ∧
      m'.find (Kind.Position, 7)
        = some (some (.position ⟨1920, serverMovementSystem.getRandomY halfSample⟩)) ∧
      (0 ≤ serverMovementSystem.getRandomY halfSample ∧
        serverMovementSystem.getRandomY halfSample ≤ 950) := by
  obtain ⟨m', hm'⟩ := moveEntries_isSome serverMovementSystem (3 / 100) (fun _ => halfSample)
    enemyNearEdge enemyNearEdge (by
      intro pair hp hk
      simp only [enemyNearEdge, List.mem_cons, List.mem_singleton, List.not_mem_nil,
        or_false] at hp
      rcases hp with h | h <;> subst h <;> simp at hk ⊢)
  have h := C12_enemy_wrap serverMovementSystem (3 / 100) (fun _ => halfSample) enemyNearEdge
    m' hm' 7 ⟨-45, 300⟩ (by decide) (by decide) (by decide)
  exact ⟨m', hm', h.1 (by decide!), h.2.2.1 (by decide!)⟩

/-! ## Client inputs -/

theorem getComponent_eq_of_find (r : Registry) (T : Kind) (entity : Entity) (slot : Slot)
    (h : r.components_.find (T, entity.id) = some slot) : r.getComponent T entity = slot := by
  simp [Registry.getComponent, h]

theorem find_of_getComponent (r : Registry) (T : Kind) (entity : Entity) (c : Component)
    (h : r.getComponent T entity = some c) :
    r.components_.find (T, entity.id) = some (some c) := by
  unfold Registry.getComponent at h
  cases hf : r.components_.find (T, entity.id) with
  | none => simp [hf] at h
  | some slot => simp only [hf] at h; rw [h]

theorem asPosition_eq_some (slot : Slot) (pos : PositionComponent)
    (h : asPosition slot = some pos) : slot = some (.position pos) := by
  unfold asPosition at h
  split at h
  · simp only [Option.some.injEq] at h; rw [h]
  · exact absurd h (by simp)

/-- A message of another client, or a lookup under another key, is not affected. -/
theorem processMessage_find_other (r : Registry) (id : Int) (msg : Message) (k : Key)
    (hk : k ≠ (Kind.Position, id)) :
    (Server.processMessage r id msg).components_.find k = r.components_.find k := by
  unfold Server.processMessage
  dsimp only
  split
  · rfl
  · exact find_assign_other _ _ _ _ hk

/-- One message moves the position of its sender by `applyInput`. -/
theorem processMessage_find_self (r : Registry) (id : Int) (msg : Message)
    (pos : PositionComponent)
    (h : r.components_.find (Kind.Position, id) = some (some (.position pos))) :
    (Server.processMessage r id msg).components_.find (Kind.Position, id)
      = some (some (.position (Server.applyInput pos msg))) := by
  have hg : r.getComponent Kind.Position ⟨id⟩ = some (.position pos) :=
    getComponent_eq_of_find r _ ⟨id⟩ _ h
  unfold Server.processMessage
  simp only [hg, asPosition, Entity.id]
  exact find_assign_same _ _ _

/-- A message changes the component map only. -/
theorem processMessage_rest (r : Registry) (id : Int) (msg : Message) :
    (Server.processMessage r id msg).entities_ = r.entities_ ∧
    (Server.processMessage r id msg).systems_ = r.systems_ ∧
    (Server.processMessage r id msg).nextEntityId = r.nextEntityId := by
  unfold Server.processMessage
  dsimp only
  split <;> exact ⟨rfl, rfl, rfl⟩

theorem foldl_processMessage_find_other (id : Int) (k : Key) (hk : k ≠ (Kind.Position, id))
    (msgs : List Message) :
    ∀ r : Registry, (msgs.foldl (fun r msg => Server.processMessage r id msg) r).components_.find k
      = r.components_.find k := by
  induction msgs with
  | nil => intro r; rfl
  | cons msg msgs ih =>
    intro r
    simp only [List.foldl_cons]
    rw [ih, processMessage_find_other r id msg k hk]

theorem foldl_processMessage_find_self (id : Int) (msgs : List Message) :
    ∀ (r : Registry) (pos : PositionComponent),
      r.components_.find (Kind.Position, id) = some (some (.position pos)) →
      (msgs.foldl (fun r msg => Server.processMessage r id msg) r).components_.find
        (Kind.Position, id) = some (some (.position (msgs.foldl Server.applyInput pos))) := by
  induction msgs with
  | nil => intro r pos h; exact h
  | cons msg msgs ih =>
    intro r pos h
    simp only [List.foldl_cons]
    exact ih _ _ (processMessage_find_self r id msg pos h)

theorem foldl_processMessage_rest (id : Int) (msgs : List Message) :
    ∀ r : Registry,
      (msgs.foldl (fun r msg => Server.processMessage r id msg) r).entities_ = r.entities_ ∧
      (msgs.foldl (fun r msg => Server.processMessage r id msg) r).systems_ = r.systems_ ∧
      (msgs.foldl (fun r msg => Server.processMessage r id msg) r).nextEntityId
        = r.nextEntityId := by
  induction msgs with
  | nil => intro r; exact ⟨rfl, rfl, rfl⟩
  | cons msg msgs ih =>
    intro r
    simp only [List.foldl_cons]
    obtain ⟨h1, h2, h3⟩ := ih (Server.processMessage r id msg)
    obtain ⟨g1, g2, g3⟩ := processMessage_rest r id msg
    exact ⟨h1.trans g1, h2.trans g2, h3.trans g3⟩

theorem processClients_find_other (k : Key) (clients : List Client)
    (hk : ∀ c ∈ clients, k ≠ (Kind.Position, c.getId)) :
    ∀ r : Registry, (Server.processClients r clients).1.components_.find k
      = r.components_.find k := by
  induction clients with
  | nil => intro r; rfl
  | cons c cs ih =>
    intro r
    simp only [Server.processClients, Server.drainClient]
    rw [ih (fun c' hc' => hk c' (List.mem_cons_of_mem _ hc')),
      foldl_processMessage_find_other c.getId k (hk c (List.mem_cons_self _ _))]

/-- After `processClientInputs` the position of a client is its old position moved by its
messages in order, the ids of the clients being distinct. -/
theorem processClients_find_self (clients : List Client)
    (hnd : (clients.map Client.getId).Nodup) (c : Client) (hc : c ∈ clients) :
    ∀ (r : Registry) (pos : PositionComponent),
      r.components_.find (Kind.Position, c.getId) = some (some (.position pos)) →
      (Server.processClients r clients).1.components_.find (Kind.Position, c.getId)
        = some (some (.position (c.received_messages.foldl Server.applyInput pos))) := by
  induction clients with
  | nil => simp at hc
  | cons a cs ih =>
    intro r pos h
    simp only [List.map_cons, List.nodup_cons] at hnd
    simp only [Server.processClients, Server.drainClient]
    rcases List.mem_cons.mp hc with hca | hcs
    · subst hca
      rw [processClients_find_other]
      · exact foldl_processMessage_find_self c.getId _ r pos h
      · intro c' hc' heq
        simp only [Prod.mk.injEq, true_and] at heq
        exact hnd.1 (heq ▸ List.mem_map_of_mem Client.getId hc')
    · have hne : (Kind.Position, c.getId) ≠ (Kind.Position, a.getId) := by
        intro heq
        simp only [Prod.mk.injEq, true_and] at heq
        exact hnd.1 (heq ▸ List.mem_map_of_mem Client.getId hcs)
      apply ih hnd.2 hcs
      rw [foldl_processMessage_find_other a.getId _ hne]
      exact h

theorem processClients_rest (clients : List Client) :
    ∀ r : Registry,
      (Server.processClients r clients).1.entities_ = r.entities_ ∧
      (Server.processClients r clients).1.systems_ = r.systems_ ∧
      (Server.processClients r clients).1.nextEntityId = r.nextEntityId ∧
      (Server.processClients r clients).2
        = clients.map (fun c => { c with received_messages := [] }) := by
  induction clients with
  | nil => intro r; exact ⟨rfl, rfl, rfl, rfl⟩
  | cons c cs ih =>
    intro r
    simp only [Server.processClients, Server.drainClient, List.map_cons]
    obtain ⟨h1, h2, h3, h4⟩ := ih (c.received_messages.foldl
      (fun r msg => Server.processMessage r c.getId msg) r)
    obtain ⟨g1, g2, g3⟩ := foldl_processMessage_rest c.getId c.received_messages r
    exact ⟨h1.trans g1, h2.trans g2, h3.trans g3, by rw [h4]⟩

theorem applyInput_right (pos : PositionComponent) (msg : Message)
    (h : msg.content = "RIGHT".toList) :
    Server.applyInput pos msg
      = if pos.x + 40 + 10 < 1920 then ⟨pos.x + 10, pos.y⟩ else pos := by
  have h1 : "RIGHT".toList ≠ "UP".toList := by decide
  have h2 : "RIGHT".toList ≠ "DOWN".toList := by decide
  have h3 : "RIGHT".toList ≠ "LEFT".toList := by decide
  unfold Server.applyInput
  rw [h]
  simp only [h1, h2, h3, false_and, if_false, true_and, Server.moveStep,
    GameUtilities.PLAYER_WIDTH, GameUtilities.SCREEN_WIDTH, Int.cast_ofNat]

theorem applyInput_inBounds (pos : PositionComponent) (msg : Message) (h : InBounds pos) :
    InBounds (Server.applyInput pos msg) := by
  obtain ⟨h1, h2, h3, h4⟩ := h
  unfold Server.applyInput
  simp only [Server.moveStep, GameUtilities.PLAYER_WIDTH, GameUtilities.PLAYER_HEIGHT,
    GameUtilities.SCREEN_WIDTH, GameUtilities.SCREEN_HEIGHT, Int.cast_ofNat, gt_iff_lt]
  split_ifs with c1 c2 c3 c4
  · have := c1.2
    refine ⟨?_, ?_, ?_, ?_⟩ <;> dsimp only <;> linarith
  · have := c2.2
    refine ⟨?_, ?_, ?_, ?_⟩ <;> dsimp only <;> linarith
  · have := c3.2
    refine ⟨?_, ?_, ?_, ?_⟩ <;> dsimp only <;> linarith
  · have := c4.2
    refine ⟨?_, ?_, ?_, ?_⟩ <;> dsimp only <;> linarith
  · exact ⟨h1, h2, h3, h4⟩

theorem foldl_applyInput_inBounds (msgs : List Message) :
    ∀ pos, InBounds pos → InBounds (msgs.foldl Server.applyInput pos) := by
  induction msgs with
  | nil => intro pos h; exact h
  | cons msg msgs ih => intro pos h; exact ih _ (applyInput_inBounds pos msg h)

/-- The position of a client after `processClientInputs`, the ids of the clients being
distinct: its old position moved by its messages in order. -/
theorem processClientInputs_position (s : Server) (c : Client) (pos : PositionComponent)
    (hnd : s.clientIds.Nodup) (hc : c ∈ s.connectionManager_.clients_)
    (hpos : s.registry.getComponent Kind.Position ⟨c.getId⟩ = some (.position pos)) :
    s.processClientInputs.registry.getComponent Kind.Position ⟨c.getId⟩
      = some (.position (c.received_messages.foldl Server.applyInput pos)) := by
  apply getComponent_eq_of_find
  exact processClients_find_self _ hnd c hc s.registry pos
    (find_of_getComponent _ _ ⟨c.getId⟩ _ hpos)

/-! ## The input claims -/

/-- C14: the clamp of `RIGHT`.  One message with content `RIGHT` leaves the position as it is
when `x + 40 + 10 ≥ 1920` and otherwise adds exactly 10 to `x`; `y` is unchanged in both
cases.  This is what `processClientInputs` does to the position of a client whose queue
holds that one message.  The numbers are `PLAYER_WIDTH`, `moveStep` and `SCREEN_WIDTH`. -/
theorem C14_right_clamp :
    (∀ (pos : PositionComponent) (msg : Message), msg.content = "RIGHT".toList →
      (pos.x + 40 + 10 ≥ 1920 → Server.applyInput pos msg = pos) ∧
      (¬ (pos.x + 40 + 10 ≥ 1920) → Server.applyInput pos msg = ⟨pos.x + 10, pos.y⟩)) ∧
    (∀ (s : Server) (c : Client) (pos : PositionComponent) (msg : Message),
      s.clientIds.Nodup → c ∈ s.connectionManager_.clients_ →
      c.received_messages = [msg] → msg.content = "RIGHT".toList →
      s.registry.getComponent Kind.Position ⟨c.getId⟩ = some (.position pos) →
      s.processClientInputs.registry.getComponent Kind.Position ⟨c.getId⟩
        = some (.position (if pos.x + 40 + 10 ≥ 1920 then pos else ⟨pos.x + 10, pos.y⟩))) ∧
    (GameUtilities.PLAYER_WIDTH = 40 ∧ Server.moveStep = 10 ∧
      GameUtilities.SCREEN_WIDTH = 1920) := by
  have h1 : ∀ (pos : PositionComponent) (msg : Message), msg.content = "RIGHT".toList →
      Server.applyInput pos msg
        = if pos.x + 40 + 10 ≥ 1920 then pos else ⟨pos.x + 10, pos.y⟩ := by
    intro pos msg hmsg
    rw [applyInput_right pos msg hmsg]
    by_cases hlt : pos.x + 40 + 10 < 1920
    · rw [if_pos hlt, if_neg (not_le.mpr hlt)]
    · rw [if_neg hlt, if_pos (not_lt.mp hlt)]
  refine ⟨fun pos msg hmsg => ⟨fun hge => ?_, fun hlt => ?_⟩, ?_, rfl, rfl, rfl⟩
  · rw [h1 pos msg hmsg, if_pos hge]
  · rw [h1 pos msg hmsg, if_neg hlt]
  · intro s c pos msg hnd hc hq hmsg hpos
    rw [processClientInputs_position s c pos hnd hc hpos, hq]
    simp only [List.foldl_cons, List.foldl_nil]
    rw [h1 pos msg hmsg]

/-- C14, at a concrete server: the player of client 1 stands at `(0, 250)`; its message
`RIGHT` moves it to `(10, 250)`. -/
theorem C14_right_clamp_witness :
    playingServer.processClientInputs.registry.getComponent Kind.Position ⟨1⟩
      = some (.position (if (0 : ℚ) + 40 + 10 ≥ 1920 then ⟨0, 250⟩ else ⟨0 + 10, 250⟩)) :=
  C14_right_clamp.2.1 playingServer { connectedClient 1 with
      outgoingMessages := ["220 Player 1;".toList, "220 Player 2;".toList],
      received_messages := [⟨RFC.INPUT, "RIGHT".toList⟩],
      writePending := true } ⟨0, 250⟩ ⟨RFC.INPUT, "RIGHT".toList⟩
    (by decide!) (by decide!) (by decide) (by decide) (by decide!)

/-! ## Sending -/

/-- What `send` changes: the serialized message is appended to the queue, and a write may be
started; the id, the socket and the received messages stay. -/
theorem send_fields (c : Client) (msg : Message) :
    (c.send msg).outgoingMessages = c.outgoingMessages ++ [msg.serialize] ∧
    (c.send msg).id = c.id ∧ (c.send msg).socketOpen = c.socketOpen ∧
    (c.send msg).received_messages = c.received_messages := by
  unfold Client.send Client.writeMessages
  dsimp only
  split_ifs <;> exact ⟨rfl, rfl, rfl, rfl⟩

theorem sendAll_fields (msgs : List Message) :
    ∀ c : Client, (sendAll msgs c).outgoingMessages
        = c.outgoingMessages ++ msgs.map Message.serialize ∧
      (sendAll msgs c).id = c.id ∧ (sendAll msgs c).socketOpen = c.socketOpen ∧
      (sendAll msgs c).received_messages = c.received_messages := by
  induction msgs with
  | nil => intro c; simp [sendAll]
  | cons msg msgs ih =>
    intro c
    obtain ⟨h1, h2, h3, h4⟩ := ih (c.send msg)
    obtain ⟨g1, g2, g3, g4⟩ := send_fields c msg
    unfold sendAll at h1 h2 h3 h4 ⊢
    simp only [List.foldl_cons, List.map_cons]
    exact ⟨by rw [h1, g1]; simp, h2.trans g2, h3.trans g3, h4.trans g4⟩

theorem map_send_getId (msg : Message) (clients : List Client) :
    (clients.map (fun c => c.send msg)).map Client.getId = clients.map Client.getId := by
  rw [List.map_map]
  apply List.map_congr_left
  intro c _
  exact (send_fields c msg).2.1

/-- What `notifyNewEntityCreation` changes: every client is sent the message. -/
theorem notifyNewEntityCreation_eq (s : Server) (entityType : List Char) (entityId : Int) :
    s.notifyNewEntityCreation entityType entityId
      = { s with connectionManager_ := { s.connectionManager_ with
            clients_ := s.connectionManager_.clients_.map
              (fun c => c.send (newEntityMessage entityType entityId)) } } := rfl

/-! ## Creating the players -/

/-- One iteration of the loop of `createPlayers`. -/
theorem createPlayer_spec (s : Server) (i : Nat) (c : Client)
    (hc : s.connectionManager_.clients_[i]? = some c) :
    ∃ s1, s.createPlayer i = some s1 ∧
      s1.registry.nextEntityId = wrapInt32 (s.registry.nextEntityId + 1) ∧
      s1.registry.entities_ = s.registry.entities_ ++ [⟨s.registry.nextEntityId⟩] ∧
      (∀ key : Key, key.2 ≠ s.registry.nextEntityId →
        s1.registry.components_.find key = s.registry.components_.find key) ∧
      s1.registry.components_.find (Kind.Position, s.registry.nextEntityId)
        = some (some (.position ⟨0, (playerY s.maxPlayers_ i : ℚ)⟩)) ∧
      s1.registry.components_.find (Kind.Player, s.registry.nextEntityId)
        = some (some (.player ⟨c.getId, true⟩)) ∧
      s1.registry.components_.find (Kind.Hitbox, s.registry.nextEntityId)
        = some (some (.hitbox ⟨40, 30⟩)) ∧
      s1.connectionManager_.clients_ = s.connectionManager_.clients_.map
        (fun c' => c'.send (newEntityMessage "Player".toList c.getId)) ∧
      SameFlags s s1 := by
  cases h : s.createPlayer i with
  | none => simp [Server.createPlayer, hc] at h
  | some s1 =>
  simp only [Server.createPlayer, hc, Option.some.injEq] at h
  subst h
  refine ⟨_, rfl, rfl, rfl, ?_, ?_, ?_, ?_, rfl, ⟨rfl, rfl, rfl, rfl, rfl, rfl⟩⟩
  · intro key hkey
    simp only [Server.notifyNewEntityCreation, Registry.addComponent, Registry.createEntity,
      Entity.id, Component.kind]
    rw [find_assign_other, find_assign_other, find_assign_other]
    all_goals
      intro heq
      exact hkey (by rw [heq])
  · simp only [Server.notifyNewEntityCreation, Registry.addComponent, Registry.createEntity,
      Entity.id, Component.kind]
    rw [find_assign_other _ _ _ _ (by simp), find_assign_other _ _ _ _ (by simp),
      find_assign_same]
    rfl
  · simp only [Server.notifyNewEntityCreation, Registry.addComponent, Registry.createEntity,
      Entity.id, Component.kind]
    rw [find_assign_other _ _ _ _ (by simp), find_assign_same]
  · simp only [Server.notifyNewEntityCreation, Registry.addComponent, Registry.createEntity,
      Entity.id, Component.kind]
    rw [find_assign_same]
    rfl

theorem sameFlags_refl (s : Server) : SameFlags s s := ⟨rfl, rfl, rfl, rfl, rfl, rfl⟩

theorem sameFlags_trans {a b c : Server} (h1 : SameFlags a b) (h2 : SameFlags b c) :
    SameFlags a c :=
  ⟨h2.1.trans h1.1, h2.2.1.trans h1.2.1, h2.2.2.1.trans h1.2.2.1,
    h2.2.2.2.1.trans h1.2.2.2.1, h2.2.2.2.2.1.trans h1.2.2.2.2.1,
    h2.2.2.2.2.2.trans h1.2.2.2.2.2⟩

/-- The loop of `createPlayers` for the indices `k, ..., k + len - 1`. -/
theorem createPlayersLoop_spec (len : Nat) : ∀ (k : Nat) (s : Server),
    k + len ≤ s.connectionManager_.clients_.length →
    INT_MIN ≤ s.registry.nextEntityId → s.registry.nextEntityId + (len : Int) ≤ INT_MAX →
    ∃ s', Server.createPlayersLoop (List.range' k len) s = some s' ∧
      s'.registry.nextEntityId = s.registry.nextEntityId + (len : Int) ∧
      s'.registry.entities_ = s.registry.entities_ ++
        (List.range len).map (fun (j : Nat) => (⟨s.registry.nextEntityId + (j : Int)⟩ : Entity)) ∧
      (∀ key : Key, (∀ j : Nat, j < len → key.2 ≠ s.registry.nextEntityId + (j : Int)) →
        s'.registry.components_.find key = s.registry.components_.find key) ∧
      (∀ (j : Nat) (c : Client), j < len → s.connectionManager_.clients_[k + j]? = some c →
        s'.registry.components_.find (Kind.Position, s.registry.nextEntityId + (j : Int))
          = some (some (.position ⟨0, (playerY s.maxPlayers_ (k + j) : ℚ)⟩)) ∧
        s'.registry.components_.find (Kind.Player, s.registry.nextEntityId + (j : Int))
          = some (some (.player ⟨c.getId, true⟩)) ∧
        s'.registry.components_.find (Kind.Hitbox, s.registry.nextEntityId + (j : Int))
          = some (some (.hitbox ⟨40, 30⟩))) ∧
      s'.connectionManager_.clients_ = s.connectionManager_.clients_.map
        (sendAll (playerMessages ((s.clientIds.drop k).take len))) ∧
      SameFlags s s' := by
  induction len with
  | zero =>
    intro k s _ _ _
    refine ⟨s, rfl, by simp, by simp, fun _ _ => rfl, fun j c hj => absurd hj (by omega),
      ?_, sameFlags_refl s⟩
    have h0 : sendAll (playerMessages ((s.clientIds.drop k).take 0)) = id := by
      funext c
      simp [playerMessages, sendAll]
    rw [h0, List.map_id]
  | succ len ih =>
    intro k s hlen hlo hhi
    have hk : k < s.connectionManager_.clients_.length := by omega
    have hc : s.connectionManager_.clients_[k]? = some s.connectionManager_.clients_[k] :=
      List.getElem?_eq_getElem hk
    obtain ⟨s1, h1, hnext1, hent1, hframe1, hpos1, hplr1, hhb1, hcl1, hflags1⟩ :=
      createPlayer_spec s k _ hc
    push_cast at hhi
    have hw : wrapInt32 (s.registry.nextEntityId + 1) = s.registry.nextEntityId + 1 :=
      wrapInt32_of_range _ (by omega) (by omega)
    rw [hw] at hnext1
    have hlen1 : s1.connectionManager_.clients_.length = s.connectionManager_.clients_.length := by
      rw [hcl1, List.length_map]
    have hids1 : s1.clientIds = s.clientIds := by
      unfold Server.clientIds
      rw [hcl1]
      exact map_send_getId _ _
    obtain ⟨s', h', hnext', hent', hframe', hcomp', hcl', hflags'⟩ :=
      ih (k + 1) s1 (by omega) (by rw [hnext1]; omega) (by rw [hnext1]; omega)
    refine ⟨s', ?_, ?_, ?_, ?_, ?_, ?_, sameFlags_trans hflags1 hflags'⟩
    · rw [List.range'_succ]
      simp only [Server.createPlayersLoop, h1]
      exact h'
    · rw [hnext', hnext1]
      push_cast
      omega
    · rw [hent', hent1, hnext1, List.range_succ_eq_map]
      simp only [List.map_cons, List.map_map, List.append_assoc, List.singleton_append,
        Nat.cast_zero, add_zero]
      congr 2
      apply List.map_congr_left
      intro j _
      simp only [Function.comp, Nat.succ_eq_add_one, Nat.cast_add, Nat.cast_one]
      congr 1
      omega
    · intro key hkey
      rw [hframe' key (fun j hj => by
        rw [hnext1]
        have := hkey (j + 1) (by omega)
        push_cast at this
        omega)]
      exact hframe1 key (by
        have := hkey 0 (by omega)
        simpa using this)
    · intro j c hj hcj
      cases j with
      | zero =>
        simp only [Nat.cast_zero, add_zero, Nat.add_zero] at hcj ⊢
        rw [hc] at hcj
        simp only [Option.some.injEq] at hcj
        subst hcj
        have hkeep : ∀ T : Kind, s'.registry.components_.find (T, s.registry.nextEntityId)
            = s1.registry.components_.find (T, s.registry.nextEntityId) := by
          intro T
          apply hframe'
          intro j' _
          rw [hnext1]
          simp only
          omega
        rw [hkeep, hkeep, hkeep]
        exact ⟨hpos1, hplr1, hhb1⟩
      | succ j =>
        have hcj1 : s1.connectionManager_.clients_[k + 1 + j]?
            = some (c.send (newEntityMessage "Player".toList
                s.connectionManager_.clients_[k].getId)) := by
          rw [hcl1, List.getElem?_map]
          have : k + 1 + j = k + (j + 1) := by omega
          rw [this, hcj]
          rfl
        have := hcomp' j _ (by omega) hcj1
        rw [hnext1, hflags1.2.2.2.1] at this
        have he : s.registry.nextEntityId + 1 + (j : Int)
            = s.registry.nextEntityId + ((j + 1 : Nat) : Int) := by
          push_cast
          omega
        have hi : k + 1 + j = k + (j + 1) := by omega
        rw [he, hi] at this
        have hid : (c.send (newEntityMessage "Player".toList
            s.connectionManager_.clients_[k].getId)).getId = c.getId := (send_fields c _).2.1
        rw [hid] at this
        exact this
    · rw [hcl', hcl1, hids1, List.map_map]
      have hdrop : (s.clientIds.drop k).take (len + 1)
          = s.connectionManager_.clients_[k].getId :: (s.clientIds.drop (k + 1)).take len := by
        have hk' : k < s.clientIds.length := by
          unfold Server.clientIds
          rw [List.length_map]
          exact hk
        rw [List.drop_eq_getElem_cons hk', List.take_succ_cons]
        congr 1
        unfold Server.clientIds
        rw [List.getElem_map]
      rw [hdrop]
      apply List.map_congr_left
      intro c' _
      rfl

/-- The method `createPlayers` with as many clients as players awaited. -/
theorem createPlayers_spec (s : Server) (n : Nat) (hmax : s.maxPlayers_ = (n : Int))
    (hlen : s.connectionManager_.clients_.length = n)
    (hlo : INT_MIN ≤ s.registry.nextEntityId)
    (hhi : s.registry.nextEntityId + (n : Int) ≤ INT_MAX) :
    ∃ s', s.createPlayers = some s' ∧
      s'.registry.nextEntityId = s.registry.nextEntityId + (n : Int) ∧
      s'.registry.entities_ = s.registry.entities_ ++
        (List.range n).map (fun (j : Nat) => (⟨s.registry.nextEntityId + (j : Int)⟩ : Entity)) ∧
      (∀ key : Key, (∀ j : Nat, j < n → key.2 ≠ s.registry.nextEntityId + (j : Int)) →
        s'.registry.components_.find key = s.registry.components_.find key) ∧
      (∀ (j : Nat) (c : Client), j < n → s.connectionManager_.clients_[j]? = some c →
        s'.registry.components_.find (Kind.Position, s.registry.nextEntityId + (j : Int))
          = some (some (.position ⟨0, (playerY (n : Int) j : ℚ)⟩)) ∧
        s'.registry.components_.find (Kind.Player, s.registry.nextEntityId + (j : Int))
          = some (some (.player ⟨c.getId, true⟩)) ∧
        s'.registry.components_.find (Kind.Hitbox, s.registry.nextEntityId + (j : Int))
          = some (some (.hitbox ⟨40, 30⟩))) ∧
      s'.connectionManager_.clients_ = s.connectionManager_.clients_.map
        (sendAll (playerMessages s.clientIds)) ∧
      SameFlags s s' := by
  obtain ⟨s', h', hnext, hent, hframe, hcomp, hcl, hflags⟩ :=
    createPlayersLoop_spec n 0 s (by omega) hlo hhi
  refine ⟨s', ?_, hnext, hent, hframe, ?_, ?_, hflags⟩
  · unfold Server.createPlayers
    rw [hmax, Int.toNat_ofNat, List.range_eq_range']
    exact h'
  · intro j c hj hc
    have := hcomp j c hj (by rw [Nat.zero_add]; exact hc)
    rw [Nat.zero_add, hmax] at this
    exact this
  · rw [hcl, List.drop_zero, List.take_of_length_le]
    unfold Server.clientIds
    rw [List.length_map, hlen]

theorem playerY_eq (n i : Nat) :
    playerY (n : Int) i = ((1000 / n * i + 1000 / n / 2 : Nat) : Int) := by
  unfold playerY GameUtilities.SCREEN_HEIGHT
  have h1 : (1000 : Int).tdiv (n : Int) = ((1000 / n : Nat) : Int) :=
    (Int.ofNat_tdiv 1000 n).symm
  have h2 : ((1000 / n : Nat) : Int).tdiv 2 = ((1000 / n / 2 : Nat) : Int) :=
    (Int.ofNat_tdiv (1000 / n) 2).symm
  rw [h1, h2]
  push_cast
  rfl

theorem sum_outgoing_sendAll (msgs : List Message) (l : List Client) :
    ((l.map (sendAll msgs)).map (fun c => c.outgoingMessages.length)).sum
      = (l.map (fun c => c.outgoingMessages.length)).sum + l.length * msgs.length := by
  induction l with
  | nil => simp
  | cons c l ih =>
    simp only [List.map_cons, List.sum_cons, ih, List.length_cons,
      (sendAll_fields msgs c).1, List.length_append, List.length_map]
    ring

/-! ## The claims on the players -/

/-- C20: `createPlayers` with `n` players awaited and `n` connections, for every `n` (so in
particular for `n` from 1 to 4).  It succeeds and creates exactly `n` entities; the entity of index `i`
has the position `(0, (1000 / n) * i + (1000 / n) / 2)` with integer division, a hitbox of
40 x 30 and a player component with the id of the connection of index `i`, so that
consecutive players are `1000 / n` apart; and every connection is sent, in order, one
`NEW_ENTITY` message `Player <clientId>;` per connection, `n * n` messages in all.  (The
entity counter is taken in the range where it does not overflow.) -/
theorem C20_createPlayers (s : Server) (n : Nat)
    (hmax : s.maxPlayers_ = (n : Int)) (hlen : s.connectionManager_.clients_.length = n)
    (hlo : INT_MIN ≤ s.registry.nextEntityId)
    (hhi : s.registry.nextEntityId + (n : Int) ≤ INT_MAX) :
    ∃ s', s.createPlayers = some s' ∧
      s'.registry.entities_ = s.registry.entities_ ++
        (List.range n).map (fun (i : Nat) => (⟨s.registry.nextEntityId + (i : Int)⟩ : Entity)) ∧
      (∀ (i : Nat) (c : Client), i < n → s.connectionManager_.clients_[i]? = some c →
        s'.registry.getComponent Kind.Position ⟨s.registry.nextEntityId + (i : Int)⟩
          = some (.position ⟨0, ((1000 / n * i + 1000 / n / 2 : Nat) : ℚ)⟩) ∧
        s'.registry.getComponent Kind.Hitbox ⟨s.registry.nextEntityId + (i : Int)⟩
          = some (.hitbox ⟨40, 30⟩) ∧
        s'.registry.getComponent Kind.Player ⟨s.registry.nextEntityId + (i : Int)⟩
          = some (.player ⟨c.getId, true⟩)) ∧
      (∀ i : Nat, (1000 / n * (i + 1) + 1000 / n / 2) - (1000 / n * i + 1000 / n / 2)
          = 1000 / n) ∧
      s'.clientIds = s.clientIds ∧
      (∀ (j : Nat) (c : Client), s.connectionManager_.clients_[j]? = some c →
        ∃ c', s'.connectionManager_.clients_[j]? = some c' ∧
          c'.outgoingMessages = c.outgoingMessages ++ s.clientIds.map (fun id =>
            Message.serialize ⟨RFC.NEW_ENTITY, "Player ".toList ++ intToChars id ++ [';']⟩)) ∧
      (s'.connectionManager_.clients_.map (fun c => c.outgoingMessages.length)).sum
        = (s.connectionManager_.clients_.map (fun c => c.outgoingMessages.length)).sum
          + n * n := by
  obtain ⟨s', h', _, hent, _, hcomp, hcl, _⟩ := createPlayers_spec s n hmax hlen hlo hhi
  refine ⟨s', h', hent, ?_, ?_, ?_, ?_, ?_⟩
  · intro i c hi hc
    obtain ⟨h1, h2, h3⟩ := hcomp i c hi hc
    rw [playerY_eq] at h1
    refine ⟨getComponent_eq_of_find _ _ ⟨_⟩ _ ?_, getComponent_eq_of_find _ _ ⟨_⟩ _ h3,
      getComponent_eq_of_find _ _ ⟨_⟩ _ h2⟩
    show s'.registry.components_.find (Kind.Position, s.registry.nextEntityId + (i : Int)) = _
    rw [h1]
    norm_cast
  · intro i
    generalize 1000 / n = q
    have : q * (i + 1) = q * i + q := by ring
    omega
  · unfold Server.clientIds
    rw [hcl, List.map_map]
    apply List.map_congr_left
    intro c _
    exact (sendAll_fields _ c).2.1
  · intro j c hc
    refine ⟨sendAll (playerMessages s.clientIds) c, ?_, ?_⟩
    · rw [hcl, List.getElem?_map, hc]
      rfl
    · rw [(sendAll_fields _ c).1]
      congr 1
      unfold playerMessages
      rw [List.map_map]
      apply List.map_congr_left
      intro id _
      simp [newEntityMessage]
  · rw [hcl, sum_outgoing_sendAll, hlen]
    unfold playerMessages Server.clientIds
    rw [List.length_map, List.length_map, hlen]

/-- C20, at the server with the two connected clients 1 and 2: two entities, 1 and 2, are
created, and the four messages are queued. -/
theorem C20_createPlayers_witness :
    ∃ s', twoClientServer.createPlayers = some s' ∧
      s'.registry.entities_ = twoClientServer.registry.entities_ ++
        (List.range 2).map
          (fun (i : Nat) => (⟨twoClientServer.registry.nextEntityId + (i : Int)⟩ : Entity)) ∧
      (s'.connectionManager_.clients_.map (fun c => c.outgoingMessages.length)).sum
        = (twoClientServer.connectionManager_.clients_.map
            (fun c => c.outgoingMessages.length)).sum + 2 * 2 :=
  (C20_createPlayers twoClientServer 2 (by decide) (by decide) (by decide) (by decide)).imp
    (fun _ h => ⟨h.1, h.2.1, h.2.2.2.2.2.2⟩)

/-- C15: the bounding box of a player stays within the screen.  A position with `0 ≤ x`,
`x + 40 ≤ 1920`, `0 ≤ y` and `y + 30 ≤ 1000` satisfies the same bounds after any finite
sequence of input messages, whatever their contents; this is what `processClientInputs`
does to the position of each client (their ids being distinct); and the positions
`createPlayers` gives to 1, 2, 3 or 4 players satisfy the bounds. -/
theorem C15_bounding_box :
    (∀ (pos : PositionComponent) (msgs : List Message), InBounds pos →
      InBounds (msgs.foldl Server.applyInput pos)) ∧
    (∀ (s : Server) (c : Client) (pos : PositionComponent), s.clientIds.Nodup →
      c ∈ s.connectionManager_.clients_ →
      s.registry.getComponent Kind.Position ⟨c.getId⟩ = some (.position pos) → InBounds pos →
      ∃ pos', s.processClientInputs.registry.getComponent Kind.Position ⟨c.getId⟩
          = some (.position pos') ∧ InBounds pos') ∧
    (∀ (s : Server) (n : Nat), 1 ≤ n → n ≤ 4 → s.maxPlayers_ = (n : Int) →
      s.connectionManager_.clients_.length = n → INT_MIN ≤ s.registry.nextEntityId →
      s.registry.nextEntityId + (n : Int) ≤ INT_MAX →
      ∃ s', s.createPlayers = some s' ∧ ∀ i : Nat, i < n →
        ∃ pos, s'.registry.getComponent Kind.Position ⟨s.registry.nextEntityId + (i : Int)⟩
          = some (.position pos) ∧ InBounds pos) := by
  refine ⟨fun pos msgs h => foldl_applyInput_inBounds msgs pos h, ?_, ?_⟩
  · intro s c pos hnd hc hpos hb
    exact ⟨_, processClientInputs_position s c pos hnd hc hpos,
      foldl_applyInput_inBounds _ pos hb⟩
  · intro s n hn1 hn4 hmax hlen hlo hhi
    obtain ⟨s', h', _, _, _, hcomp, _, _⟩ := createPlayers_spec s n hmax hlen hlo hhi
    refine ⟨s', h', fun i hi => ?_⟩
    have hlt : i < s.connectionManager_.clients_.length := by omega
    obtain ⟨h1, _, _⟩ := hcomp i _ hi (List.getElem?_eq_getElem hlt)
    refine ⟨_, getComponent_eq_of_find _ _ ⟨_⟩ _ h1, ?_⟩
    rw [playerY_eq]
    unfold InBounds
    dsimp only
    interval_cases n <;> interval_cases i <;> norm_num

/-- C15, at a concrete server: after `RIGHT` the player of client 1 is within the screen, and
the two players `createPlayers` makes for two clients are within the screen. -/
theorem C15_bounding_box_witness :
    (∃ pos', playingServer.processClientInputs.registry.getComponent Kind.Position ⟨1⟩
        = some (.position pos') ∧ InBounds pos') ∧
    (∃ s', twoClientServer.createPlayers = some s' ∧ ∀ i : Nat, i < 2 →
      ∃ pos, s'.registry.getComponent Kind.Position
          ⟨twoClientServer.registry.nextEntityId + (i : Int)⟩ = some (.position pos) ∧
        InBounds pos) :=
  ⟨C15_bounding_box.2.1 playingServer { connectedClient 1 with
      outgoingMessages := ["220 Player 1;".toList, "220 Player 2;".toList],
      received_messages := [⟨RFC.INPUT, "RIGHT".toList⟩],
      writePending := true } ⟨0, 250⟩ (by decide!) (by decide!) (by decide!)
      (by unfold InBounds; norm_num),
   C15_bounding_box.2.2 twoClientServer 2 (by decide) (by decide) (by decide) (by decide)
      (by decide) (by decide)⟩

/-! ## Elimination -/

theorem findClient_some (entityId : Int) (l : List Client) :
    ∀ (i : Nat) (c : Client), Server.findClient entityId l = some (i, c) →
      l[i]? = some c ∧ c.getId = entityId ∧
      (∀ (j : Nat) (c' : Client), j < i → l[j]? = some c' → c'.getId ≠ entityId) := by
  induction l with
  | nil => intro i c h; simp [Server.findClient] at h
  | cons a l ih =>
    intro i c h
    unfold Server.findClient at h
    split_ifs at h with ha
    · simp only [Option.some.injEq, Prod.mk.injEq] at h
      obtain ⟨hi, hc⟩ := h
      subst hi hc
      exact ⟨by simp, ha, fun j c' hj => absurd hj (by omega)⟩
    · cases hr : Server.findClient entityId l with
      | none => simp [hr] at h
      | some r =>
        simp only [hr, Option.some.injEq, Prod.mk.injEq] at h
        obtain ⟨hi, hc⟩ := h
        subst hi hc
        obtain ⟨h1, h2, h3⟩ := ih r.1 r.2 hr
        refine ⟨by simpa using h1, h2, fun j c' hj hc' => ?_⟩
        cases j with
        | zero =>
          simp only [List.getElem?_cons_zero, Option.some.injEq] at hc'
          subst hc'
          exact ha
        | succ j =>
          simp only [List.getElem?_cons_succ] at hc'
          exact h3 j c' (by omega) hc'

theorem findClient_none (entityId : Int) (l : List Client)
    (h : Server.findClient entityId l = none) : ∀ c ∈ l, c.getId ≠ entityId := by
  induction l with
  | nil => intro c hc; simp at hc
  | cons a l ih =>
    unfold Server.findClient at h
    split_ifs at h with ha
    cases hr : Server.findClient entityId l with
    | none =>
      intro c hc
      rcases List.mem_cons.mp hc with hca | hcl
      · subst hca; exact ha
      · exact ih hr c hcl
    | some r => simp [hr] at h

theorem findClient_of_mem (entityId : Int) (l : List Client)
    (h : ∃ c ∈ l, c.getId = entityId) : ∃ i c, Server.findClient entityId l = some (i, c) := by
  cases hf : Server.findClient entityId l with
  | none =>
    obtain ⟨c, hc, hid⟩ := h
    exact absurd hid (findClient_none entityId l hf c hc)
  | some r => exact ⟨r.1, r.2, rfl⟩

/-- The call `handlePlayerCollision(entityId)` when a client has this id. -/
theorem handlePlayerCollision_found (s : Server) (entityId : Int) (i : Nat) (c : Client)
    (h : Server.findClient entityId s.connectionManager_.clients_ = some (i, c)) :
    (s.handlePlayerCollision entityId).2 = some ((c.send (gameOverMessage entityId)).disconnect) ∧
    (s.handlePlayerCollision entityId).1.registry = s.registry.removeEntity entityId ∧
    (s.handlePlayerCollision entityId).1.connectionManager_.clients_
      = (s.connectionManager_.clients_.eraseIdx i).map
          (fun c' => c'.send (deathMessage entityId)) ∧
    (s.handlePlayerCollision entityId).1.isRunning
      = (if (s.connectionManager_.clients_.eraseIdx i).isEmpty then false else s.isRunning) ∧
    (s.handlePlayerCollision entityId).1.gameStarted = s.gameStarted ∧
    (s.handlePlayerCollision entityId).1.activeEnemies = s.activeEnemies ∧
    (s.handlePlayerCollision entityId).1.maxPlayers_ = s.maxPlayers_ := by
  unfold Server.handlePlayerCollision
  simp only [h, Server.notifyEntityDeath, List.isEmpty_eq_true, List.map_eq_nil_iff]
  by_cases he : s.connectionManager_.clients_.eraseIdx i = [] <;>
    simp [he, gameOverMessage, deathMessage]

/-- The call `handlePlayerCollision(entityId)` when no client has this id. -/
theorem handlePlayerCollision_not_found (s : Server) (entityId : Int)
    (h : Server.findClient entityId s.connectionManager_.clients_ = none) :
    s.handlePlayerCollision entityId
      = (if s.connectionManager_.clients_.isEmpty then { s with isRunning := false } else s,
         none) := by
  unfold Server.handlePlayerCollision
  simp only [h]

theorem map_eraseIdx {α β : Type} (f : α → β) (l : List α) :
    ∀ i : Nat, (l.eraseIdx i).map f = (l.map f).eraseIdx i := by
  induction l with
  | nil => intro i; rfl
  | cons a l ih =>
    intro i
    cases i with
    | zero => rfl
    | succ i => simp [ih i]

theorem mem_of_mem_eraseIdx {α : Type} (l : List α) :
    ∀ (i : Nat) (a : α), a ∈ l.eraseIdx i → a ∈ l := by
  induction l with
  | nil => intro i a h; simp at h
  | cons b l ih =>
    intro i a h
    cases i with
    | zero => exact List.mem_cons_of_mem _ (by simpa using h)
    | succ i =>
      simp only [List.eraseIdx_cons_succ, List.mem_cons] at h
      rcases h with h | h
      · exact h ▸ List.mem_cons_self _ _
      · exact List.mem_cons_of_mem _ (ih i a h)

/-! ## The elimination claims -/

/-- C16: elimination.  When `handlePlayerCollision(id)` is called and a live connection has
that id, let `c` be the first such connection, at index `i`.  Then (1) the `GAME_OVER`
message `Player <id> dead.;`, whose content ends in `;`, is appended to the outbound queue
of `c`; (2) no entity of the live-entity list has the id any more; (3) `c` is disconnected
(its socket is closed) and erased from the client list, the other connections being kept in
order; and (4) the `ENTITY_DEAD` message `<id>;` is appended to the outbound queue of every
remaining connection. -/
theorem C16_elimination (s : Server) (entityId : Int)
    (hlive : ∃ c ∈ s.connectionManager_.clients_, c.getId = entityId) :
    ∃ (i : Nat) (c gone : Client),
      s.connectionManager_.clients_[i]? = some c ∧ c.getId = entityId ∧
      (∀ (j : Nat) (c' : Client), j < i → s.connectionManager_.clients_[j]? = some c' →
        c'.getId ≠ entityId) ∧
      (s.handlePlayerCollision entityId).2 = some gone ∧
      gone.outgoingMessages = c.outgoingMessages ++ [Message.serialize
        ⟨RFC.GAME_OVER, "Player ".toList ++ intToChars entityId ++ " dead.;".toList⟩] ∧
      ("Player ".toList ++ intToChars entityId ++ " dead.;".toList).getLast? = some ';' ∧
      (∀ e ∈ (s.handlePlayerCollision entityId).1.registry.entities_, e.id ≠ entityId) ∧
      gone.socketOpen = false ∧ gone.getId = entityId ∧
      (s.handlePlayerCollision entityId).1.clientIds = s.clientIds.eraseIdx i ∧
      (s.handlePlayerCollision entityId).1.connectionManager_.clients_
        = (s.connectionManager_.clients_.eraseIdx i).map
            (fun c' => c'.send ⟨RFC.ENTITY_DEAD, intToChars entityId ++ [';']⟩) ∧
      (∀ c1 ∈ (s.handlePlayerCollision entityId).1.connectionManager_.clients_,
        ∃ c0 ∈ s.connectionManager_.clients_, c1.getId = c0.getId ∧
          c1.outgoingMessages = c0.outgoingMessages ++
            [Message.serialize ⟨RFC.ENTITY_DEAD, intToChars entityId ++ [';']⟩]) := by
  obtain ⟨i, c, hf⟩ := findClient_of_mem entityId _ hlive
  obtain ⟨hi, hid, hfirst⟩ := findClient_some entityId _ i c hf
  obtain ⟨hgone, hreg, hcl, _, _, _, _⟩ := handlePlayerCollision_found s entityId i c hf
  have hsend := send_fields c (gameOverMessage entityId)
  refine ⟨i, c, _, hi, hid, hfirst, hgone, ?_, ?_, ?_, rfl, ?_, ?_, hcl, ?_⟩
  · show (c.send (gameOverMessage entityId)).outgoingMessages = _
    rw [hsend.1]
    simp [gameOverMessage]
  · have : "Player ".toList ++ intToChars entityId ++ " dead.;".toList
        = ("Player ".toList ++ intToChars entityId ++ " dead.".toList) ++ [';'] := by simp
    rw [this, List.getLast?_append]
    rfl
  · intro e he
    rw [hreg] at he
    simp only [Registry.removeEntity, List.mem_filter, decide_eq_true_eq] at he
    exact he.2
  · show (c.send (gameOverMessage entityId)).id = entityId
    rw [hsend.2.1]
    exact hid
  · unfold Server.clientIds
    rw [hcl, ← map_eraseIdx, List.map_map]
    apply List.map_congr_left
    intro c' _
    exact (send_fields c' _).2.1
  · intro c1 hc1
    rw [hcl] at hc1
    obtain ⟨c0, hc0, rfl⟩ := List.mem_map.mp hc1
    exact ⟨c0, mem_of_mem_eraseIdx _ _ _ hc0, (send_fields c0 _).2.1, (send_fields c0 _).1⟩

/-- C16, at a concrete server: the collision of player 1 closes the connection of client 1
and leaves client 2 as the only connection. -/
theorem C16_elimination_witness :
    ∃ gone, (playingServer.handlePlayerCollision 1).2 = some gone ∧
      gone.socketOpen = false ∧
      (playingServer.handlePlayerCollision 1).1.clientIds = playingServer.clientIds.eraseIdx 0 := by
  obtain ⟨i, c, gone, h1, h2, h3, h4, _, _, _, h8, _, h10, _⟩ :=
    C16_elimination playingServer 1 ⟨firstPlayingClient, by decide!, by decide⟩
  have hi : i = 0 := by
    by_contra hne
    exact h3 0 firstPlayingClient (Nat.pos_of_ne_zero hne) (by decide!) (by decide)
  subst hi
  exact ⟨gone, h4, h8, h10⟩

/-! ## What the operations of the server keep -/

theorem steady_refl (s : Server) : Steady s s := ⟨fun h => h, fun h => h, fun h => h⟩

theorem steady_trans {a b c : Server} (h1 : Steady a b) (h2 : Steady b c) : Steady a c :=
  ⟨fun h => h1.1 (h2.1 h), fun h => h2.2.1 (h1.2.1 h), fun h => h2.2.2 (h1.2.2 h)⟩

theorem steady_of_sameFlags {s s' : Server} (h : SameFlags s s') : Steady s s' := by
  obtain ⟨h1, _, h3, _, _, h6⟩ := h
  refine ⟨fun h => by rw [← h1]; exact h, fun h => by rw [h3]; exact h, ?_⟩
  rintro ⟨cs, hcs⟩
  exact ⟨cs, by rw [h6]; exact hcs⟩

theorem processClientInputs_sameFlags (s : Server) : SameFlags s s.processClientInputs :=
  ⟨rfl, rfl, rfl, rfl, rfl, (processClients_rest _ s.registry).2.1⟩

theorem setInsert_length_le (x : Int) (l : List Int) :
    (setInsert x l).length ≤ l.length + 1 := by
  induction l with
  | nil => simp [setInsert]
  | cons y ys ih =>
    unfold setInsert
    split_ifs
    · simp
    · simp
    · simp only [List.length_cons]
      omega

theorem updateEnemyEntityIds_systems (r : Registry) (ids : List Int) (cs : CollisionSystem)
    (h : r.systems_ = [.enemyMovement serverMovementSystem, .collision cs]) :
    (Server.updateEnemyEntityIds r ids).systems_
      = [.enemyMovement serverMovementSystem, .collision (cs.updateEnemyEntityIds ids)] := by
  simp [Server.updateEnemyEntityIds, h]

theorem createEnemy_steady (s : Server) (u : UnitSample) : Steady s (s.createEnemy u) := by
  unfold Server.createEnemy
  split_ifs with hg
  · refine ⟨fun h => h, fun _ => ?_, ?_⟩
    · have hlt : s.activeEnemies.length < 5 := by
        have := hg.2
        unfold GameUtilities.MAX_ENEMIES at this
        omega
      have := setInsert_length_le s.registry.createEntity.1.id s.activeEnemies
      show (setInsert _ s.activeEnemies).length ≤ 5
      omega
    · rintro ⟨cs, hcs⟩
      exact ⟨_, updateEnemyEntityIds_systems _ _ cs hcs⟩
  · exact steady_refl s

theorem createPlayer_sameFlags (s s1 : Server) (i : Nat) (h : s.createPlayer i = some s1) :
    SameFlags s s1 := by
  unfold Server.createPlayer at h
  dsimp only at h
  split at h
  · exact absurd h (by simp)
  · simp only [Option.some.injEq] at h
    subst h
    exact ⟨rfl, rfl, rfl, rfl, rfl, rfl⟩

theorem createPlayersLoop_sameFlags (l : List Nat) :
    ∀ s s' : Server, Server.createPlayersLoop l s = some s' → SameFlags s s' := by
  induction l with
  | nil =>
    intro s s' h
    simp only [Server.createPlayersLoop, Option.some.injEq] at h
    subst h
    exact sameFlags_refl s
  | cons i l ih =>
    intro s s' h
    simp only [Server.createPlayersLoop] at h
    cases h1 : s.createPlayer i with
    | none => simp [h1] at h
    | some s1 =>
      simp only [h1] at h
      exact sameFlags_trans (createPlayer_sameFlags s s1 i h1) (ih s1 s' h)

theorem startGame_steady (s s' : Server) (u : UnitSample) (h : s.startGame u = some s') :
    Steady s s' := by
  unfold Server.startGame at h
  cases h1 : s.createPlayers with
  | none => simp [h1] at h
  | some s1 =>
    simp only [h1, Option.some.injEq] at h
    subst h
    have hs1 : Steady s s1 := steady_of_sameFlags (createPlayersLoop_sameFlags _ s s1 h1)
    have hs2 : Steady s1 (s1.createEnemy u) := createEnemy_steady s1 u
    exact steady_trans hs1 (steady_trans hs2 ⟨fun h => h, fun h => h, fun h => h⟩)

theorem handlePlayerCollision_steady (s : Server) (entityId : Int) :
    Steady s (s.handlePlayerCollision entityId).1 := by
  cases hf : Server.findClient entityId s.connectionManager_.clients_ with
  | none =>
    rw [handlePlayerCollision_not_found s entityId hf]
    dsimp only
    split_ifs
    · exact ⟨fun h => absurd h (by simp), fun h => h, fun h => h⟩
    · exact steady_refl s
  | some r =>
    obtain ⟨_, hreg, _, hrun, _, hact, _⟩ := handlePlayerCollision_found s entityId r.1 r.2 hf
    refine ⟨fun h => ?_, fun h => by rw [hact]; exact h, ?_⟩
    · rw [hrun] at h
      split_ifs at h
      exact h
    · rintro ⟨cs, hcs⟩
      exact ⟨cs, by rw [hreg]; exact hcs⟩

theorem foldl_handlePlayerCollision_steady (calls : List CallbackCall) :
    ∀ s : Server, Steady s
      (calls.foldl (fun s call => (s.handlePlayerCollision call.playerId).1) s) := by
  induction calls with
  | nil => intro s; exact steady_refl s
  | cons c cs ih =>
    intro s
    exact steady_trans (handlePlayerCollision_steady s c.playerId) (ih _)

/-- With the movement system registered before the collision system, `updateSystems` is the
update of the movement system followed by the update of the collision system on the map the
movement system leaves. -/
theorem updateSystems_movement_collision (r : Registry) (ems : EnemyMovementSystem)
    (cs : CollisionSystem) (h : r.systems_ = [.enemyMovement ems, .collision cs]) (dt : ℚ)
    (rand : Int → UnitSample) :
    r.updateSystems dt rand
      = match ems.update dt rand r.components_ with
        | none => none
        | some moved =>
          some ({ r with systems_ := [.enemyMovement ems, .collision (cs.update dt moved).1],
                         components_ := (cs.update dt moved).2.1 },
                (cs.update dt moved).2.2) := by
  unfold Registry.updateSystems
  rw [h]
  simp only [Registry.updateSystemsLoop, System.update]
  cases ems.update dt rand r.components_ <;> simp

theorem updateGameState_steady (s s' : Server) (dt : ℚ) (rand : Int → UnitSample)
    (h : s.updateGameState dt rand = some s') : Steady s s' := by
  unfold Server.updateGameState at h
  cases hu : s.registry.updateSystems dt rand with
  | none => simp [hu] at h
  | some r =>
    simp only [hu, Option.some.injEq] at h
    subst h
    refine steady_trans ?_ (foldl_handlePlayerCollision_steady _ _)
    refine ⟨fun h => h, fun h => h, ?_⟩
    rintro ⟨cs, hcs⟩
    rw [updateSystems_movement_collision s.registry _ cs hcs] at hu
    cases hm : serverMovementSystem.update dt rand s.registry.components_ with
    | none => simp [hm] at hu
    | some moved =>
      simp only [hm, Option.some.injEq] at hu
      exact ⟨_, by rw [← hu]⟩

theorem sendUpdates_sameFlags (s : Server) : SameFlags s s.sendUpdates :=
  ⟨rfl, rfl, rfl, rfl, rfl, rfl⟩

theorem runIteration_steady (s s' : Server) (dt : ℚ) (rand : Int → UnitSample)
    (h : s.runIteration dt rand = some s') : Steady s s' := by
  unfold Server.runIteration at h
  split_ifs at h
  · cases hu : s.processClientInputs.updateGameState dt rand with
    | none => simp [hu] at h
    | some s1 =>
      simp only [hu, Option.some.injEq] at h
      subst h
      exact steady_trans (steady_of_sameFlags (processClientInputs_sameFlags s))
        (steady_trans (updateGameState_steady _ s1 dt rand hu)
          (steady_of_sameFlags (sendUpdates_sameFlags s1)))
  · simp only [Option.some.injEq] at h
    subst h
    exact steady_refl s

/-- Every operation of the server keeps what `Steady` lists. -/
theorem exec_steady (s s' : Server) (op : ServerOp) (h : op.exec s = some s') :
    Steady s s' := by
  cases op with
  | processClientInputs =>
    simp only [ServerOp.exec, Option.some.injEq] at h
    subst h
    exact steady_of_sameFlags (processClientInputs_sameFlags s)
  | createEnemy u =>
    simp only [ServerOp.exec, Option.some.injEq] at h
    subst h
    exact createEnemy_steady s u
  | createPlayers =>
    exact steady_of_sameFlags (createPlayersLoop_sameFlags _ s s' h)
  | notifyNewEntityCreation entityType entityId =>
    simp only [ServerOp.exec, Option.some.injEq] at h
    subst h
    exact steady_of_sameFlags ⟨rfl, rfl, rfl, rfl, rfl, rfl⟩
  | notifyEntityDeath entityId =>
    simp only [ServerOp.exec, Option.some.injEq] at h
    subst h
    exact steady_of_sameFlags ⟨rfl, rfl, rfl, rfl, rfl, rfl⟩
  | startGame u => exact startGame_steady s s' u h
  | updateGameState dt rand => exact updateGameState_steady s s' dt rand h
  | handlePlayerCollision entityId =>
    simp only [ServerOp.exec, Option.some.injEq] at h
    subst h
    exact handlePlayerCollision_steady s entityId
  | sendUpdates =>
    simp only [ServerOp.exec, Option.some.injEq] at h
    subst h
    exact steady_of_sameFlags (sendUpdates_sameFlags s)
  | runIteration dt rand => exact runIteration_steady s s' dt rand h
  | onRead i uninit receivedData =>
    simp only [ServerOp.exec, Option.some.injEq] at h
    subst h
    exact steady_of_sameFlags ⟨rfl, rfl, rfl, rfl, rfl, rfl⟩

theorem runOps_steady (ops : List ServerOp) :
    ∀ s s' : Server, runOps s ops = some s' → Steady s s' := by
  induction ops with
  | nil =>
    intro s s' h
    simp only [runOps, Option.some.injEq] at h
    subst h
    exact steady_refl s
  | cons op ops ih =>
    intro s s' h
    simp only [runOps] at h
    cases h1 : op.exec s with
    | none => simp [h1] at h
    | some s1 =>
      simp only [h1] at h
      exact steady_trans (exec_steady s s1 op h1) (ih s1 s' h)

/-! ## The order of the systems -/

/-- With the movement system registered before a collision system, `updateGameState` is the
update of the movement system, the update of the collision system on the map the movement
system leaves, and then the callbacks the collision system invoked. -/
theorem updateGameState_movement_collision (s : Server) (cs : CollisionSystem)
    (h : s.registry.systems_ = [.enemyMovement serverMovementSystem, .collision cs]) (dt : ℚ)
    (rand : Int → UnitSample) :
    s.updateGameState dt rand
      = match serverMovementSystem.update dt rand s.registry.components_ with
        | none => none
        | some moved =>
          some ((cs.update dt moved).2.2.foldl
            (fun s call => (s.handlePlayerCollision call.playerId).1)
            { s with registry := { s.registry with
                systems_ := [.enemyMovement serverMovementSystem,
                             .collision (cs.update dt moved).1],
                components_ := (cs.update dt moved).2.1 } }) := by
  unfold Server.updateGameState
  rw [updateSystems_movement_collision s.registry _ cs h]
  cases serverMovementSystem.update dt rand s.registry.components_ <;> rfl

/-- C13: the systems run in registration order, movement before collision.  `addSystem`
appends, and the loop of `updateSystems` updates the first registered system first and the
others on the map it leaves.  The server registers the movement system and then the collision
system, whatever clients its manager accepts, and no operation changes this.  So in every
state reached by any operations from a server with these two systems (the new server, or the
server with its clients connected), one `updateSystems(dt)` is the update of the movement
system followed by the update of the collision system on the map the movement system
produced, and one `updateGameState(dt)` performs the callbacks of that update of the
collision system: the callback invocations of the tick are those the collision system
makes on the positions after the movement of that tick. -/
theorem C13_movement_then_collision :
    (∀ (r : Registry) (a b : System),
      ((r.addSystem a).addSystem b).systems_ = r.systems_ ++ [a, b]) ∧
    (∀ (dt : ℚ) (rand : Int → UnitSample) (system : System) (rest : List System)
      (components : ComponentMap),
      Registry.updateSystemsLoop dt rand (system :: rest) components
        = match system.update dt rand components with
          | none => none
          | some r =>
            match Registry.updateSystemsLoop dt rand rest r.2.1 with
            | none => none
            | some t => some (r.1 :: t.1, t.2.1, r.2.2 ++ t.2.2)) ∧
    (∀ (maxPlayers : Int) (ops : List ServerOp) (s : Server) (dt : ℚ)
      (rand : Int → UnitSample), runOps (Server.new maxPlayers) ops = some s →
      ∃ cs, s.registry.systems_ = [.enemyMovement serverMovementSystem, .collision cs] ∧
        s.registry.updateSystems dt rand
          = match serverMovementSystem.update dt rand s.registry.components_ with
            | none => none
            | some moved =>
              some ({ s.registry with
                        systems_ := [.enemyMovement serverMovementSystem,
                                     .collision (cs.update dt moved).1],
                        components_ := (cs.update dt moved).2.1 },
                    (cs.update dt moved).2.2)) ∧
    (∀ (maxPlayers : Int) (cm : ConnectionManager),
      ServerSystems { Server.new maxPlayers with connectionManager_ := cm }) ∧
    (∀ (s0 s : Server) (ops : List ServerOp) (dt : ℚ) (rand : Int → UnitSample),
      ServerSystems s0 → runOps s0 ops = some s →
      ∃ cs, s.registry.systems_ = [.enemyMovement serverMovementSystem, .collision cs] ∧
        s.registry.updateSystems dt rand
          = (match serverMovementSystem.update dt rand s.registry.components_ with
            | none => none
            | some moved =>
              some ({ s.registry with
                        systems_ := [.enemyMovement serverMovementSystem,
                                     .collision (cs.update dt moved).1],
                        components_ := (cs.update dt moved).2.1 },
                    (cs.update dt moved).2.2)) ∧
        s.updateGameState dt rand
          = (match serverMovementSystem.update dt rand s.registry.components_ with
            | none => none
            | some moved =>
              some ((cs.update dt moved).2.2.foldl
                (fun s call => (s.handlePlayerCollision call.playerId).1)
                { s with registry := { s.registry with
                    systems_ := [.enemyMovement serverMovementSystem,
                                 .collision (cs.update dt moved).1],
                    components_ := (cs.update dt moved).2.1 } }))) := by
  refine ⟨fun r a b => ?_, fun dt rand system rest components => rfl, ?_,
    fun maxPlayers cm => ⟨_, new_systems maxPlayers⟩, ?_⟩
  · simp [Registry.addSystem]
  · intro maxPlayers ops s dt rand h
    obtain ⟨cs, hcs⟩ := (runOps_steady ops _ s h).2.2 ⟨_, new_systems maxPlayers⟩
    exact ⟨cs, hcs, updateSystems_movement_collision s.registry _ cs hcs dt rand⟩
  · intro s0 s ops dt rand h0 h
    obtain ⟨cs, hcs⟩ := (runOps_steady ops s0 s h).2.2 h0
    exact ⟨cs, hcs, updateSystems_movement_collision s.registry _ cs hcs dt rand,
      updateGameState_movement_collision s cs hcs dt rand⟩

/-- C13, at a tick that the order decides.  The server with the clients 1 and 2 starts the
game, creates the enemy 3 at `(1920, 250)` and runs one tick of `25/4` seconds, which leaves
the enemy at `(45, 250)`: its box does not touch the box of the player 1 at `(0, 250)`.  In
the next tick, of `1/30` second, the movement brings the enemy to `(35, 250)` and the
collision system, run on that map, invokes the callback for the player 1 and the enemy 3:
`updateGameState` eliminates client 1 in this very tick. -/
theorem C13_movement_then_collision_witness :
    (∃ cs, facingServer.registry.systems_
        = [.enemyMovement serverMovementSystem, .collision cs] ∧
      facingServer.registry.updateSystems (1 / 30) (fun _ => halfSample)
        = (match serverMovementSystem.update (1 / 30) (fun _ => halfSample)
            facingServer.registry.components_ with
          | none => none
          | some moved =>
            some ({ facingServer.registry with
                      systems_ := [.enemyMovement serverMovementSystem,
                                   .collision (cs.update (1 / 30) moved).1],
                      components_ := (cs.update (1 / 30) moved).2.1 },
                  (cs.update (1 / 30) moved).2.2)) ∧
      facingServer.updateGameState (1 / 30) (fun _ => halfSample)
        = (match serverMovementSystem.update (1 / 30) (fun _ => halfSample)
            facingServer.registry.components_ with
          | none => none
          | some moved =>
            some ((cs.update (1 / 30) moved).2.2.foldl
              (fun s call => (s.handlePlayerCollision call.playerId).1)
              { facingServer with registry := { facingServer.registry with
                  systems_ := [.enemyMovement serverMovementSystem,
                               .collision (cs.update (1 / 30) moved).1],
                  components_ := (cs.update (1 / 30) moved).2.1 } }))) ∧
    facingServer.gameStarted = true ∧ facingServer.activeEnemies = [3] ∧
    facingServer.registry.getComponent Kind.Position ⟨1⟩ = some (.position ⟨0, 250⟩) ∧
    facingServer.registry.getComponent Kind.Position ⟨3⟩ = some (.position ⟨45, 250⟩) ∧
    overlapIn facingServer.registry.components_ 1 3 = false ∧
    (facingServer.registry.updateSystems (1 / 30) (fun _ => halfSample)).map
      (fun r => (r.1.getComponent Kind.Position ⟨3⟩, r.2))
      = some (some (.position ⟨35, 250⟩), [⟨1, 3⟩]) ∧
    (facingServer.updateGameState (1 / 30) (fun _ => halfSample)).map Server.clientIds
      = some [2] :=
  ⟨C13_movement_then_collision.2.2.2.2 twoClientServer facingServer
      [.startGame halfSample, .createEnemy playerRowSample,
       .updateGameState (25 / 4) (fun _ => halfSample)] (1 / 30) (fun _ => halfSample)
      (C13_movement_then_collision.2.2.2.1 2 ⟨[connectedClient 1, connectedClient 2], 2⟩)
      (by decide!),
   by decide!, by decide!, by decide!, by decide!, by decide!, by decide!, by decide!⟩

/-! ## Termination -/

/-- The running flag after `handlePlayerCollision`: false when no client is left, unchanged
otherwise. -/
theorem handlePlayerCollision_isRunning (s : Server) (entityId : Int) :
    (s.handlePlayerCollision entityId).1.isRunning
      = (if (s.handlePlayerCollision entityId).1.connectionManager_.clients_.isEmpty
          then false else s.isRunning) := by
  cases hf : Server.findClient entityId s.connectionManager_.clients_ with
  | none =>
    rw [handlePlayerCollision_not_found s entityId hf]
    dsimp only
    by_cases he : s.connectionManager_.clients_.isEmpty = true <;> simp [he]
  | some r =>
    obtain ⟨_, _, hcl, hrun, _, _, _⟩ := handlePlayerCollision_found s entityId r.1 r.2 hf
    rw [hrun, hcl]
    simp only [List.isEmpty_eq_true, List.map_eq_nil_iff]

theorem erase_first_found (entityId : Int) (l : List Client) :
    ∀ (i : Nat) (c : Client), Server.findClient entityId l = some (i, c) →
      (l.eraseIdx i).map Client.getId = (l.map Client.getId).erase entityId := by
  induction l with
  | nil => intro i c h; simp [Server.findClient] at h
  | cons a l ih =>
    intro i c h
    unfold Server.findClient at h
    split_ifs at h with ha
    · simp only [Option.some.injEq, Prod.mk.injEq] at h
      obtain ⟨hi, _⟩ := h
      subst hi
      simp [ha]
    · cases hr : Server.findClient entityId l with
      | none => simp [hr] at h
      | some r =>
        simp only [hr, Option.some.injEq, Prod.mk.injEq] at h
        obtain ⟨hi, _⟩ := h
        subst hi
        have := ih r.1 r.2 hr
        simp only [List.eraseIdx_cons_succ, List.map_cons, this]
        rw [List.erase_cons_tail]
        simpa using ha

/-- The ids of the clients after `handlePlayerCollision(entityId)`: the first occurrence of
the id is removed. -/
theorem handlePlayerCollision_clientIds (s : Server) (entityId : Int) :
    (s.handlePlayerCollision entityId).1.clientIds = s.clientIds.erase entityId := by
  cases hf : Server.findClient entityId s.connectionManager_.clients_ with
  | none =>
    rw [handlePlayerCollision_not_found s entityId hf]
    have hnot : entityId ∉ s.clientIds := by
      intro hmem
      obtain ⟨c, hc, hid⟩ := List.mem_map.mp hmem
      exact findClient_none entityId _ hf c hc hid
    rw [List.erase_of_not_mem hnot]
    dsimp only
    split_ifs <;> rfl
  | some r =>
    obtain ⟨_, _, hcl, _, _, _, _⟩ := handlePlayerCollision_found s entityId r.1 r.2 hf
    unfold Server.clientIds
    rw [hcl, List.map_map, ← erase_first_found entityId _ r.1 r.2 hf]
    apply List.map_congr_left
    intro c _
    exact (send_fields c _).2.1

theorem foldl_erase_nil (ids : List Int) :
    ∀ l : List Int, l.Nodup → (∀ x ∈ l, x ∈ ids) → ids.foldl (fun l id => l.erase id) l = [] := by
  induction ids with
  | nil =>
    intro l _ hall
    cases l with
    | nil => rfl
    | cons x xs => exact absurd (hall x (List.mem_cons_self _ _)) (by simp)
  | cons id ids ih =>
    intro l hnd hall
    simp only [List.foldl_cons]
    apply ih _ (hnd.erase id)
    intro x hx
    have hx2 := (List.Nodup.mem_erase_iff hnd).mp hx
    rcases List.mem_cons.mp (hall x hx2.2) with h | h
    · exact absurd h hx2.1
    · exact h

theorem eliminateAll_clientIds (ids : List Int) :
    ∀ s : Server, (eliminateAll s ids).clientIds
      = ids.foldl (fun l id => l.erase id) s.clientIds := by
  induction ids with
  | nil => intro s; rfl
  | cons id ids ih =>
    intro s
    unfold eliminateAll at ih ⊢
    simp only [List.foldl_cons]
    rw [ih, handlePlayerCollision_clientIds]

theorem eliminateAll_isRunning (ids : List Int) (hne : ids ≠ []) :
    ∀ s : Server, (eliminateAll s ids).connectionManager_.clients_ = [] →
      (eliminateAll s ids).isRunning = false := by
  induction ids with
  | nil => exact absurd rfl hne
  | cons id ids ih =>
    intro s hempty
    cases ids with
    | nil =>
      unfold eliminateAll at hempty ⊢
      simp only [List.foldl_cons, List.foldl_nil] at hempty ⊢
      rw [handlePlayerCollision_isRunning, hempty]
      rfl
    | cons id2 rest =>
      have := ih (by simp) (s.handlePlayerCollision id).1
      unfold eliminateAll at this hempty ⊢
      simp only [List.foldl_cons] at this hempty ⊢
      exact this hempty

theorem run_of_not_running (inputs : List (ℚ × (Int → UnitSample))) (s : Server)
    (h : s.isRunning = false) : Server.run inputs s = some (s, true) := by
  cases inputs with
  | nil => simp [Server.run, h]
  | cons input rest => simp [Server.run, h]

/-- C17: termination.  After any call of `handlePlayerCollision` the running flag is false if
the client list is empty and is otherwise what it was.  After `handlePlayerCollision` has
been called for the ids of all the clients (their ids being distinct) the client list is
empty and the flag is false.  No operation of the server turns a false flag into a true
one, and with a false flag the loop of `run` exits. -/
theorem C17_termination :
    (∀ (s : Server) (entityId : Int),
      (s.handlePlayerCollision entityId).1.isRunning
        = (if (s.handlePlayerCollision entityId).1.connectionManager_.clients_.isEmpty
            then false else s.isRunning)) ∧
    (∀ (s : Server) (ids : List Int), ids ≠ [] → s.clientIds.Nodup →
      (∀ c ∈ s.connectionManager_.clients_, c.getId ∈ ids) →
      (eliminateAll s ids).connectionManager_.clients_ = [] ∧
      (eliminateAll s ids).isRunning = false ∧
      ∀ inputs, Server.run inputs (eliminateAll s ids) = some (eliminateAll s ids, true)) ∧
    (∀ (s s' : Server) (ops : List ServerOp), s.isRunning = false → runOps s ops = some s' →
      s'.isRunning = false) ∧
    (∀ (inputs : List (ℚ × (Int → UnitSample))) (s : Server), s.isRunning = false →
      Server.run inputs s = some (s, true)) := by
  refine ⟨handlePlayerCollision_isRunning, ?_, ?_, run_of_not_running⟩
  · intro s ids hne hnd hall
    have hids : (eliminateAll s ids).clientIds = [] := by
      rw [eliminateAll_clientIds]
      apply foldl_erase_nil ids _ hnd
      intro x hx
      obtain ⟨c, hc, rfl⟩ := List.mem_map.mp hx
      exact hall c hc
    have hcl : (eliminateAll s ids).connectionManager_.clients_ = [] := by
      unfold Server.clientIds at hids
      exact List.map_eq_nil_iff.mp hids
    have hrun := eliminateAll_isRunning ids hne s hcl
    exact ⟨hcl, hrun, fun inputs => run_of_not_running inputs _ hrun⟩
  · intro s s' ops hfalse h
    have := (runOps_steady ops s s' h).1
    cases hr : s'.isRunning with
    | false => rfl
    | true => rw [this hr] at hfalse; exact absurd hfalse (by simp)

/-- C17, at a concrete server: after the collisions of the players 2 and 1 no client is left,
the flag is false, and a later `createEnemy` or `sendUpdates` does not set it. -/
theorem C17_termination_witness :
    ((eliminateAll playingServer [2, 1]).connectionManager_.clients_ = [] ∧
      (eliminateAll playingServer [2, 1]).isRunning = false ∧
      ∀ inputs, Server.run inputs (eliminateAll playingServer [2, 1])
        = some (eliminateAll playingServer [2, 1], true)) ∧
    (runOps (eliminateAll playingServer [2, 1]) [.createEnemy halfSample, .sendUpdates]).map
      (fun s => s.isRunning) = some false := by
  refine ⟨C17_termination.2.1 playingServer [2, 1] (by decide) (by decide!) (by decide!), ?_⟩
  cases h : runOps (eliminateAll playingServer [2, 1])
      [.createEnemy halfSample, .sendUpdates] with
  | none => exact absurd h (by decide!)
  | some s' =>
    have := C17_termination.2.2.1 (eliminateAll playingServer [2, 1]) s'
      [.createEnemy halfSample, .sendUpdates] (by decide!) h
    simp [this]

/-! ## Spawning enemies -/

theorem mem_setInsert (x : Int) (l : List Int) : x ∈ setInsert x l := by
  induction l with
  | nil => simp [setInsert]
  | cons y ys ih =>
    unfold setInsert
    split_ifs with h1 h2
    · simp
    · simp [h2]
    · exact List.mem_cons_of_mem _ ih

/-- The call `createEnemy` when its test fails: nothing changes. -/
theorem createEnemy_skip (s : Server) (u : UnitSample)
    (h : ¬ (s.gameStarted = true ∧ s.activeEnemies.length < 5)) : s.createEnemy u = s := by
  unfold Server.createEnemy
  rw [if_neg]
  intro hg
  apply h
  refine ⟨hg.1, ?_⟩
  have := hg.2
  unfold GameUtilities.MAX_ENEMIES at this
  omega

/-- The call `createEnemy` when its test succeeds. -/
theorem createEnemy_spawn (s : Server) (u : UnitSample) (hg : s.gameStarted = true)
    (hlen : s.activeEnemies.length < 5) :
    (s.createEnemy u).registry.entities_
      = s.registry.entities_ ++ [⟨s.registry.nextEntityId⟩] ∧
    (s.createEnemy u).registry.components_.find (Kind.Position, s.registry.nextEntityId)
      = some (some (.position ⟨1920, RandomUtilities.getRandomY 950 u⟩)) ∧
    (s.createEnemy u).registry.components_.find (Kind.Hitbox, s.registry.nextEntityId)
      = some (some (.hitbox ⟨50, 50⟩)) ∧
    (∀ key : Key, key.1 = Kind.Player ∨ key.2 ≠ s.registry.nextEntityId →
      (s.createEnemy u).registry.components_.find key = s.registry.components_.find key) ∧
    (s.createEnemy u).activeEnemies = setInsert s.registry.nextEntityId s.activeEnemies ∧
    (s.createEnemy u).registry.systems_
      = (Server.updateEnemyEntityIds s.registry
          (setInsert s.registry.nextEntityId s.activeEnemies)).systems_ ∧
    (s.createEnemy u).connectionManager_.clients_ = s.connectionManager_.clients_.map
      (fun c => c.send (newEntityMessage "Enemy".toList s.registry.nextEntityId)) ∧
    (s.createEnemy u).isRunning = s.isRunning ∧
    (s.createEnemy u).gameStarted = s.gameStarted := by
  have hguard : s.gameStarted = true ∧
      (s.activeEnemies.length : Int) < GameUtilities.MAX_ENEMIES := by
    refine ⟨hg, ?_⟩
    unfold GameUtilities.MAX_ENEMIES
    omega
  unfold Server.createEnemy
  rw [if_pos hguard]
  refine ⟨rfl, ?_, ?_, ?_, rfl, rfl, rfl, rfl, rfl⟩
  · simp only [Server.notifyNewEntityCreation, Server.updateEnemyEntityIds,
      Registry.addComponent, Registry.createEntity, Entity.id, Component.kind]
    rw [find_assign_other _ _ _ _ (by simp), find_assign_same]
    simp only [GameUtilities.SCREEN_WIDTH, GameUtilities.SCREEN_HEIGHT,
      GameUtilities.ENEMY_HEIGHT]
    norm_num
  · simp only [Server.notifyNewEntityCreation, Server.updateEnemyEntityIds,
      Registry.addComponent, Registry.createEntity, Entity.id, Component.kind]
    rw [find_assign_same]
    rfl
  · intro key hkey
    simp only [Server.notifyNewEntityCreation, Server.updateEnemyEntityIds,
      Registry.addComponent, Registry.createEntity, Entity.id, Component.kind]
    rw [find_assign_other, find_assign_other]
    all_goals
      intro heq
      rcases hkey with hk | hk
      · rw [heq] at hk
        exact absurd hk (by simp)
      · exact hk (by rw [heq])

/-- When `startGame` is called before the game has started, as it is, its call of
`createEnemy` does nothing: the roster is what it was. -/
theorem startGame_roster (s s' : Server) (u : UnitSample) (hg : s.gameStarted = false)
    (h : s.startGame u = some s') :
    s'.activeEnemies = s.activeEnemies ∧ s'.gameStarted = true := by
  unfold Server.startGame at h
  cases h1 : s.createPlayers with
  | none => simp [h1] at h
  | some s1 =>
    simp only [h1, Option.some.injEq] at h
    subst h
    have hflags := createPlayersLoop_sameFlags _ s s1 h1
    have hg1 : s1.gameStarted = false := by rw [hflags.2.1]; exact hg
    rw [createEnemy_skip s1 u (by rw [hg1]; simp)]
    exact ⟨hflags.2.2.1, rfl⟩

/-! ## The enemy claims -/

/-- C18: the enemy cap.  `createEnemy` changes nothing unless the game has started and the
roster holds fewer than 5 ids.  Otherwise it creates one entity, with the next id, gives it
the position `(1920, y)` with `0 ≤ y ≤ 950` and a hitbox of 50 x 50, writes no `Player`
entry (so the new entity has no player component when the id was unused), inserts the id in
the roster and hands the roster to the collision system.  Hence after any sequence of
operations on a server whose roster holds at most 5 ids, as the new server's empty roster
does, the roster holds at most 5 ids. -/
theorem C18_enemy_cap :
    (∀ (s : Server) (u : UnitSample),
      ¬ (s.gameStarted = true ∧ s.activeEnemies.length < 5) → s.createEnemy u = s) ∧
    (∀ (s : Server) (u : UnitSample), s.gameStarted = true → s.activeEnemies.length < 5 →
      (s.createEnemy u).registry.entities_
        = s.registry.entities_ ++ [⟨s.registry.nextEntityId⟩] ∧
      (∃ y : ℚ, 0 ≤ y ∧ y ≤ 950 ∧
        (s.createEnemy u).registry.getComponent Kind.Position ⟨s.registry.nextEntityId⟩
          = some (.position ⟨1920, y⟩)) ∧
      (s.createEnemy u).registry.getComponent Kind.Hitbox ⟨s.registry.nextEntityId⟩
        = some (.hitbox ⟨50, 50⟩) ∧
      (∀ entity : Entity, (s.createEnemy u).registry.getComponent Kind.Player entity
        = s.registry.getComponent Kind.Player entity) ∧
      (s.registry.components_.find (Kind.Player, s.registry.nextEntityId) = none →
        (s.createEnemy u).registry.getComponent Kind.Player ⟨s.registry.nextEntityId⟩ = none) ∧
      (s.createEnemy u).activeEnemies = setInsert s.registry.nextEntityId s.activeEnemies ∧
      s.registry.nextEntityId ∈ (s.createEnemy u).activeEnemies ∧
      (∀ cs, s.registry.systems_ = [.enemyMovement serverMovementSystem, .collision cs] →
        (s.createEnemy u).registry.systems_ = [.enemyMovement serverMovementSystem,
          .collision (cs.updateEnemyEntityIds (s.createEnemy u).activeEnemies)])) ∧
    (∀ (s s' : Server) (ops : List ServerOp), s.activeEnemies.length ≤ 5 →
      runOps s ops = some s' → s'.activeEnemies.length ≤ 5) ∧
    (∀ maxPlayers : Int, (Server.new maxPlayers).activeEnemies = []) ∧
    GameUtilities.MAX_ENEMIES = 5 := by
  refine ⟨createEnemy_skip, ?_, fun s s' ops h5 h => (runOps_steady ops s s' h).2.1 h5,
    fun _ => rfl, rfl⟩
  intro s u hg hlen
  obtain ⟨hent, hpos, hhb, hframe, hact, hsys, _, _, _⟩ := createEnemy_spawn s u hg hlen
  have hplayer : ∀ entity : Entity, (s.createEnemy u).registry.getComponent Kind.Player entity
      = s.registry.getComponent Kind.Player entity := by
    intro entity
    unfold Registry.getComponent
    rw [hframe (Kind.Player, entity.id) (Or.inl rfl)]
  refine ⟨hent, ⟨_, ?_, ?_, getComponent_eq_of_find _ _ ⟨_⟩ _ hpos⟩,
    getComponent_eq_of_find _ _ ⟨_⟩ _ hhb, hplayer, ?_, hact, ?_, ?_⟩
  · exact (uniformReal_bounds 950 u (by norm_num)).1
  · exact (uniformReal_bounds 950 u (by norm_num)).2
  · intro hnone
    rw [hplayer]
    unfold Registry.getComponent
    simp only [Entity.id]
    rw [hnone]
  · rw [hact]
    exact mem_setInsert _ _
  · intro cs hcs
    rw [hsys, hact]
    exact updateEnemyEntityIds_systems _ _ cs hcs

/-- C18, at a concrete server: after `startGame` a call of `createEnemy` creates entity 3,
and after seven calls the roster holds no more than five ids. -/
theorem C18_enemy_cap_witness :
    (startedServer.createEnemy halfSample).registry.entities_
        = startedServer.registry.entities_ ++ [⟨startedServer.registry.nextEntityId⟩] ∧
    (∀ s', runOps startedServer (List.replicate 7 (.createEnemy halfSample)) = some s' →
      s'.activeEnemies.length ≤ 5) :=
  ⟨(C18_enemy_cap.2.1 startedServer halfSample (by decide!) (by decide!)).1,
   fun s' h => C18_enemy_cap.2.2.1 startedServer s' _ (by decide!) h⟩

/-- C19 (the code at the failing input): `startGame` on the server with the two connected
clients 1 and 2.  When it returns the game is started, the entities are the two players, the
roster of enemies is empty, and the queue of each client holds the two `Player` messages and
no `Enemy` message: the call of `createEnemy` in `startGame` precedes `gameStarted = true`
and so does nothing. -/
theorem C19_startGame_spawns_no_enemy :
    twoClientServer.startGame halfSample = some startedServer ∧
    startedServer.gameStarted = true ∧
    startedServer.activeEnemies = [] ∧
    startedServer.registry.entities_.map Entity.id = [1, 2] ∧
    startedServer.connectionManager_.clients_.map (fun c => c.outgoingMessages)
      = [["220 Player 1;".toList, "220 Player 2;".toList],
         ["220 Player 1;".toList, "220 Player 2;".toList]] := by
  decide!

/-! ## Decoding any buffer -/

/-- Decoding a buffer whose first character after the leading whitespace exists and does not
start an integer (after an optional sign no digit follows): the extraction fails, the type is
`0` and the content stays empty. -/
theorem deserialize_no_integer (uninit : Int) (data : List Char) (hne : skipWs data ≠ [])
    (hnd : takeDigits (takeSign (skipWs data)).2 = []) :
    Message.deserialize uninit data = ⟨⟨0⟩, []⟩ := by
  simp [Message.deserialize, extractInt, hne, hnd, ignore, getline]

/-! ## The claim on decoding -/

/-- C30 (as stated, refuted): in the buffer `999 a<newline>b` the content is cut at the
newline; in the buffer `99999999999 x` the integer does not fit an `int`, the type is the
largest `int` and the content is empty; and for a buffer that holds one space, which has no
leading integer, the type is not `0` but what the local `messageType` happened to hold
(here `7`). -/
theorem C30_deserialize_not_as_stated :
    (Message.deserialize 0 "999 a\nb".toList).content ≠ "a\nb".toList ∧
    Message.deserialize 0 "99999999999 x".toList = ⟨⟨2147483647⟩, []⟩ ∧
    (Message.deserialize 7 " ".toList).type.code ≠ 0 := by
  decide

/-- C30 (amended): `deserialize` returns a message for every buffer.  For a buffer made of an
integer token `k` (an optional minus sign and at least one digit) that fits a 32-bit `int`,
one character that is not a digit and a rest `c` without newline, the type has the value `k`,
whether or not `k` is one of the five codes, and the content is `c`.  For a buffer whose first
character after the leading whitespace exists and does not start an integer, the type has
the value `0` and the content is empty. -/
theorem C30_deserialize_total (uninit : Int) :
    (∀ (neg : Bool) (ds : List Char) (sep : Char) (c : List Char), ds ≠ [] →
      (∀ d ∈ ds, d.isDigit = true) → sep.isDigit = false →
      INT_MIN ≤ signedValue neg ds → signedValue neg ds ≤ INT_MAX → '\n' ∉ c →
      Message.deserialize uninit (signChars neg ++ ds ++ sep :: c)
        = ⟨⟨signedValue neg ds⟩, c⟩) ∧
    (∀ data : List Char, skipWs data ≠ [] → takeDigits (takeSign (skipWs data)).2 = [] →
      Message.deserialize uninit data = ⟨⟨0⟩, []⟩) := by
  refine ⟨fun neg ds sep c hne hds hsep hlo hhi hnl => ?_, deserialize_no_integer uninit⟩
  rw [deserialize_token uninit neg ds sep c hne hds hsep hlo hhi,
    takeLine_of_no_newline c hnl]

/-- C30 (amended), at the buffers `999 x` and `UP`: the first decodes to the type `999`, which
is none of the five codes, with the content `x`; the second to the type `0` with an empty
content. -/
theorem C30_deserialize_total_witness :
    (⟨999⟩ : RFC) ∉ RFC.known ∧
    Message.deserialize 5 (signChars false ++ "999".toList ++ ' ' :: "x".toList)
      = ⟨⟨signedValue false "999".toList⟩, "x".toList⟩ ∧
    Message.deserialize 5 "UP".toList = ⟨⟨0⟩, []⟩ :=
  ⟨by decide,
   (C30_deserialize_total 5).1 false "999".toList ' ' "x".toList (by decide) (by decide)
     (by decide) (by decide) (by decide) (by decide),
   (C30_deserialize_total 5).2 "UP".toList (by decide) (by decide)⟩

/-! ## Inputs by their content -/

theorem applyInput_up (pos : PositionComponent) (msg : Message)
    (h : msg.content = "UP".toList) :
    Server.applyInput pos msg = if pos.y - 10 > 0 then ⟨pos.x, pos.y - 10⟩ else pos := by
  have h1 : "UP".toList ≠ "DOWN".toList := by decide
  have h2 : "UP".toList ≠ "LEFT".toList := by decide
  have h3 : "UP".toList ≠ "RIGHT".toList := by decide
  unfold Server.applyInput
  rw [h]
  simp only [h1, h2, h3, false_and, if_false, true_and, Server.moveStep]

theorem applyInput_down (pos : PositionComponent) (msg : Message)
    (h : msg.content = "DOWN".toList) :
    Server.applyInput pos msg
      = if pos.y + 30 + 10 < 1000 then ⟨pos.x, pos.y + 10⟩ else pos := by
  have h1 : "DOWN".toList ≠ "UP".toList := by decide
  have h2 : "DOWN".toList ≠ "LEFT".toList := by decide
  have h3 : "DOWN".toList ≠ "RIGHT".toList := by decide
  unfold Server.applyInput
  rw [h]
  simp only [h1, h2, h3, false_and, if_false, true_and, Server.moveStep,
    GameUtilities.PLAYER_HEIGHT, GameUtilities.SCREEN_HEIGHT, Int.cast_ofNat]

theorem applyInput_left (pos : PositionComponent) (msg : Message)
    (h : msg.content = "LEFT".toList) :
    Server.applyInput pos msg = if pos.x - 10 > 0 then ⟨pos.x - 10, pos.y⟩ else pos := by
  have h1 : "LEFT".toList ≠ "UP".toList := by decide
  have h2 : "LEFT".toList ≠ "DOWN".toList := by decide
  have h3 : "LEFT".toList ≠ "RIGHT".toList := by decide
  unfold Server.applyInput
  rw [h]
  simp only [h1, h2, h3, false_and, if_false, true_and, Server.moveStep]

theorem applyInput_other (pos : PositionComponent) (msg : Message)
    (h1 : msg.content ≠ "UP".toList) (h2 : msg.content ≠ "DOWN".toList)
    (h3 : msg.content ≠ "LEFT".toList) (h4 : msg.content ≠ "RIGHT".toList) :
    Server.applyInput pos msg = pos := by
  unfold Server.applyInput
  simp only [h1, h2, h3, h4, false_and, if_false]

theorem processClientInputs_queues (s : Server) :
    s.processClientInputs.connectionManager_.clients_
      = s.connectionManager_.clients_.map (fun c => { c with received_messages := [] }) := by
  unfold Server.processClientInputs
  exact (processClients_rest _ _).2.2.2

/-! ## The claim on the content of an input -/

/-- C29: what an inbound message does depends on its content only.  The chain of tests of
`processClientInputs` gives the same position for two messages of the same content, whatever
their type codes.  For the content `UP`, `DOWN`, `LEFT` or `RIGHT` one coordinate moves by
exactly 10 when the test on the bound passes and nothing moves when it fails; for any other
content the position is unchanged, as for `UP210 DOWN`, the content decoded from one read
that holds two inputs.  Every message is taken from its queue: after `processClientInputs`
the queue of received messages of every connection is empty, and the position of a client
(the ids of the clients being distinct) is its old position moved by its messages in
order. -/
theorem C29_input_by_content :
    (∀ (pos : PositionComponent) (t t' : RFC) (c : List Char),
      Server.applyInput pos ⟨t, c⟩ = Server.applyInput pos ⟨t', c⟩) ∧
    (∀ (pos : PositionComponent) (msg : Message),
      (msg.content = "UP".toList → Server.applyInput pos msg
        = if pos.y - 10 > 0 then ⟨pos.x, pos.y - 10⟩ else pos) ∧
      (msg.content = "DOWN".toList → Server.applyInput pos msg
        = if pos.y + 30 + 10 < 1000 then ⟨pos.x, pos.y + 10⟩ else pos) ∧
      (msg.content = "LEFT".toList → Server.applyInput pos msg
        = if pos.x - 10 > 0 then ⟨pos.x - 10, pos.y⟩ else pos) ∧
      (msg.content = "RIGHT".toList → Server.applyInput pos msg
        = if pos.x + 40 + 10 < 1920 then ⟨pos.x + 10, pos.y⟩ else pos) ∧
      (msg.content ≠ "UP".toList → msg.content ≠ "DOWN".toList →
        msg.content ≠ "LEFT".toList → msg.content ≠ "RIGHT".toList →
        Server.applyInput pos msg = pos)) ∧
    (∀ (uninit : Int) (pos : PositionComponent),
      Message.deserialize uninit "210 UP210 DOWN".toList = ⟨RFC.INPUT, "UP210 DOWN".toList⟩ ∧
      Server.applyInput pos ⟨RFC.INPUT, "UP210 DOWN".toList⟩ = pos) ∧
    (∀ (s : Server), ∀ c ∈ s.processClientInputs.connectionManager_.clients_,
      c.received_messages = [] ∧ c.hasReceivedMessages = false) ∧
    (∀ (s : Server) (c : Client) (pos : PositionComponent), s.clientIds.Nodup →
      c ∈ s.connectionManager_.clients_ →
      s.registry.getComponent Kind.Position ⟨c.getId⟩ = some (.position pos) →
      s.processClientInputs.registry.getComponent Kind.Position ⟨c.getId⟩
        = some (.position (c.received_messages.foldl Server.applyInput pos))) := by
  refine ⟨fun pos t t' c => rfl, fun pos msg => ⟨applyInput_up pos msg, applyInput_down pos msg,
    applyInput_left pos msg, applyInput_right pos msg, applyInput_other pos msg⟩,
    fun uninit pos => ⟨?_, ?_⟩, fun s c hc => ?_,
    fun s c pos hnd hc hpos => processClientInputs_position s c pos hnd hc hpos⟩
  · exact deserialize_token uninit false "210".toList ' ' "UP210 DOWN".toList
      (by decide) (by decide) (by decide) (by decide) (by decide)
  · exact applyInput_other pos _ (by decide) (by decide) (by decide) (by decide)
  · rw [processClientInputs_queues] at hc
    obtain ⟨c0, _, rfl⟩ := List.mem_map.mp hc
    exact ⟨rfl, rfl⟩

/-- C29, at a concrete server: the message `RIGHT` of client 1 moves its player from
`(0, 250)` to `(10, 250)` and is taken from the queue; the same content under the type code
`999` would move it alike. -/
theorem C29_input_by_content_witness :
    playingServer.processClientInputs.registry.getComponent Kind.Position ⟨1⟩
      = some (.position ([(⟨RFC.INPUT, "RIGHT".toList⟩ : Message)].foldl
          Server.applyInput ⟨0, 250⟩)) ∧
    Server.applyInput ⟨0, 250⟩ ⟨⟨999⟩, "RIGHT".toList⟩
      = (if (0 : ℚ) + 40 + 10 < 1920 then ⟨0 + 10, 250⟩ else ⟨0, 250⟩) :=
  ⟨C29_input_by_content.2.2.2.2 playingServer firstPlayingClient ⟨0, 250⟩
      (by decide!) (by decide!) (by decide!),
   (C29_input_by_content.2.1 ⟨0, 250⟩ ⟨⟨999⟩, "RIGHT".toList⟩).2.2.2.1 (by decide)⟩

/-! ## The snapshot -/

/-- The loop of `sendUpdates` over the entities adds, entity by entity, what the protocol
describes. -/
theorem updateContent_eq (registry : Registry) (entities : List Entity) :
    Server.updateContent registry entities = (entities.map (snapshotEntry registry)).flatten := by
  induction entities with
  | nil => rfl
  | cons entity rest ih =>
    simp only [Server.updateContent, List.map_cons, List.flatten_cons, ih]
    congr 1
    unfold snapshotEntry snapshotTuple
    cases asPosition (registry.getComponent Kind.Position entity) with
    | none => rfl
    | some pos =>
      dsimp only
      cases (registry.getComponent Kind.Player entity).isSome <;>
        cases (registry.getComponent Kind.Hitbox entity).isSome <;> simp

theorem sendUpdates_eq (s : Server) :
    s.sendUpdates = { s with connectionManager_ := { s.connectionManager_ with
      clients_ := s.connectionManager_.clients_.map
        (fun c => c.send ⟨RFC.STATE_UPDATE, snapshotContent s.registry⟩) } } := by
  unfold Server.sendUpdates snapshotContent Registry.getEntities
  rw [updateContent_eq]

/-! ## The claim on the snapshot -/

/-- C21: the format of the snapshot.  For every state of the server, `sendUpdates` sends every
connection the same `STATE_UPDATE` message, whose content is the concatenation, over the
live-entity list in its order, of one tuple `<entityId> <x> <y>,` for each entity that has a
position and a player or a hitbox component, followed by one `;`: the serialized message
`200 <content>` is appended to the outbound queue of each connection, and the registry is
left as it was.  An entity without position, or with a position only, contributes nothing;
an entity with a position and a player or a hitbox component (or both) contributes its
tuple once. -/
theorem C21_snapshot_format :
    (∀ s : Server, s.sendUpdates.connectionManager_.clients_
      = s.connectionManager_.clients_.map
          (fun c => c.send ⟨RFC.STATE_UPDATE, snapshotContent s.registry⟩)) ∧
    (∀ s : Server, ∀ c1 ∈ s.sendUpdates.connectionManager_.clients_,
      ∃ c ∈ s.connectionManager_.clients_, c1.getId = c.getId ∧
        c1.outgoingMessages
          = c.outgoingMessages ++ ["200 ".toList ++ snapshotContent s.registry]) ∧
    (∀ s : Server, s.sendUpdates.registry = s.registry) ∧
    (∀ registry : Registry, snapshotContent registry
      = (registry.entities_.map (snapshotEntry registry)).flatten ++ [';']) ∧
    (∀ (registry : Registry) (entity : Entity),
      (asPosition (registry.getComponent Kind.Position entity) = none →
        snapshotEntry registry entity = []) ∧
      (registry.getComponent Kind.Player entity = none →
        registry.getComponent Kind.Hitbox entity = none →
        snapshotEntry registry entity = []) ∧
      (∀ pos, asPosition (registry.getComponent Kind.Position entity) = some pos →
        (registry.getComponent Kind.Player entity).isSome ∨
          (registry.getComponent Kind.Hitbox entity).isSome →
        snapshotEntry registry entity
          = intToChars entity.id ++ ' ' :: floatToChars pos.x ++ ' ' ::
              floatToChars pos.y ++ [','])) := by
  refine ⟨fun s => by rw [sendUpdates_eq], fun s c1 hc1 => ?_, fun s => by rw [sendUpdates_eq],
    fun registry => rfl, fun registry entity => ⟨fun h => ?_, fun h1 h2 => ?_, fun pos h hp => ?_⟩⟩
  · rw [sendUpdates_eq] at hc1
    obtain ⟨c, hc, rfl⟩ := List.mem_map.mp hc1
    refine ⟨c, hc, (send_fields c _).2.1, ?_⟩
    rw [(send_fields c _).1]
    show _ ++ [Message.serialize ⟨⟨200⟩, _⟩] = _
    rw [serialize_of_digits 200 _ _ intToChars_known.1]
    rfl
  · simp [snapshotEntry, h]
  · unfold snapshotEntry
    cases asPosition (registry.getComponent Kind.Position entity) with
    | none => rfl
    | some pos => simp [h1, h2]
  · unfold snapshotEntry snapshotTuple
    rw [h]
    dsimp only
    rw [if_pos (by simpa using hp)]

/-- C21, at the server with the two players of the clients 1 and 2: the content of the
snapshot is `1 0.000000 250.000000,2 0.000000 750.000000,;`, and the queue of the first
connection, which held the two `Player` messages, ends with the snapshot. -/
theorem C21_snapshot_format_witness :
    snapshotContent startedServer.registry
      = "1 0.000000 250.000000,2 0.000000 750.000000,;".toList ∧
    ∃ c ∈ startedServer.connectionManager_.clients_,
      Client.getId ⟨1, true, ["220 Player 1;".toList, "220 Player 2;".toList,
          "200 1 0.000000 250.000000,2 0.000000 750.000000,;".toList], [], true⟩ = c.getId ∧
      Client.outgoingMessages ⟨1, true, ["220 Player 1;".toList, "220 Player 2;".toList,
          "200 1 0.000000 250.000000,2 0.000000 750.000000,;".toList], [], true⟩
        = c.outgoingMessages ++ ["200 ".toList ++ snapshotContent startedServer.registry] :=
  ⟨by decide!, C21_snapshot_format.2.1 startedServer _ (by decide!)⟩

/-! ## The accept loop -/

theorem toSizeT_natCast (n : Nat) (hn : n ≤ 2147483647) : toSizeT (n : Int) = n := by
  unfold toSizeT
  rw [Int.emod_eq_of_lt (by omega) (by omega)]
  exact Int.toNat_natCast n

theorem acceptedClients_length (j : Nat) : (acceptedClients j).length = j := by
  simp [acceptedClients]

theorem acceptedClients_succ (j : Nat) :
    acceptedClients (j + 1) = acceptedClients j ++ [connectedClient ((j : Int) + 1)] := by
  simp [acceptedClients, List.range_succ]

theorem acceptedClients_ids (j : Nat) :
    (acceptedClients j).map Client.getId = (List.range j).map (fun (i : Nat) => (i : Int) + 1) := by
  unfold acceptedClients
  rw [List.map_map]
  rfl

/-- The accept loop as the constructor starts it, for a capacity of at least one. -/
theorem start_eq (n : Nat) (h1 : 1 ≤ n) (hn : n ≤ 2147483647) :
    Acceptor.start (n : Int) = afterAccepts n 0 := by
  have hpos : 0 < n := h1
  simp [Acceptor.start, Acceptor.acceptConnections, ConnectionManager.new, afterAccepts,
    acceptedClients, toSizeT_natCast n hn, hpos, wrapInt32]

/-- A successful accept below the capacity. -/
theorem afterAccepts_step (n j : Nat) (hj : j < n) (hn : n ≤ 2147483647) :
    (afterAccepts n j).onAccept false = afterAccepts n (j + 1) := by
  by_cases hlt : j + 1 < n
  · have hw : wrapInt32 ((j : Int) + 1 + 1) = (j : Int) + 1 + 1 := by
      unfold wrapInt32
      omega
    simp [Acceptor.onAccept, Acceptor.acceptConnections, afterAccepts, hj, hlt,
      acceptedClients_succ, acceptedClients_length, toSizeT_natCast n hn, connectedClient, hw]
  · simp [Acceptor.onAccept, Acceptor.acceptConnections, afterAccepts, hj, hlt,
      acceptedClients_succ, acceptedClients_length, toSizeT_natCast n hn, connectedClient]

/-- At the capacity no accept is pending: no handler runs any more. -/
theorem afterAccepts_full (n : Nat) (ec : Bool) :
    (afterAccepts n n).onAccept ec = afterAccepts n n := by
  simp [Acceptor.onAccept, afterAccepts]

theorem runAccepts_replicate (n : Nat) (hn : n ≤ 2147483647) (j : Nat) :
    (afterAccepts n 0).runAccepts (List.replicate j false) = afterAccepts n (min j n) := by
  induction j with
  | zero => simp [Acceptor.runAccepts]
  | succ j ih =>
    unfold Acceptor.runAccepts at ih ⊢
    rw [List.replicate_succ', List.foldl_append, ih]
    simp only [List.foldl_cons, List.foldl_nil]
    by_cases hj : j < n
    · rw [Nat.min_eq_left (Nat.le_of_lt hj), Nat.min_eq_left hj]
      exact afterAccepts_step n j hj hn
    · rw [Nat.min_eq_right (Nat.le_of_not_lt hj), Nat.min_eq_right (by omega)]
      exact afterAccepts_full n false

/-! ## The claim on the capacity -/

/-- C22: the capacity of the connection manager.  For a manager for `n ≥ 1` players (`n` an
`int`, so at most `2^31 - 1`) on which the constructor of the server has called
`acceptConnections`, after any number `j` of successful accepts: the connections of the client list have the ids `1, 2, ...` in order, the
accept number `k` having appended the connection with the id `k` (while `k ≤ n`); the list
never holds more than `n` connections; `gameStartCallback` has been invoked once when
`j ≥ n`, at the accept that filled the list, and not before; and an accept is pending
exactly while `j < n`, so that none is started once the list is full (and without a
pending accept nothing is ever added to the list). -/
theorem C22_accept_capacity (n : Nat) (h1 : 1 ≤ n) (hn : n ≤ 2147483647) (j : Nat) :
    (((Acceptor.start (n : Int)).runAccepts (List.replicate j false)).manager.clients_.map
      Client.getId = (List.range (min j n)).map (fun (i : Nat) => (i : Int) + 1)) ∧
    (j < n →
      ((Acceptor.start (n : Int)).runAccepts (List.replicate (j + 1) false)).manager.clients_
        = ((Acceptor.start (n : Int)).runAccepts (List.replicate j false)).manager.clients_
            ++ [connectedClient ((j : Int) + 1)]) ∧
    ((Acceptor.start (n : Int)).runAccepts (List.replicate j false)).manager.clients_.length
      ≤ n ∧
    ((Acceptor.start (n : Int)).runAccepts (List.replicate j false)).gameStartCalls
      = (if j < n then 0 else 1) ∧
    (j < n → ((Acceptor.start (n : Int)).runAccepts (List.replicate j false)).pending
      = some (Client.new ((j : Int) + 1))) ∧
    (n ≤ j → ((Acceptor.start (n : Int)).runAccepts (List.replicate j false)).pending = none) ∧
    (n ≤ j → ∀ ec : Bool,
      ((Acceptor.start (n : Int)).runAccepts (List.replicate j false)).onAccept ec
        = (Acceptor.start (n : Int)).runAccepts (List.replicate j false)) ∧
    (∀ (a : Acceptor) (ec : Bool), a.pending = none → a.onAccept ec = a) := by
  have hrun : ∀ i, (Acceptor.start (n : Int)).runAccepts (List.replicate i false)
      = afterAccepts n (min i n) := by
    intro i
    rw [start_eq n h1 hn]
    exact runAccepts_replicate n hn i
  rw [hrun j]
  refine ⟨acceptedClients_ids _, fun hj => ?_, ?_, ?_, fun hj => ?_, fun hj => ?_, fun hj ec => ?_,
    fun a ec ha => by simp [Acceptor.onAccept, ha]⟩
  · rw [hrun (j + 1), Nat.min_eq_left (Nat.le_of_lt hj), Nat.min_eq_left hj]
    exact acceptedClients_succ j
  · show (acceptedClients (min j n)).length ≤ n
    rw [acceptedClients_length]
    exact Nat.min_le_right j n
  · show (if min j n < n then 0 else 1) = _
    by_cases hj : j < n
    · rw [Nat.min_eq_left (Nat.le_of_lt hj)]
    · rw [Nat.min_eq_right (Nat.le_of_not_lt hj), if_neg (Nat.lt_irrefl n), if_neg hj]
  · rw [Nat.min_eq_left (Nat.le_of_lt hj)]
    show (if j < n then some (Client.new ((j : Int) + 1)) else none) = _
    rw [if_pos hj]
  · rw [Nat.min_eq_right hj]
    show (if n < n then some (Client.new ((n : Int) + 1)) else none) = _
    rw [if_neg (Nat.lt_irrefl n)]
  · rw [Nat.min_eq_right hj]
    exact afterAccepts_full n ec

/-- C22, at a manager for two players: after three completions the list holds the clients 1
and 2, the callback has been invoked once and no accept is pending. -/
theorem C22_accept_capacity_witness :
    ((Acceptor.start 2).runAccepts [false, false, false]).manager.clients_.map Client.getId
      = [1, 2] ∧
    ((Acceptor.start 2).runAccepts [false, false, false]).gameStartCalls = 1 ∧
    ((Acceptor.start 2).runAccepts [false, false, false]).pending = none := by
  obtain ⟨h1, _, _, h4, _, h6, _, _⟩ := C22_accept_capacity 2 (by decide) (by decide) 3
  exact ⟨h1, h4, h6 (by decide)⟩

/-! ## The writes of a connection -/

/-- The client of a connection is changed by `send` as `Client.send` says. -/
theorem connection_send_client (k : Connection) (msg : Message) :
    (k.send msg).client = k.client.send msg := by
  unfold Connection.send Client.send Connection.writeMessages Client.writeMessages
  cases hq : k.client.outgoingMessages with
  | nil => cases ho : k.client.socketOpen <;> simp [hq, ho]
  | cons a l => simp [hq]

/-- On an open connection `send` appends the serialized message; it starts a write, of that
message, exactly when the queue was empty before. -/
theorem connection_send (k : Connection) (msg : Message) (hopen : k.client.socketOpen = true) :
    (k.send msg).client.outgoingMessages = k.client.outgoingMessages ++ [msg.serialize] ∧
    (k.send msg).client.socketOpen = true ∧
    (k.send msg).written = k.written ∧
    (k.send msg).inFlight
      = (if k.client.outgoingMessages = [] then k.inFlight ++ [msg.serialize]
         else k.inFlight) := by
  unfold Connection.send Connection.writeMessages
  cases hq : k.client.outgoingMessages with
  | nil => simp [hq, hopen]
  | cons a l => simp [hq, hopen]

/-- On an open connection a successful completion, with the write `buffer` in flight and the
queue `front :: queue`, puts `buffer` on the transport, pops the front, and starts a write,
of the new front, exactly when the queue is not empty then. -/
theorem connection_onWrite (k : Connection) (buffer front : List Char)
    (rest queue : List (List Char)) (hopen : k.client.socketOpen = true)
    (hf : k.inFlight = buffer :: rest) (hq : k.client.outgoingMessages = front :: queue) :
    ∃ k1, k.onWrite false = some k1 ∧
      k1.client.outgoingMessages = queue ∧ k1.client.socketOpen = true ∧
      k1.written = k.written ++ [buffer] ∧
      k1.inFlight = rest ++ queue.take 1 := by
  unfold Connection.onWrite Connection.writeMessages
  cases queue with
  | nil => simp [hf, hq, hopen]
  | cons b l => simp [hf, hq, hopen]

theorem inOrder_send (k : Connection) (msg : Message) (h : k.InOrder) :
    (k.send msg).InOrder := by
  obtain ⟨hopen, hfl⟩ := h
  obtain ⟨h1, h2, _, h4⟩ := connection_send k msg hopen
  refine ⟨h2, ?_⟩
  rw [h4, h1, hfl]
  cases hq : k.client.outgoingMessages with
  | nil => simp
  | cons a l => simp

theorem inOrder_onWrite (k k1 : Connection) (h : k.InOrder) (hk : k.onWrite false = some k1) :
    k1.InOrder ∧ k1.written ++ k1.client.outgoingMessages
      = k.written ++ k.client.outgoingMessages := by
  obtain ⟨hopen, hfl⟩ := h
  cases hq : k.client.outgoingMessages with
  | nil =>
    rw [hq] at hfl
    simp [Connection.onWrite, hfl] at hk
  | cons a l =>
    rw [hq] at hfl
    obtain ⟨k2, h2, g1, g2, g3, g4⟩ := connection_onWrite k a a [] l hopen (by simpa using hfl) hq
    rw [hk] at h2
    simp only [Option.some.injEq] at h2
    subst h2
    refine ⟨⟨g2, by rw [g4, g1]; simp⟩, ?_⟩
    rw [g3, g1]
    simp

theorem inOrder_accepted (id : Int) : (Connection.accepted id).InOrder := ⟨rfl, rfl⟩

/-- Sends and successful completions keep the connection in order, and what has been written
followed by what is queued grows by the messages sent. -/
theorem run_inOrder (events : List WriteEvent) :
    ∀ k k1 : Connection, k.InOrder → (∀ e ∈ events, e ≠ WriteEvent.completed true) →
      k.run events = some k1 →
      k1.InOrder ∧ k1.written ++ k1.client.outgoingMessages
        = k.written ++ k.client.outgoingMessages ++ sentBy events := by
  induction events with
  | nil =>
    intro k k1 hk _ hrun
    simp only [Connection.run, Option.some.injEq] at hrun
    subst hrun
    exact ⟨hk, by simp [sentBy]⟩
  | cons e es ih =>
    intro k k1 hk hok hrun
    have hes : ∀ e1 ∈ es, e1 ≠ WriteEvent.completed true :=
      fun e1 h1 => hok e1 (List.mem_cons_of_mem _ h1)
    cases e with
    | send msg =>
      simp only [Connection.run, Connection.step] at hrun
      obtain ⟨h1, h2⟩ := ih (k.send msg) k1 (inOrder_send k msg hk) hes hrun
      refine ⟨h1, ?_⟩
      rw [h2, (connection_send k msg hk.1).1, (connection_send k msg hk.1).2.2.1]
      simp [sentBy]
    | completed ec =>
      cases ec with
      | true => exact absurd rfl (hok _ (List.mem_cons_self _ _))
      | false =>
        simp only [Connection.run, Connection.step] at hrun
        cases hw : k.onWrite false with
        | none => simp [hw] at hrun
        | some k2 =>
          simp only [hw] at hrun
          obtain ⟨g1, g2⟩ := inOrder_onWrite k k2 hk hw
          obtain ⟨h1, h2⟩ := ih k2 k1 g1 hes hrun
          refine ⟨h1, ?_⟩
          rw [h2, g2]
          simp [sentBy]

/-- On a connection in order a completion can happen exactly when the queue is not empty. -/
theorem onWrite_enabled (k : Connection) (hk : k.InOrder) :
    (k.onWrite false).isSome = true ↔ k.client.outgoingMessages ≠ [] := by
  obtain ⟨hopen, hfl⟩ := hk
  cases hq : k.client.outgoingMessages with
  | nil =>
    rw [hq] at hfl
    simp [Connection.onWrite, hfl]
  | cons a l =>
    rw [hq] at hfl
    obtain ⟨k1, h1, _⟩ := connection_onWrite k a a [] l hopen (by simpa using hfl) hq
    simp [h1]

/-- As many successful completions as messages are queued write the whole queue, in its
order, and leave the queue empty. -/
theorem run_completions (queue : List (List Char)) :
    ∀ k : Connection, k.InOrder → k.client.outgoingMessages = queue →
      ∃ k1, k.run (List.replicate queue.length (WriteEvent.completed false)) = some k1 ∧
        k1.written = k.written ++ queue ∧ k1.client.outgoingMessages = [] ∧
        k1.inFlight = [] := by
  induction queue with
  | nil =>
    intro k hk hq
    refine ⟨k, rfl, by simp, hq, ?_⟩
    rw [hk.2, hq]
    rfl
  | cons a l ih =>
    intro k hk hq
    have hfl : k.inFlight = [a] := by rw [hk.2, hq]; rfl
    obtain ⟨k2, h2, g1, g2, g3, g4⟩ := connection_onWrite k a a [] l hk.1 hfl hq
    obtain ⟨k1, h1, f1, f2, f3⟩ := ih k2 (inOrder_onWrite k k2 hk h2).1 g1
    refine ⟨k1, ?_, ?_, f2, f3⟩
    · simp only [List.length_cons, List.replicate_succ, Connection.run, Connection.step, h2]
      exact h1
    · rw [f1, g3]
      simp

theorem run_sends (msgs : List Message) :
    ∀ k : Connection, k.run (msgs.map WriteEvent.send) = some (msgs.foldl Connection.send k) := by
  induction msgs with
  | nil => intro k; rfl
  | cons msg msgs ih =>
    intro k
    simp only [List.map_cons, Connection.run, Connection.step, List.foldl_cons]
    exact ih _

theorem run_append (es1 es2 : List WriteEvent) :
    ∀ k k1 : Connection, k.run es1 = some k1 → k.run (es1 ++ es2) = k1.run es2 := by
  induction es1 with
  | nil =>
    intro k k1 h
    simp only [Connection.run, Option.some.injEq] at h
    subst h
    rfl
  | cons e es ih =>
    intro k k1 h
    simp only [List.cons_append, Connection.run] at h ⊢
    cases hs : k.step e with
    | none => simp [hs] at h
    | some k2 =>
      simp only [hs] at h ⊢
      exact ih k2 k1 h

theorem sentBy_sends (msgs : List Message) :
    sentBy (msgs.map WriteEvent.send) = msgs.map Message.serialize := by
  induction msgs with
  | nil => rfl
  | cons msg msgs ih => simp [sentBy, ih]

/-! ## The claim on the order of the writes -/

/-- C23: the order of the writes.  A connection is taken as its outbound queue, the writes in
flight and the data written.  On an open connection that starts in order (as the accepted
connection does), after any sequence of `send` calls and successful write completions: at
most one write is in flight, and it is the write of the head of the queue; what has been
written, followed by the queue, is what was written and queued at the start followed by the
messages sent, in the order of the `send` calls.  There, `send` appends the serialized
message and starts a write, of that message, only when the queue was empty; a completion
can happen exactly when the queue is not empty, it puts the head on the transport, pops it
and starts a write only when the queue is still not empty, of the new head; and as many
completions as messages are queued write them all, in order. -/
theorem C23_outbound_ordering (k k1 : Connection) (events : List WriteEvent)
    (hk : k.InOrder) (hok : ∀ e ∈ events, e ≠ WriteEvent.completed true)
    (hrun : k.run events = some k1) :
    k1.inFlight.length ≤ 1 ∧
    k1.inFlight = k1.client.outgoingMessages.take 1 ∧
    k1.written ++ k1.client.outgoingMessages
      = k.written ++ k.client.outgoingMessages ++ sentBy events ∧
    (∀ msg : Message,
      (k1.send msg).client.outgoingMessages = k1.client.outgoingMessages ++ [msg.serialize] ∧
      (k1.send msg).written = k1.written ∧
      (k1.send msg).inFlight
        = (if k1.client.outgoingMessages = [] then [msg.serialize] else k1.inFlight)) ∧
    ((k1.onWrite false).isSome = true ↔ k1.client.outgoingMessages ≠ []) ∧
    (∀ (front : List Char) (queue : List (List Char)),
      k1.client.outgoingMessages = front :: queue →
      ∃ k2, k1.onWrite false = some k2 ∧ k2.client.outgoingMessages = queue ∧
        k2.written = k1.written ++ [front] ∧ k2.inFlight = queue.take 1) ∧
    (∃ k2, k1.run (List.replicate k1.client.outgoingMessages.length
          (WriteEvent.completed false)) = some k2 ∧
        k2.written = k.written ++ k.client.outgoingMessages ++ sentBy events ∧
        k2.client.outgoingMessages = [] ∧ k2.inFlight = []) := by
  obtain ⟨h1, h2⟩ := run_inOrder events k k1 hk hok hrun
  refine ⟨?_, h1.2, h2, fun msg => ?_, onWrite_enabled k1 h1, fun front queue hq => ?_, ?_⟩
  · rw [h1.2, List.length_take]
    exact Nat.min_le_left _ _
  · obtain ⟨g1, _, g3, g4⟩ := connection_send k1 msg h1.1
    refine ⟨g1, g3, ?_⟩
    rw [g4]
    by_cases hq : k1.client.outgoingMessages = []
    · rw [if_pos hq, if_pos hq, h1.2, hq]
      rfl
    · rw [if_neg hq, if_neg hq]
  · have hfl : k1.inFlight = [front] := by rw [h1.2, hq]; rfl
    obtain ⟨k2, g0, g1, _, g3, g4⟩ := connection_onWrite k1 front front [] queue h1.1 hfl hq
    exact ⟨k2, g0, g1, g3, by simpa using g4⟩
  · obtain ⟨k2, g0, g1, g2, g3⟩ := run_completions _ k1 h1 rfl
    exact ⟨k2, g0, by rw [g1, h2], g2, g3⟩

/-- C23, at the connection of client 1 right after its accept: after `send` of the messages
`220 Player 1;` and `220 Player 2;`, one completion and `send` of `230 2;`, the first message
is written, the second is in flight and the third waits behind it. -/
theorem C23_outbound_ordering_witness :
    (Connection.mk ⟨1, true, ["220 Player 2;".toList, "230 2;".toList], [], true⟩
        ["220 Player 2;".toList] ["220 Player 1;".toList]).inFlight
      = ["220 Player 2;".toList] ∧
    ["220 Player 1;".toList] ++ ["220 Player 2;".toList, "230 2;".toList]
      = (Connection.accepted 1).written ++ (Connection.accepted 1).client.outgoingMessages ++
          sentBy [.send ⟨RFC.NEW_ENTITY, "Player 1;".toList⟩,
            .send ⟨RFC.NEW_ENTITY, "Player 2;".toList⟩, .completed false,
            .send ⟨RFC.ENTITY_DEAD, "2;".toList⟩] := by
  obtain ⟨_, h2, h3, _⟩ := C23_outbound_ordering (Connection.accepted 1)
    (Connection.mk ⟨1, true, ["220 Player 2;".toList, "230 2;".toList], [], true⟩
      ["220 Player 2;".toList] ["220 Player 1;".toList])
    [.send ⟨RFC.NEW_ENTITY, "Player 1;".toList⟩, .send ⟨RFC.NEW_ENTITY, "Player 2;".toList⟩,
     .completed false, .send ⟨RFC.ENTITY_DEAD, "2;".toList⟩]
    (inOrder_accepted 1) (by decide) (by decide)
  exact ⟨h2, h3⟩

/-! ## A write that fails -/

/-- On a closed connection `send` only appends to the queue: no write is started. -/
theorem connection_send_closed (k : Connection) (msg : Message)
    (hclosed : k.client.socketOpen = false) :
    (k.send msg).client.outgoingMessages = k.client.outgoingMessages ++ [msg.serialize] ∧
    (k.send msg).client.socketOpen = false ∧
    (k.send msg).written = k.written ∧ (k.send msg).inFlight = k.inFlight := by
  unfold Connection.send Connection.writeMessages
  cases hq : k.client.outgoingMessages with
  | nil => simp [hq, hclosed]
  | cons a l => simp [hq, hclosed]

theorem foldl_send_closed (msgs : List Message) :
    ∀ k : Connection, k.client.socketOpen = false →
      (msgs.foldl Connection.send k).client.outgoingMessages
        = k.client.outgoingMessages ++ msgs.map Message.serialize ∧
      (msgs.foldl Connection.send k).client.socketOpen = false ∧
      (msgs.foldl Connection.send k).written = k.written ∧
      (msgs.foldl Connection.send k).inFlight = k.inFlight := by
  induction msgs with
  | nil => intro k hk; exact ⟨by simp, hk, rfl, rfl⟩
  | cons msg msgs ih =>
    intro k hk
    obtain ⟨g1, g2, g3, g4⟩ := connection_send_closed k msg hk
    obtain ⟨h1, h2, h3, h4⟩ := ih (k.send msg) g2
    simp only [List.foldl_cons, List.map_cons]
    exact ⟨by rw [h1, g1]; simp, h2, h3.trans g3, h4.trans g4⟩

/-! ## The claim on a write that fails -/

/-- C24 (as stated, refuted): on the connection of client 1, after `send` of the messages
`220 Player 1;` and `220 Player 2;`, the completion of the write with an error closes the
socket and leaves both messages in the outbound queue. -/
theorem C24_queue_kept_on_write_failure :
    ((Connection.accepted 1).run [.send ⟨RFC.NEW_ENTITY, "Player 1;".toList⟩,
        .send ⟨RFC.NEW_ENTITY, "Player 2;".toList⟩, .completed true]).map
      (fun k => (k.client.outgoingMessages, k.client.socketOpen, k.written))
      = some (["220 Player 1;".toList, "220 Player 2;".toList], false, []) := by
  decide

/-- C24 (amended): when a write completes with an error, the socket is closed and the
outbound queue is left as it was, the message whose write failed still at its head; nothing
is put on the transport.  No write is started afterwards: whatever messages are sent then,
they are appended to the queue, the socket stays closed, and the data written and the writes
in flight stay what they were (none is in flight on a connection that was in order). -/
theorem C24_write_failure (k : Connection) (buffer : List Char) (rest : List (List Char))
    (hf : k.inFlight = buffer :: rest) :
    ∃ k1, k.onWrite true = some k1 ∧
      k1.client.socketOpen = false ∧
      k1.client.outgoingMessages = k.client.outgoingMessages ∧
      k1.written = k.written ∧ k1.inFlight = rest ∧
      (k.InOrder → k1.inFlight = [] ∧ k1.client.outgoingMessages.head? = some buffer) ∧
      (∀ msgs : List Message,
        (msgs.foldl Connection.send k1).client.outgoingMessages
          = k.client.outgoingMessages ++ msgs.map Message.serialize ∧
        (msgs.foldl Connection.send k1).client.socketOpen = false ∧
        (msgs.foldl Connection.send k1).written = k.written ∧
        (msgs.foldl Connection.send k1).inFlight = rest) := by
  have h : k.onWrite true = some { k with
      client := { k.client with socketOpen := false, writePending := !rest.isEmpty },
      inFlight := rest } := by
    simp [Connection.onWrite, hf]
  refine ⟨_, h, rfl, rfl, rfl, rfl, fun hk => ?_, fun msgs => ?_⟩
  · have h2 := hk.2
    rw [hf] at h2
    cases hq : k.client.outgoingMessages with
    | nil => rw [hq] at h2; simp at h2
    | cons a l =>
      rw [hq] at h2
      simp only [List.take_succ_cons, List.take_zero, List.cons.injEq] at h2
      exact ⟨h2.2, by simp [h2.1]⟩
  · exact foldl_send_closed msgs _ rfl

/-- C24 (amended), at the connection of client 1 with the messages `220 Player 1;` in flight
and `220 Player 2;` queued behind it. -/
theorem C24_write_failure_witness :
    ∃ k1, Connection.onWrite (Connection.mk
        ⟨1, true, ["220 Player 1;".toList, "220 Player 2;".toList], [], true⟩
        ["220 Player 1;".toList] []) true = some k1 ∧
      k1.client.socketOpen = false ∧
      k1.client.outgoingMessages = ["220 Player 1;".toList, "220 Player 2;".toList] := by
  obtain ⟨k1, h1, h2, h3, _⟩ := C24_write_failure (Connection.mk
    ⟨1, true, ["220 Player 1;".toList, "220 Player 2;".toList], [], true⟩
    ["220 Player 1;".toList] []) "220 Player 1;".toList [] rfl
  exact ⟨k1, h1, h2, h3⟩

/-! ## The claim on the exit status -/

/-- C25 (the code at the failing input): the server is started for two players and the
constructor of the acceptor throws because the port is taken.  `MainServer::start` logs the
exception and returns `SUCCESS`, which is `0`, and so does `main`: the exit status is `0`, as
it is when the server ran and stopped.  The same holds for every exception and every number
of players. -/
theorem C25_start_returns_success_after_exception :
    ServerProgram.main 2 2 (.threw "bind: Address already in use".toList)
      = ("Exception: bind: Address already in use\n".toList, 0) ∧
    ServerProgram.main 2 2 .ran = ([], 0) ∧
    (∀ (maxPlayers : Int) (body : TryOutcome), (MainServer.start maxPlayers body).2 = 0) ∧
    (∀ (maxPlayers : Int) (what : List Char),
      (MainServer.start maxPlayers (.threw what)).1 = "Exception: ".toList ++ what ++ ['\n']) ∧
    SUCCESS = 0 := by
  refine ⟨by decide, by decide, fun maxPlayers body => ?_, fun _ _ => rfl, rfl⟩
  cases body <;> rfl

/-! ## The client reads a snapshot -/

/-- The digits in front of a buffer that is empty or starts with a character that is not a
digit. -/
theorem takeDigits_front (ds tl : List Char) (hds : ∀ c ∈ ds, c.isDigit = true)
    (htl : ∀ c ∈ tl.head?, c.isDigit = false) :
    takeDigits (ds ++ tl) = ds ∧ dropDigits (ds ++ tl) = tl := by
  induction ds with
  | nil =>
    cases tl with
    | nil => exact ⟨rfl, rfl⟩
    | cons c cs =>
      have hc : c.isDigit = false := htl c (by simp)
      simp [takeDigits, dropDigits, hc]
  | cons d ds ih =>
    have hd : d.isDigit = true := hds d (List.mem_cons_self _ _)
    obtain ⟨h1, h2⟩ := ih (fun c hc => hds c (List.mem_cons_of_mem _ hc))
    simp [takeDigits, dropDigits, hd, h1, h2]

/-- Reading the id of a tuple: an integer token in the range of an `int`, followed by a
character that is not a digit. -/
theorem extractInt_token (target : Int) (neg : Bool) (ds : List Char) (sep : Char)
    (rest : List Char) (hne : ds ≠ []) (hds : ∀ c ∈ ds, c.isDigit = true)
    (hsep : sep.isDigit = false)
    (hlo : INT_MIN ≤ signedValue neg ds) (hhi : signedValue neg ds ≤ INT_MAX) :
    extractInt ⟨signChars neg ++ ds ++ sep :: rest, true⟩ target
      = (signedValue neg ds, ⟨sep :: rest, true⟩) := by
  have h1 := skipWs_token neg ds (sep :: rest) hne hds
  have h2 := takeSign_token neg ds (sep :: rest) hne hds
  have h3 := takeDigits_append ds sep rest hds hsep
  have h4 := dropDigits_append ds sep rest hds hsep
  have hne2 : signChars neg ++ ds ++ sep :: rest ≠ [] := by simp
  have hlo2 : ¬ signedValue neg ds < INT_MIN := not_lt.mpr hlo
  have hhi2 : ¬ INT_MAX < signedValue neg ds := not_lt.mpr hhi
  unfold signedValue at hlo2 hhi2
  simp only [extractInt, h1, h2, h3, h4, hne, hne2, hlo2, hhi2,
    signedValue, Bool.not_true, Bool.false_eq_true, if_false, List.isEmpty_cons, Bool.not_false]

/-- Reading a well-formed decimal number that follows one space; behind the number the
buffer ends or goes on with a space. -/
theorem extractFloat_decimal (target : ℚ) (d : DecimalText) (tl : List Char)
    (hd : d.WellFormed) (htl : tl = [] ∨ ∃ rest, tl = ' ' :: rest) :
    extractFloat ⟨' ' :: (d.chars ++ tl), true⟩ target = (d.value, ⟨tl, !tl.isEmpty⟩) := by
  obtain ⟨hne, hint, hfrac⟩ := hd
  have hb : skipWs (' ' :: (d.chars ++ tl))
      = signChars d.neg ++ d.intDigits ++ ('.' :: (d.fracDigits ++ tl)) := by
    have := skipWs_token d.neg d.intDigits ('.' :: (d.fracDigits ++ tl)) hne hint
    simp only [skipWs, isSpace, DecimalText.chars]
    simpa using this
  have h2 := takeSign_token d.neg d.intDigits ('.' :: (d.fracDigits ++ tl)) hne hint
  have h3 := takeDigits_append d.intDigits '.' (d.fracDigits ++ tl) hint (by decide)
  have h4 := dropDigits_append d.intDigits '.' (d.fracDigits ++ tl) hint (by decide)
  have htl2 : ∀ c ∈ tl.head?, c.isDigit = false := by
    rcases htl with h | ⟨rest, h⟩ <;> subst h <;> simp
  obtain ⟨h5, h6⟩ := takeDigits_front d.fracDigits tl hfrac htl2
  have hne2 : signChars d.neg ++ d.intDigits ++ ('.' :: (d.fracDigits ++ tl)) ≠ [] := by simp
  unfold extractFloat
  simp only [Bool.not_true, Bool.false_eq_true, if_false, hb, hne2, h2, h3, h4, h5, h6, hne,
    false_and]
  rcases htl with h | ⟨rest, h⟩ <;> subst h
  · simp [DecimalText.value]
  · simp [DecimalText.value]

/-- The loop body of `updateGameState` on a well-formed tuple: the position update the tuple
stands for, whatever the locals held. -/
theorem parseTuple_body (u : Indeterminate) (t : TupleText) (ht : t.WellFormed) :
    GameClient.parseTuple u t.body = t.call := by
  obtain ⟨hne, hds, hlo, hhi, hx, hy⟩ := ht
  have h1 := extractInt_token u.entityId t.idNeg t.idDigits ' ' (t.x.chars ++ ' ' :: t.y.chars)
    hne hds (by decide) hlo hhi
  have h2 := extractFloat_decimal u.x t.x (' ' :: t.y.chars) hx (Or.inr ⟨_, rfl⟩)
  have h3 := extractFloat_decimal u.y t.y [] hy (Or.inl rfl)
  rw [List.append_nil] at h3
  unfold GameClient.parseTuple TupleText.body TupleText.call
  simp only [h1, h2, List.isEmpty_cons, Bool.not_false, h3]

theorem takeUntil_append (delim : Char) (l r : List Char) (h : delim ∉ l) :
    takeUntil delim (l ++ delim :: r) = l ∧ dropUntil delim (l ++ delim :: r) = some r := by
  induction l with
  | nil => simp [takeUntil, dropUntil]
  | cons c cs ih =>
    have hc : c ≠ delim := fun e => h (e ▸ List.mem_cons_self _ _)
    obtain ⟨h1, h2⟩ := ih (fun e => h (List.mem_cons_of_mem _ e))
    simp [takeUntil, dropUntil, hc, h1, h2]

/-- A character that is neither a digit nor a minus sign, a point or a space does not occur
in front of the comma of a well-formed tuple. -/
theorem not_mem_body (t : TupleText) (ht : t.WellFormed) (c : Char) (hc : c.isDigit = false)
    (h1 : c ≠ '-') (h2 : c ≠ '.') (h3 : c ≠ ' ') : c ∉ t.body := by
  obtain ⟨_, hds, _, _, ⟨_, hxi, hxf⟩, ⟨_, hyi, hyf⟩⟩ := ht
  have hsign : ∀ b : Bool, c ∉ signChars b := by
    intro b
    cases b <;> simp [signChars, h1]
  have hdig : ∀ ds : List Char, (∀ d ∈ ds, d.isDigit = true) → c ∉ ds := by
    intro ds hall hmem
    rw [hall c hmem] at hc
    exact absurd hc (by simp)
  unfold TupleText.body DecimalText.chars
  simp only [List.mem_append, List.mem_cons, not_or]
  exact ⟨⟨hsign _, hdig _ hds⟩, h3, ⟨⟨hsign _, hdig _ hxi⟩, h2, hdig _ hxf⟩, h3,
    ⟨hsign _, hdig _ hyi⟩, h2, hdig _ hyf⟩

theorem tuplesText_cons (t : TupleText) (ts : List TupleText) :
    tuplesText (t :: ts) = t.body ++ ',' :: tuplesText ts := by
  simp [tuplesText, TupleText.chars]

theorem not_mem_tuplesText (ts : List TupleText) (hts : ∀ t ∈ ts, t.WellFormed) (c : Char)
    (hc : c.isDigit = false) (h1 : c ≠ '-') (h2 : c ≠ '.') (h3 : c ≠ ' ') (h4 : c ≠ ',') :
    c ∉ tuplesText ts := by
  induction ts with
  | nil => simp [tuplesText]
  | cons t ts ih =>
    rw [tuplesText_cons]
    simp only [List.mem_append, List.mem_cons, not_or]
    exact ⟨not_mem_body t (hts t (List.mem_cons_self _ _)) c hc h1 h2 h3, h4,
      ih (fun t1 h => hts t1 (List.mem_cons_of_mem _ h))⟩

/-- The split at `,` of a content made of well-formed tuples: one token for each tuple. -/
theorem getlineLoop_tuples (ts : List TupleText) (hts : ∀ t ∈ ts, t.WellFormed) :
    ∀ fuel, (tuplesText ts).length < fuel →
      getlineLoop ',' fuel (tuplesText ts) = some (ts.map TupleText.body) := by
  induction ts with
  | nil =>
    intro fuel hfuel
    cases fuel with
    | zero => exact absurd hfuel (Nat.not_lt_zero _)
    | succ fuel => simp [getlineLoop, tuplesText]
  | cons t ts ih =>
    intro fuel hfuel
    cases fuel with
    | zero => exact absurd hfuel (Nat.not_lt_zero _)
    | succ fuel =>
      rw [tuplesText_cons] at hfuel ⊢
      have hcomma : ',' ∉ t.body :=
        not_mem_body t (hts t (List.mem_cons_self _ _)) ',' (by decide) (by decide) (by decide)
          (by decide)
      obtain ⟨h1, h2⟩ := takeUntil_append ',' t.body (tuplesText ts) hcomma
      have hrest := ih (fun t1 h => hts t1 (List.mem_cons_of_mem _ h)) fuel (by
        simp only [List.length_append, List.length_cons] at hfuel
        omega)
      have hne : t.body ++ ',' :: tuplesText ts ≠ [] := by simp
      simp only [getlineLoop, hne, if_false, h1, h2, hrest, List.map_cons]

theorem dropUntil_length (delim : Char) (buf rest : List Char)
    (h : dropUntil delim buf = some rest) : rest.length < buf.length := by
  induction buf with
  | nil => simp [dropUntil] at h
  | cons c cs ih =>
    unfold dropUntil at h
    by_cases hc : c = delim
    · rw [if_pos hc] at h
      simp only [Option.some.injEq] at h
      subst h
      simp
    · rw [if_neg hc] at h
      have := ih h
      simp only [List.length_cons]
      omega

/-- One iteration more than the buffer has characters ends the loop of `getline`. -/
theorem getlineLoop_isSome (delim : Char) :
    ∀ (fuel : Nat) (buf : List Char), buf.length < fuel →
      (getlineLoop delim fuel buf).isSome = true := by
  intro fuel
  induction fuel with
  | zero => intro buf h; exact absurd h (Nat.not_lt_zero _)
  | succ fuel ih =>
    intro buf h
    unfold getlineLoop
    by_cases hb : buf = []
    · simp [hb]
    · rw [if_neg hb]
      cases hd : dropUntil delim buf with
      | none => rfl
      | some rest =>
        have hlen := dropUntil_length delim buf rest hd
        have hsome := ih rest (by omega)
        cases hr : getlineLoop delim fuel rest with
        | none => rw [hr] at hsome; exact absurd hsome (by simp)
        | some tokens => simp [hr]

theorem getlineTokens_isSome (delim : Char) (buf : List Char) :
    (getlineTokens delim buf).isSome = true :=
  getlineLoop_isSome delim _ buf (Nat.lt_succ_self _)

/-- The method `updateGameState` on a content made of well-formed tuples: one position
update for each tuple, in order. -/
theorem updateGameState_tuples (u : Indeterminate) (ts : List TupleText)
    (hts : ∀ t ∈ ts, t.WellFormed) :
    GameClient.updateGameState u (tuplesText ts) = some (ts.map TupleText.call) := by
  unfold GameClient.updateGameState getlineTokens
  rw [getlineLoop_tuples ts hts _ (Nat.lt_succ_self _)]
  simp only [List.map_map, Option.some.injEq]
  apply List.map_congr_left
  intro t ht
  exact parseTuple_body u t (hts t ht)

/-- The read handler on the serialized `STATE_UPDATE` message whose content is made of
well-formed tuples and the closing `;`. -/
theorem onRead_snapshot (u : Indeterminate) (ts : List TupleText)
    (hts : ∀ t ∈ ts, t.WellFormed) :
    GameClient.onRead u ("200 ".toList ++ tuplesText ts ++ [';'])
      = some (ts.map TupleText.call) := by
  have hsemi : ';' ∉ "200 ".toList ++ tuplesText ts := by
    simp only [List.mem_append, not_or]
    exact ⟨by decide, not_mem_tuplesText ts hts ';' (by decide) (by decide) (by decide)
      (by decide) (by decide)⟩
  have hnl : '\n' ∉ tuplesText ts :=
    not_mem_tuplesText ts hts '\n' (by decide) (by decide) (by decide) (by decide) (by decide)
  obtain ⟨h1, h2⟩ := takeUntil_append ';' ("200 ".toList ++ tuplesText ts) [] hsemi
  have hne : "200 ".toList ++ tuplesText ts ++ [';'] ≠ [] := by simp
  have htok : getlineTokens ';' ("200 ".toList ++ tuplesText ts ++ [';'])
      = some ["200 ".toList ++ tuplesText ts] := by
    unfold getlineTokens
    simp only [getlineLoop, hne, if_false, h1, h2]
    cases hl : ("200 ".toList ++ tuplesText ts ++ [';']).length with
    | zero => simp at hl
    | succ n => simp [getlineLoop]
  have hdec : Message.deserialize u.messageType ("200 ".toList ++ tuplesText ts)
      = ⟨RFC.STATE_UPDATE, tuplesText ts⟩ := by
    have := deserialize_token u.messageType false "200".toList ' ' (tuplesText ts)
      (by decide) (by decide) (by decide) (by decide) (by decide)
    rw [takeLine_of_no_newline _ hnl] at this
    exact this
  have hne2 : "200 ".toList ++ tuplesText ts ≠ [] := by simp
  have hk1 : RFC.STATE_UPDATE ≠ RFC.GAME_OVER := by decide
  have hk2 : RFC.STATE_UPDATE ≠ RFC.NEW_ENTITY := by decide
  have hk3 : RFC.STATE_UPDATE ≠ RFC.ENTITY_DEAD := by decide
  unfold GameClient.onRead
  rw [htok]
  simp only [GameClient.handleTokens, ne_eq, hne2, not_false_eq_true, if_true, hdec,
    GameClient.receiveUpdates, updateGameState_tuples u ts hts, hk1, hk2, hk3, if_false,
    List.append_nil]

/-! ## The claim on the parsing of a snapshot -/

/-- C26: the client parses a snapshot.  When a read delivers the serialized `STATE_UPDATE`
message whose content is `1 10.000000 20.000000,2 5.000000 5.000000,;`, the read handler
makes exactly two position updates, `setNewPos(10, 20, 1)` and then `setNewPos(5, 5, 2)`,
and no other call.  In general, for a content of `k` well-formed tuples `<id> <x> <y>,` and
the closing `;`, it makes exactly `k` position updates, the one of each tuple, in the order
of the tuples, whatever the uninitialised locals held; the loops of `getline` always end. -/
theorem C26_client_parses_snapshot (u : Indeterminate) :
    GameClient.onRead u "200 1 10.000000 20.000000,2 5.000000 5.000000,;".toList
      = some [.setNewPos 10 20 1, .setNewPos 5 5 2] ∧
    (∀ ts : List TupleText, (∀ t ∈ ts, t.WellFormed) →
      GameClient.onRead u (Message.serialize ⟨RFC.STATE_UPDATE, tuplesText ts ++ [';']⟩)
        = some (ts.map TupleText.call) ∧
      (ts.map TupleText.call).length = ts.length) ∧
    (∀ (delim : Char) (buf : List Char), (getlineTokens delim buf).isSome = true) := by
  have hser : ∀ ts : List TupleText,
      Message.serialize ⟨RFC.STATE_UPDATE, tuplesText ts ++ [';']⟩
        = "200 ".toList ++ tuplesText ts ++ [';'] := by
    intro ts
    show Message.serialize ⟨⟨200⟩, _⟩ = _
    rw [serialize_of_digits 200 _ _ intToChars_known.1]
    simp [signChars]
  refine ⟨?_, fun ts hts => ⟨?_, List.length_map _ _⟩, getlineTokens_isSome⟩
  · have h := onRead_snapshot u twoTuples (by decide)
    have hdata : "200 ".toList ++ tuplesText twoTuples ++ [';']
        = "200 1 10.000000 20.000000,2 5.000000 5.000000,;".toList := by decide
    have hcalls : twoTuples.map TupleText.call
        = [.setNewPos 10 20 1, .setNewPos 5 5 2] := by decide!
    rw [hdata, hcalls] at h
    exact h
  · rw [hser]
    exact onRead_snapshot u ts hts

/-- C26, at the two tuples of the example: the text is the content of the example, and the
handler makes the two updates. -/
theorem C26_client_parses_snapshot_witness :
    tuplesText twoTuples ++ [';'] = "1 10.000000 20.000000,2 5.000000 5.000000,;".toList ∧
    GameClient.onRead ⟨7, 7, 7, 7⟩
        (Message.serialize ⟨RFC.STATE_UPDATE, tuplesText twoTuples ++ [';']⟩)
      = some (twoTuples.map TupleText.call) :=
  ⟨by decide, ((C26_client_parses_snapshot ⟨7, 7, 7, 7⟩).2.1 twoTuples (by decide)).1⟩

/-! ## The claim on the mutex -/

/-- C27 (the code at the failing input): the simulation thread calls `send` on a connection
while the I/O thread runs the completion handler of a write on it, or calls `getNextMessage`
while the I/O thread runs the completion handler of a read.  None of the four methods holds
the mutex when it changes its queue: `push_back` in `send`, `pop_front` in the write handler,
`push_back` in the read handler and `pop_front` in `getNextMessage` are all made without the
lock, whatever the state of the queue and of the socket (only `writeMessages` and
`startRead` take it, and they release it before they return, so it is never held up to the
completion of an operation they start).  Hence the two threads can change the same queue at
the same time. -/
theorem C27_queue_mutations_unguarded :
    (∀ wasEmpty socketOpen : Bool,
      mutationsGuarded false (Client.sendSteps wasEmpty socketOpen) = false) ∧
    (∀ emptyAfter socketOpen : Bool,
      mutationsGuarded false (Client.onWriteSteps false emptyAfter socketOpen) = false) ∧
    (∀ socketOpen : Bool, mutationsGuarded false (Client.onReadSteps false socketOpen) = false) ∧
    mutationsGuarded false (Client.getNextMessageSteps false) = false ∧
    (∀ empty socketOpen : Bool,
      mutationsGuarded false (Client.writeMessagesSteps empty socketOpen) = true ∧
      heldAfter false (Client.writeMessagesSteps empty socketOpen) = false ∧
      heldAfter false (Client.startReadSteps socketOpen) = false) ∧
    races (Client.sendSteps false true) (Client.onWriteSteps false false true) = true ∧
    races (Client.getNextMessageSteps false) (Client.onReadSteps false true) = true := by
  decide

/-! ## Players and enemies by their ids -/

theorem keepsPlayers_refl (s : Server) : KeepsPlayers s s :=
  ⟨rfl, rfl, fun _ _ h => h, fun _ h => h⟩

theorem keepsPlayers_trans {a b c : Server} (h1 : KeepsPlayers a b) (h2 : KeepsPlayers b c) :
    KeepsPlayers a c :=
  ⟨h2.1.trans h1.1, h2.2.1.trans h1.2.1, fun id v h => h2.2.2.1 id v (h1.2.2.1 id v h),
    fun id h => h1.2.2.2 id (h2.2.2.2 id h)⟩

theorem playersFirst_of_keeps (n : Nat) (s s' : Server) (h : KeepsPlayers s s')
    (hp : PlayersFirst n s) : PlayersFirst n s' := by
  obtain ⟨h1, h2, h3, h4⟩ := h
  obtain ⟨p1, p2, p3, p4, p5, p6⟩ := hp
  refine ⟨fun c hc1 hc2 => h3 c _ (p1 c hc1 hc2), fun id hid => p2 id (h4 id hid), ?_, ?_, ?_, ?_⟩
  · rw [h1, h2]; exact p3
  · rw [h1]; exact p4
  · rw [h1, h2]; exact p5
  · rw [h2]; exact p6

theorem processClientInputs_keeps (s : Server) : KeepsPlayers s s.processClientInputs := by
  refine ⟨(processClients_rest _ s.registry).2.2.1, rfl, fun id v h => ?_, fun id hid => ?_⟩
  · unfold Server.processClientInputs
    dsimp only
    rw [processClients_find_other (Kind.Player, id) _ (fun c _ => by simp)]
    exact h
  · unfold Server.clientIds at hid ⊢
    rw [processClientInputs_queues, List.map_map] at hid
    exact hid

theorem sendToAll_keeps (s : Server) (msg : Message) :
    KeepsPlayers s { s with connectionManager_ := { s.connectionManager_ with
      clients_ := s.connectionManager_.clients_.map (fun c => c.send msg) } } := by
  refine ⟨rfl, rfl, fun _ _ h => h, fun id hid => ?_⟩
  unfold Server.clientIds at hid ⊢
  dsimp only at hid
  rw [map_send_getId] at hid
  exact hid

theorem handlePlayerCollision_keeps (s : Server) (entityId : Int) :
    KeepsPlayers s (s.handlePlayerCollision entityId).1 := by
  have hids : ∀ id ∈ (s.handlePlayerCollision entityId).1.clientIds, id ∈ s.clientIds := by
    intro id hid
    rw [handlePlayerCollision_clientIds] at hid
    exact List.mem_of_mem_erase hid
  cases hf : Server.findClient entityId s.connectionManager_.clients_ with
  | none =>
    refine ⟨?_, ?_, ?_, hids⟩ <;>
      (rw [handlePlayerCollision_not_found s entityId hf]; dsimp only; split_ifs)
    · rfl
    · rfl
    · rfl
    · rfl
    · exact fun _ _ h => h
    · exact fun _ _ h => h
  | some r =>
    obtain ⟨_, hreg, _, _, _, hact, _⟩ := handlePlayerCollision_found s entityId r.1 r.2 hf
    refine ⟨by rw [hreg]; rfl, hact, fun id v h => ?_, hids⟩
    rw [hreg]
    exact h

theorem foldl_handlePlayerCollision_keeps (calls : List CallbackCall) :
    ∀ s : Server, KeepsPlayers s
      (calls.foldl (fun s call => (s.handlePlayerCollision call.playerId).1) s) := by
  induction calls with
  | nil => intro s; exact keepsPlayers_refl s
  | cons c cs ih =>
    intro s
    exact keepsPlayers_trans (handlePlayerCollision_keeps s c.playerId) (ih _)

/-- A system leaves the `Player` entries of the component map as they are. -/
theorem system_update_player (sys : System) (dt : ℚ) (rand : Int → UnitSample)
    (m : ComponentMap) (r : System × ComponentMap × List CallbackCall)
    (h : sys.update dt rand m = some r) (id : Int) (v : Slot)
    (hf : m.find (Kind.Player, id) = some v) : r.2.1.find (Kind.Player, id) = some v := by
  cases sys with
  | enemyMovement ems =>
    unfold System.update at h
    cases hm : ems.update dt rand m with
    | none => simp [hm] at h
    | some m' =>
      simp only [hm, Option.some.injEq] at h
      subst h
      obtain ⟨pair', hp, hfound⟩ := (moveEntries_find ems dt rand m m m' hm (Kind.Player, id)).2 v hf
      rw [moveEntry_skip ems dt _ m _ (Or.inl (by simp))] at hp
      simp only [Option.some.injEq] at hp
      rw [hfound, ← hp]
  | collision cs =>
    simp only [System.update, Option.some.injEq] at h
    subst h
    exact (updateLoop_preserves cs.enemyEntityIds_ ⟨cs.processedCollisions_, m, []⟩).1 _ v hf

theorem updateSystemsLoop_player (dt : ℚ) (rand : Int → UnitSample) (systems : List System) :
    ∀ (m : ComponentMap) (t : List System × ComponentMap × List CallbackCall),
      Registry.updateSystemsLoop dt rand systems m = some t →
      ∀ (id : Int) (v : Slot), m.find (Kind.Player, id) = some v →
        t.2.1.find (Kind.Player, id) = some v := by
  induction systems with
  | nil =>
    intro m t h id v hf
    simp only [Registry.updateSystemsLoop, Option.some.injEq] at h
    subst h
    exact hf
  | cons sys rest ih =>
    intro m t h id v hf
    unfold Registry.updateSystemsLoop at h
    cases hs : sys.update dt rand m with
    | none => simp [hs] at h
    | some r =>
      simp only [hs] at h
      cases hl : Registry.updateSystemsLoop dt rand rest r.2.1 with
      | none => simp [hl] at h
      | some t1 =>
        simp only [hl, Option.some.injEq] at h
        subst h
        exact ih r.2.1 t1 hl id v (system_update_player sys dt rand m r hs id v hf)

theorem updateGameState_keeps (s s' : Server) (dt : ℚ) (rand : Int → UnitSample)
    (h : s.updateGameState dt rand = some s') : KeepsPlayers s s' := by
  unfold Server.updateGameState at h
  cases hu : s.registry.updateSystems dt rand with
  | none => simp [hu] at h
  | some r =>
    simp only [hu, Option.some.injEq] at h
    subst h
    refine keepsPlayers_trans ?_ (foldl_handlePlayerCollision_keeps _ _)
    unfold Registry.updateSystems at hu
    cases hl : Registry.updateSystemsLoop dt rand s.registry.systems_ s.registry.components_ with
    | none => simp [hl] at hu
    | some t =>
      simp only [hl, Option.some.injEq] at hu
      subst hu
      exact ⟨rfl, rfl, fun id v hf => updateSystemsLoop_player dt rand _ _ t hl id v hf,
        fun _ hid => hid⟩

theorem runIteration_keeps (s s' : Server) (dt : ℚ) (rand : Int → UnitSample)
    (h : s.runIteration dt rand = some s') : KeepsPlayers s s' := by
  unfold Server.runIteration at h
  split_ifs at h
  · cases hu : s.processClientInputs.updateGameState dt rand with
    | none => simp [hu] at h
    | some s1 =>
      simp only [hu, Option.some.injEq] at h
      subst h
      exact keepsPlayers_trans (processClientInputs_keeps s)
        (keepsPlayers_trans (updateGameState_keeps _ s1 dt rand hu) (sendToAll_keeps s1 _))
  · simp only [Option.some.injEq] at h
    subst h
    exact keepsPlayers_refl s

theorem map_modify_getId (f : Client → Client) (hf : ∀ c, (f c).getId = c.getId)
    (l : List Client) : ∀ i : Nat, (l.modify f i).map Client.getId = l.map Client.getId := by
  induction l with
  | nil => intro i; simp
  | cons a l ih =>
    intro i
    cases i with
    | zero => simp [hf]
    | succ i => simp [ih i]

theorem mem_setInsert_iff (x y : Int) (l : List Int) : y ∈ setInsert x l ↔ y = x ∨ y ∈ l := by
  induction l with
  | nil => simp [setInsert]
  | cons a l ih =>
    unfold setInsert
    split_ifs with h1 h2
    · simp
    · subst h2
      simp
    · simp only [List.mem_cons, ih]
      tauto

theorem length_setInsert_of_not_mem (x : Int) (l : List Int) (h : x ∉ l) :
    (setInsert x l).length = l.length + 1 := by
  induction l with
  | nil => simp [setInsert]
  | cons a l ih =>
    simp only [List.mem_cons, not_or] at h
    unfold setInsert
    split_ifs with h1 h2
    · simp
    · exact absurd h2 h.1
    · simp [ih h.2]

theorem createEnemy_nextEntityId (s : Server) (u : UnitSample) (hg : s.gameStarted = true)
    (hlen : s.activeEnemies.length < 5) :
    (s.createEnemy u).registry.nextEntityId = wrapInt32 (s.registry.nextEntityId + 1) := by
  have hguard : s.gameStarted = true ∧
      (s.activeEnemies.length : Int) < GameUtilities.MAX_ENEMIES := by
    refine ⟨hg, ?_⟩
    unfold GameUtilities.MAX_ENEMIES
    omega
  unfold Server.createEnemy
  rw [if_pos hguard]
  rfl

/-- The call `createEnemy` keeps the players first: the enemy it creates takes the value of
the id counter, which is above `n`. -/
theorem createEnemy_playersFirst (n : Nat) (hn : n ≤ 2147483640) (s : Server) (u : UnitSample)
    (hp : PlayersFirst n s) : PlayersFirst n (s.createEnemy u) := by
  by_cases hguard : s.gameStarted = true ∧ s.activeEnemies.length < 5
  · obtain ⟨hg, hlen⟩ := hguard
    obtain ⟨p1, p2, p3, p4, p5, p6⟩ := hp
    obtain ⟨_, _, _, hframe, hact, _, hcl, _, _⟩ := createEnemy_spawn s u hg hlen
    have hnext := createEnemy_nextEntityId s u hg hlen
    have hw : wrapInt32 (s.registry.nextEntityId + 1) = s.registry.nextEntityId + 1 := by
      unfold wrapInt32
      omega
    rw [hw] at hnext
    have hnot : s.registry.nextEntityId ∉ s.activeEnemies := fun hmem =>
      absurd (p3 _ hmem).2 (lt_irrefl _)
    refine ⟨fun c hc1 hc2 => ?_, fun id hid => ?_, fun id hid => ?_, ?_, ?_, ?_⟩
    · rw [hframe (Kind.Player, c) (Or.inl rfl)]
      exact p1 c hc1 hc2
    · unfold Server.clientIds at hid
      rw [hcl, map_send_getId] at hid
      exact p2 id hid
    · rw [hact, mem_setInsert_iff] at hid
      rw [hnext]
      rcases hid with hid | hid
      · subst hid
        exact ⟨p4, by omega⟩
      · have := p3 id hid
        exact ⟨this.1, by omega⟩
    · rw [hnext]
      omega
    · rw [hnext, hact, length_setInsert_of_not_mem _ _ hnot]
      push_cast
      omega
    · rw [hact, length_setInsert_of_not_mem _ _ hnot]
      omega
  · rw [createEnemy_skip s u hguard]
    exact hp

theorem exec_playersFirst (n : Nat) (hn : n ≤ 2147483640) (s s' : Server) (op : ServerOp)
    (hop : op.inGame = true) (h : op.exec s = some s') (hp : PlayersFirst n s) :
    PlayersFirst n s' := by
  cases op with
  | processClientInputs =>
    simp only [ServerOp.exec, Option.some.injEq] at h
    subst h
    exact playersFirst_of_keeps n _ _ (processClientInputs_keeps s) hp
  | createEnemy u =>
    simp only [ServerOp.exec, Option.some.injEq] at h
    subst h
    exact createEnemy_playersFirst n hn s u hp
  | createPlayers => exact absurd hop (by decide)
  | notifyNewEntityCreation entityType entityId =>
    simp only [ServerOp.exec, Option.some.injEq] at h
    subst h
    exact playersFirst_of_keeps n _ _ (sendToAll_keeps s _) hp
  | notifyEntityDeath entityId =>
    simp only [ServerOp.exec, Option.some.injEq] at h
    subst h
    exact playersFirst_of_keeps n _ _ (sendToAll_keeps s _) hp
  | startGame u => exact absurd hop (by simp [ServerOp.inGame])
  | updateGameState deltaTime rand =>
    exact playersFirst_of_keeps n _ _ (updateGameState_keeps s s' deltaTime rand h) hp
  | handlePlayerCollision entityId =>
    simp only [ServerOp.exec, Option.some.injEq] at h
    subst h
    exact playersFirst_of_keeps n _ _ (handlePlayerCollision_keeps s entityId) hp
  | sendUpdates =>
    simp only [ServerOp.exec, Option.some.injEq] at h
    subst h
    exact playersFirst_of_keeps n _ _ (sendToAll_keeps s _) hp
  | runIteration dt rand =>
    exact playersFirst_of_keeps n _ _ (runIteration_keeps s s' dt rand h) hp
  | onRead i uninit receivedData =>
    simp only [ServerOp.exec, Option.some.injEq] at h
    subst h
    refine playersFirst_of_keeps n s _ ⟨rfl, rfl, fun _ _ hf => hf, fun id hid => ?_⟩ hp
    unfold Server.clientIds at hid ⊢
    dsimp only at hid
    rw [map_modify_getId (fun client => client.onRead uninit receivedData)
      (fun c => rfl)] at hid
    exact hid

theorem runOps_playersFirst (n : Nat) (hn : n ≤ 2147483640) (ops : List ServerOp) :
    ∀ s s' : Server, (∀ op ∈ ops, op.inGame = true) → runOps s ops = some s' →
      PlayersFirst n s → PlayersFirst n s' := by
  induction ops with
  | nil =>
    intro s s' _ h hp
    simp only [runOps, Option.some.injEq] at h
    subst h
    exact hp
  | cons op ops ih =>
    intro s s' hops h hp
    simp only [runOps] at h
    cases h1 : op.exec s with
    | none => simp [h1] at h
    | some s1 =>
      simp only [h1] at h
      exact ih s1 s' (fun o ho => hops o (List.mem_cons_of_mem _ ho)) h
        (exec_playersFirst n hn s s1 op (hops op (List.mem_cons_self _ _)) h1 hp)

/-- With the id counter at `1` and the clients `1, ..., n` connected in order, `createPlayers`
puts the players first. -/
theorem createPlayers_playersFirst (s : Server) (n : Nat) (hn : n ≤ 2147483640)
    (hmax : s.maxPlayers_ = (n : Int))
    (hids : s.clientIds = (List.range n).map (fun (i : Nat) => (i : Int) + 1))
    (hent : s.registry.entities_ = []) (hnext : s.registry.nextEntityId = 1)
    (hroster : s.activeEnemies = []) :
    ∃ s1, s.createPlayers = some s1 ∧ PlayersFirst n s1 ∧
      s1.registry.nextEntityId = (n : Int) + 1 ∧
      s1.registry.entities_ = (List.range n).map (fun (i : Nat) => (⟨(i : Int) + 1⟩ : Entity)) ∧
      s1.gameStarted = s.gameStarted := by
  have hlen : s.connectionManager_.clients_.length = n := by
    have := congrArg List.length hids
    simpa [Server.clientIds] using this
  obtain ⟨s1, h1, hnx, hents, _, hcomp, hcl, hflags⟩ := createPlayers_spec s n hmax hlen
    (by rw [hnext]; decide) (by rw [hnext]; unfold INT_MAX; omega)
  have hids1 : s1.clientIds = s.clientIds := by
    unfold Server.clientIds
    rw [hcl, List.map_map]
    apply List.map_congr_left
    intro c _
    exact (sendAll_fields _ c).2.1
  refine ⟨s1, h1, ⟨fun c hc1 hc2 => ?_, fun id hid => ?_, fun id hid => ?_, ?_, ?_, ?_⟩, ?_, ?_,
    hflags.2.1⟩
  · have hj : (c - 1).toNat < n := by omega
    have hcj : ((c - 1).toNat : Int) = c - 1 := Int.toNat_of_nonneg (by omega)
    have hlt : (c - 1).toNat < s.connectionManager_.clients_.length := by rw [hlen]; exact hj
    have hget : s.connectionManager_.clients_[(c - 1).toNat]?
        = some (s.connectionManager_.clients_.get ⟨(c - 1).toNat, hlt⟩) :=
      List.getElem?_eq_getElem hlt
    have hid : (s.connectionManager_.clients_.get ⟨(c - 1).toNat, hlt⟩).getId = c := by
      have h2 : s.clientIds[(c - 1).toNat]?
          = some (s.connectionManager_.clients_.get ⟨(c - 1).toNat, hlt⟩).getId := by
        unfold Server.clientIds
        rw [List.getElem?_map, hget]
        rfl
      rw [hids, List.getElem?_map, List.getElem?_range hj] at h2
      simp only [Option.map_some', Option.some.injEq] at h2
      rw [← h2, hcj]
      ring
    have h3 := (hcomp (c - 1).toNat _ hj hget).2.1
    rw [hnext, hcj, hid] at h3
    have hc : (1 : Int) + (c - 1) = c := by ring
    rw [hc] at h3
    exact h3
  · rw [hids1, hids] at hid
    obtain ⟨i, hi, rfl⟩ := List.mem_map.mp hid
    have := List.mem_range.mp hi
    omega
  · rw [hflags.2.2.1, hroster] at hid
    exact absurd hid (List.not_mem_nil _)
  · rw [hnx, hnext]
    omega
  · rw [hnx, hnext, hflags.2.2.1, hroster]
    simp
    omega
  · rw [hflags.2.2.1, hroster]
    simp
  · rw [hnx, hnext]
    ring
  · rw [hents, hent, hnext, List.nil_append]
    apply List.map_congr_left
    intro i _
    rw [add_comm]

theorem mem_of_findClient (entityId : Int) (l : List Client) (i : Nat) (c : Client)
    (h : Server.findClient entityId l = some (i, c)) : c ∈ l ∧ c.getId = entityId := by
  obtain ⟨h1, h2, _⟩ := findClient_some entityId l i c h
  exact ⟨List.getElem?_mem h1, h2⟩

/-! ## The claim on the ids of players and enemies -/

/-- C28: the entity of a player has the id of its client.  Take a server whose registry
holds no entity and has created none (the id counter is at `1`), with an empty roster, to
which the clients `1, ..., n` are connected in this order, `n` being the number of players
awaited (at most `2^31 - 8`, so that the id counter stays an `int`; `main` admits 1 to 4).
Then `createPlayers` succeeds, creates the entities `1, ..., n`, and the entity `c`
carries the player component with `clientId = c` for every `c` in `1..n`.  And in every
state reached after `startGame` by operations of the running game: every enemy of the roster
(every enemy created so far) has an id above `n`, as will the next one; the entity
`Entity(client id)` that `processClientInputs` looks up for a connection carries the player
component of that very client; the search of `handlePlayerCollision` finds a connection only
for the id of the entity of its own player, and finds none for the id of an enemy. -/
theorem C28_entity_id_is_client_id (s : Server) (n : Nat) (u : UnitSample)
    (hn : n ≤ 2147483640) (hmax : s.maxPlayers_ = (n : Int))
    (hids : s.clientIds = (List.range n).map (fun (i : Nat) => (i : Int) + 1))
    (hent : s.registry.entities_ = []) (hnext : s.registry.nextEntityId = 1)
    (hroster : s.activeEnemies = []) :
    (∃ s1, s.createPlayers = some s1 ∧
      s1.registry.entities_ = (List.range n).map (fun (i : Nat) => (⟨(i : Int) + 1⟩ : Entity)) ∧
      (∀ c : Int, 1 ≤ c → c ≤ (n : Int) →
        s1.registry.getComponent Kind.Player ⟨c⟩ = some (.player ⟨c, true⟩)) ∧
      s1.registry.nextEntityId = (n : Int) + 1) ∧
    (∃ s2, s.startGame u = some s2 ∧
      ∀ (ops : List ServerOp) (s3 : Server), (∀ op ∈ ops, op.inGame = true) →
        runOps s2 ops = some s3 →
        (∀ id ∈ s3.activeEnemies, (n : Int) < id) ∧
        (n : Int) < s3.registry.nextEntityId ∧
        (∀ client ∈ s3.connectionManager_.clients_,
          1 ≤ client.getId ∧ client.getId ≤ (n : Int) ∧
          s3.registry.getComponent Kind.Player ⟨client.getId⟩
            = some (.player ⟨client.getId, true⟩)) ∧
        (∀ (entityId : Int) (i : Nat) (client : Client),
          Server.findClient entityId s3.connectionManager_.clients_ = some (i, client) →
          client.getId = entityId ∧ entityId ∉ s3.activeEnemies ∧
          s3.registry.getComponent Kind.Player ⟨entityId⟩
            = some (.player ⟨client.getId, true⟩)) ∧
        (∀ id ∈ s3.activeEnemies,
          Server.findClient id s3.connectionManager_.clients_ = none)) := by
  obtain ⟨s1, h1, hp1, hnx, hents, _⟩ :=
    createPlayers_playersFirst s n hn hmax hids hent hnext hroster
  refine ⟨⟨s1, h1, hents, fun c hc1 hc2 => ?_, hnx⟩, ?_⟩
  · exact getComponent_eq_of_find _ _ ⟨c⟩ _ (hp1.1 c hc1 hc2)
  · refine ⟨{ (s1.createEnemy u) with gameStarted := true }, ?_, fun ops s3 hops hrun => ?_⟩
    · simp [Server.startGame, h1]
    · have hp2 : PlayersFirst n { (s1.createEnemy u) with gameStarted := true } :=
        createEnemy_playersFirst n hn s1 u hp1
      obtain ⟨p1, p2, p3, p4, _, _⟩ := runOps_playersFirst n hn ops _ s3 hops hrun hp2
      have hclient : ∀ client ∈ s3.connectionManager_.clients_,
          1 ≤ client.getId ∧ client.getId ≤ (n : Int) := fun client hc =>
        p2 client.getId (List.mem_map_of_mem Client.getId hc)
      refine ⟨fun id hid => (p3 id hid).1, p4, fun client hc => ?_,
        fun entityId i client hf => ?_, fun id hid => ?_⟩
      · obtain ⟨g1, g2⟩ := hclient client hc
        exact ⟨g1, g2, getComponent_eq_of_find _ _ ⟨client.getId⟩ _ (p1 _ g1 g2)⟩
      · obtain ⟨hmem, hid⟩ := mem_of_findClient entityId _ i client hf
        obtain ⟨g1, g2⟩ := hclient client hmem
        rw [hid] at g1 g2
        refine ⟨hid, fun hin => ?_, ?_⟩
        · have := (p3 entityId hin).1
          omega
        · rw [hid]
          exact getComponent_eq_of_find _ _ ⟨entityId⟩ _ (p1 _ g1 g2)
      · cases hf : Server.findClient id s3.connectionManager_.clients_ with
        | none => rfl
        | some r =>
          obtain ⟨hmem, hid2⟩ := mem_of_findClient id _ r.1 r.2 hf
          have := (hclient r.2 hmem).2
          have := (p3 id hid).1
          omega

/-- C28, at the server for two players to which the clients 1 and 2 are connected: the
entities 1 and 2 are created, and after `startGame` and two calls of `createEnemy` the two
enemies have ids above 2. -/
theorem C28_entity_id_is_client_id_witness :
    (∃ s1, twoClientServer.createPlayers = some s1 ∧
      s1.registry.entities_ = (List.range 2).map (fun (i : Nat) => (⟨(i : Int) + 1⟩ : Entity)) ∧
      (∀ c : Int, 1 ≤ c → c ≤ ((2 : Nat) : Int) →
        s1.registry.getComponent Kind.Player ⟨c⟩ = some (.player ⟨c, true⟩)) ∧
      s1.registry.nextEntityId = ((2 : Nat) : Int) + 1) ∧
    (runOps startedServer [.createEnemy halfSample, .createEnemy halfSample]).map
      (fun s3 => s3.activeEnemies) = some [3, 4] :=
  ⟨(C28_entity_id_is_client_id twoClientServer 2 halfSample (by decide) (by decide)
      (by decide) (by decide) (by decide) (by decide)).1, by decide!⟩

end RType
